import Mathlib

/-!
# SpaceBallistics: the construction-element algebra

A shallow embedding of `Include/SpaceBallistics/ConstrElement.hpp`.

* The dimensioned quantity types of the absent `SpaceBallistics/Types.hpp`
  (`Len`, `Mass`, `MoI`, and the dimension-less `double`) are all carried by one
  numeric type `K`, a linearly ordered field: the arithmetic is exact.  Every
  definition is computable, and evaluates at `K = ℚ`.
* The namespace `Binary64` evaluates the volume-to-level path of `TrCone` with
  every operation rounded to binary64; there the members of `K` that occur are
  the binary64 numbers.
* A C++ `assert` that fails is the result `none`; a method that runs to its
  `return` gives `some` of the value returned.
* The arrays `Len m_CoM[3]` and `MoI m_MoIs[3]` are records of three components,
  named after the axes they belong to.
-/

namespace SpaceBallistics

/-! ## The quantity substrate -/

/-- Modelled from the spec: the sign test `IsPos` of the absent
`SpaceBallistics/Types.hpp` (the unit-safe quantity substrate): the magnitude of
the quantity is strictly positive. -/
abbrev IsPos {K : Type} [LinearOrderedField K] (x : K) : Prop := 0 < x

/-- Modelled from the spec: the sign test `IsNeg` of the absent
`SpaceBallistics/Types.hpp`: the magnitude of the quantity is strictly
negative. -/
abbrev IsNeg {K : Type} [LinearOrderedField K] (x : K) : Prop := x < 0

/-- Modelled from the spec: the test `IsZero` of the absent
`SpaceBallistics/Types.hpp`: the magnitude of the quantity is zero. -/
abbrev IsZero {K : Type} [LinearOrderedField K] (x : K) : Prop := x = 0

/-! ## Data model -/

/-- A C++ array of three quantities, `T a[3]`: `x`, `y`, `z` are `a[0]`, `a[1]`,
`a[2]` (co-ordinates of a point, or moments of inertia wrt OX, OY, OZ). -/
@[ext]
structure Vec3 (K : Type) where
  x : K
  y : K
  z : K
deriving DecidableEq

/-- The data fields of class `ConstrElement`. -/
@[ext]
structure ConstrElement (K : Type) where
  /-- (X,Y,Z) co-ords of the Center of Masses -/
  m_CoM : Vec3 K
  /-- Mass -/
  m_mass : K
  /-- Moments of Inertia wrt the OX, OY and OZ axes -/
  m_MoIs : Vec3 K
  /-- If not set, `m_mass`, `m_MoIs` are not valid yet (but the CoM still is) -/
  m_isFinal : Bool
deriving DecidableEq

namespace ConstrElement

variable {K : Type} [LinearOrderedField K]

/-- The default constructor `ConstrElement()`: all numeric fields are zero and
the element is final. -/
def ctor_default : ConstrElement K :=
  { m_CoM := ⟨0, 0, 0⟩, m_mass := 0, m_MoIs := ⟨0, 0, 0⟩, m_isFinal := true }

/-- The static initialiser `ConstrElement::Init` (the target object is the
result): the fields are stored, then the mass must be positive and no moment of
inertia negative. -/
def Init (a_com : Vec3 K) (a_mass : K) (a_mois : Vec3 K) (a_is_final : Bool) :
    Option (ConstrElement K) :=
  let a_ce : ConstrElement K :=
    { m_CoM := ⟨a_com.x, a_com.y, a_com.z⟩, m_mass := a_mass,
      m_MoIs := ⟨a_mois.x, a_mois.y, a_mois.z⟩, m_isFinal := a_is_final }
  if IsPos a_ce.m_mass ∧ ¬ IsNeg a_ce.m_MoIs.x ∧
      ¬ IsNeg a_ce.m_MoIs.y ∧ ¬ IsNeg a_ce.m_MoIs.z then
    some a_ce
  else none

/-- The non-default constructor `ConstrElement(a_com, a_mass, a_mois,
a_is_final)`, which only calls `Init`. -/
def ctor (a_com : Vec3 K) (a_mass : K) (a_mois : Vec3 K) (a_is_final : Bool) :
    Option (ConstrElement K) :=
  Init a_com a_mass a_mois a_is_final

/-- The loop of `GetMassScale`: every element must be non-final; the nominal
masses are accumulated into `nomTotal`. -/
def GetMassScale.loop : List (ConstrElement K) → K → Option K
  | [], nomTotal => some nomTotal
  | ce :: rest, nomTotal =>
    if ¬ ce.m_isFinal then GetMassScale.loop rest (nomTotal + ce.m_mass) else none

/-- The static method `GetMassScale(a_ces, a_total_mass)`. The list of non-null
pointers is a list of elements. -/
def GetMassScale (a_ces : List (ConstrElement K)) (a_total_mass : K) : Option K :=
  if IsPos a_total_mass then
    match GetMassScale.loop a_ces 0 with
    | none => none
    | some nomTotal =>
      if IsPos nomTotal then
        let scale := a_total_mass / nomTotal
        if scale > 0 then some scale else none
      else none
  else none

/-- The static method `ProRateMass(a_der, a_scale)`, at `Derived =
ConstrElement`. -/
def ProRateMass (a_der : ConstrElement K) (a_scale : K) : Option (ConstrElement K) :=
  if a_scale > 0 then
    let copy := a_der
    if ¬ copy.m_isFinal then
      some { copy with
        m_mass := copy.m_mass * a_scale
        m_MoIs := ⟨copy.m_MoIs.x * a_scale, copy.m_MoIs.y * a_scale,
                   copy.m_MoIs.z * a_scale⟩
        m_isFinal := true }
    else none
  else none

/-- The accessor `GetCoM()`: no precondition. -/
def GetCoM (self : ConstrElement K) : Vec3 K := self.m_CoM

/-- The accessor `IsFinal()`. -/
def IsFinal (self : ConstrElement K) : Bool := self.m_isFinal

/-- The accessor `GetMass()`: asserts that the element is final. -/
def GetMass (self : ConstrElement K) : Option K :=
  if self.m_isFinal then some self.m_mass else none

/-- The accessor `GetMoIs()`: asserts that the element is final. -/
def GetMoIs (self : ConstrElement K) : Option (Vec3 K) :=
  if self.m_isFinal then some self.m_MoIs else none

/-- The method `operator+=`: `self` is `*this` before the call, the result is
`*this` after it. -/
def operator_plus_eq (self a_right : ConstrElement K) : Option (ConstrElement K) :=
  if self.m_isFinal ∧ a_right.m_isFinal ∧
      ¬ (IsZero self.m_mass ∧ IsZero a_right.m_mass) then
    let m0 := self.m_mass
    let m_mass := self.m_mass + a_right.m_mass
    let m_MoIs0 := self.m_MoIs.x + a_right.m_MoIs.x
    let m_MoIs1 := self.m_MoIs.y + a_right.m_MoIs.y
    let m_MoIs2 := self.m_MoIs.z + a_right.m_MoIs.z
    if IsPos m_mass then
      let mu0 := m0 / m_mass
      let mu1 := a_right.m_mass / m_mass
      some
        { m_CoM := ⟨mu0 * self.m_CoM.x + mu1 * a_right.m_CoM.x,
                    mu0 * self.m_CoM.y + mu1 * a_right.m_CoM.y,
                    mu0 * self.m_CoM.z + mu1 * a_right.m_CoM.z⟩
          m_mass := m_mass
          m_MoIs := ⟨m_MoIs0, m_MoIs1, m_MoIs2⟩
          m_isFinal := self.m_isFinal }
    else none
  else none

/-- The method `operator+`: `+=` applied to a copy of `*this`. -/
def operator_plus (self a_right : ConstrElement K) : Option (ConstrElement K) :=
  let res := self
  operator_plus_eq res a_right

/-- The method `operator-=`: `self` is `*this` before the call, the result is
`*this` after it. -/
def operator_minus_eq (self a_right : ConstrElement K) : Option (ConstrElement K) :=
  if self.m_isFinal ∧ a_right.m_isFinal ∧
      ¬ (IsZero self.m_mass ∧ IsZero a_right.m_mass) then
    let m0 := self.m_mass
    let m_mass := self.m_mass - a_right.m_mass
    let m_MoIs0 := self.m_MoIs.x - a_right.m_MoIs.x
    let m_MoIs1 := self.m_MoIs.y - a_right.m_MoIs.y
    let m_MoIs2 := self.m_MoIs.z - a_right.m_MoIs.z
    if IsPos m_mass ∧ IsPos m_MoIs0 ∧ IsPos m_MoIs1 ∧ IsPos m_MoIs2 then
      let mu0 := m0 / m_mass
      let mu1 := a_right.m_mass / m_mass
      some
        { m_CoM := ⟨mu0 * self.m_CoM.x - mu1 * a_right.m_CoM.x,
                    mu0 * self.m_CoM.y - mu1 * a_right.m_CoM.y,
                    mu0 * self.m_CoM.z - mu1 * a_right.m_CoM.z⟩
          m_mass := m_mass
          m_MoIs := ⟨m_MoIs0, m_MoIs1, m_MoIs2⟩
          m_isFinal := self.m_isFinal }
    else none
  else none

/-- The method `operator-`: `-=` applied to a copy of `*this`. -/
def operator_minus (self a_right : ConstrElement K) : Option (ConstrElement K) :=
  let res := self
  operator_minus_eq res a_right

/-- The expression `(A + B) - B`: the sum, then the difference, each of which
may fail. -/
def plus_then_minus (A B : ConstrElement K) : Option (ConstrElement K) :=
  (operator_plus A B).bind fun S => operator_minus S B

/-- The invariant of the data model: the mass and the three moments of inertia
are not negative. -/
def NonNeg (self : ConstrElement K) : Prop :=
  0 ≤ self.m_mass ∧ 0 ≤ self.m_MoIs.x ∧ 0 ≤ self.m_MoIs.y ∧ 0 ≤ self.m_MoIs.z

end ConstrElement

/-- The constructor `PointMass(a_x0, a_y0, a_z0, a_mass)`: a positive mass
concentrated in a point; the base-class part is what `ConstrElement::Init`
stores. -/
def PointMass {K : Type} [LinearOrderedField K] (a_x0 a_y0 a_z0 a_mass : K) :
    Option (ConstrElement K) :=
  let pt : Vec3 K := ⟨a_x0, a_y0, a_z0⟩
  let x2 := a_x0 ^ 2
  let y2 := a_y0 ^ 2
  let z2 := a_z0 ^ 2
  if IsPos a_mass then
    let mois : Vec3 K := ⟨a_mass * (y2 + z2), a_mass * (x2 + z2), a_mass * (x2 + y2)⟩
    ConstrElement.Init pt a_mass mois true
  else none

/-! ## Rotation bodies -/

/-- The numeric constants and functions of the absent `SpaceBallistics/Types.hpp`
and of `<cmath>` that an ordered field does not provide, taken as parameters:
`Pi<double>`, `Eps<double>`, `Cos`, `Sin`, `SqRt` and `CbRt`. (`Sqr`, `Cube`, `Abs`,
`std::min` and `std::max` are the square, the cube, the absolute value, `min` and
`max` of the field; `Pi_2` is `Pi / 2` and `TwoPi` is `2 * Pi`.) -/
structure MathFns (K : Type) where
  Pi : K
  Eps : K
  Cos : K → K
  Sin : K → K
  SqRt : K → K
  CbRt : K → K

/-- A C++ `assert(p)` followed by the rest `k` of the function body: the
execution goes on with `k` when `p` holds and is aborted otherwise. -/
def assertion {α : Type} (p : Prop) [Decidable p] (k : Option α) : Option α :=
  if p then k else none

/-- The data fields of class `RotationBody` on top of those of its base class
`ConstrElement`. The function pointer `m_LoV`, which a derived class sets to its
own `LevelOfVol` and which is only ever called as `m_LoV(v, this)`, is not
stored: `GetPropCE` takes the function `v ↦ m_LoV(v, this)` as an argument. -/
structure RotationBody (K : Type) extends ConstrElement K where
  m_inXY : Bool
  m_inXZ : Bool
  m_cosA : K
  m_sinA : K
  m_left : Vec3 K
  m_h : K
  m_right : Vec3 K
  m_yzR : K
  m_sideSurfArea : K
  m_enclVol : K
  m_rho : K
  m_propMassCap : K
  m_Jx0 : K
  m_Jx1 : K
  m_JxK : K
  m_JxSV : K
  m_Jin0 : K
  m_Jin1 : K
  m_JinK : K
  m_JinSV : K
  m_JortK : K
  m_JortSV : K
  m_JP05 : K
  m_JP04 : K
  m_JP03 : K
  m_JP15 : K
  m_JP14 : K
  m_JP13 : K
  m_JP12 : K
  m_JP11 : K
  m_KP4 : K
  m_KP3 : K
  m_KP2 : K

namespace RotationBody

variable {K : Type} [LinearOrderedField K]

/-- The constant `RotationBody::Tol = 100.0 * Eps<double>`. -/
def Tol (F : MathFns K) : K := 100 * F.Eps

/-- The constant `RotationBody::TolFact = 1.0 + Tol`. -/
def TolFact (F : MathFns K) : K := 1 + Tol F

/-- The method `MoIsCoM`: the XYZ moments of inertia and the CoM from the
"intrinsic" parameters. The two output arrays are returned as the pair
`(a_com, a_mois)`. -/
def MoIsCoM (self : RotationBody K) (a_j0 a_j1 a_k a_sv a_dens : K) :
    Option (Vec3 K × Vec3 K) :=
  assertion (IsPos a_j0 ∧ IsPos a_j1 ∧ IsPos a_sv ∧ IsNeg a_k) <|
  let Jx := self.m_Jx0 * a_j0 + self.m_Jx1 * a_j1 + self.m_JxK * a_k + self.m_JxSV * a_sv
  let Jin := self.m_Jin0 * a_j0 + self.m_Jin1 * a_j1 + self.m_JinK * a_k +
    self.m_JinSV * a_sv
  let Jort := a_j0 + a_j1 + self.m_JortK * a_k + self.m_JortSV * a_sv
  let Jy := if self.m_inXY then Jin else Jort
  let Jz := if self.m_inXZ then Jin else Jort
  let a_mois : Vec3 K := ⟨a_dens * Jx, a_dens * Jy, a_dens * Jz⟩
  assertion (¬ (IsNeg a_mois.x ∨ IsNeg a_mois.y ∨ IsNeg a_mois.z)) <|
  let xiC := a_k / a_sv
  let yzC := self.m_yzR + self.m_sinA * xiC
  let a_com : Vec3 K :=
    ⟨self.m_right.x + self.m_cosA * xiC,
     if self.m_inXY then yzC else 0,
     if self.m_inXZ then yzC else 0⟩
  some (a_com, a_mois)

/-- The stores of `RotationBody::Init` into the `RotationBody` fields of the
object under construction, in the order of the source; its base part is still
default-constructed. (The argument `a_lov` is not modelled, see
`RotationBody`.) -/
def Init.fields (F : MathFns K)
    (a_side_surf_area a_encl_vol a_alpha a_x0 a_y0 a_z0 : K)
    (a_0is_left : Bool) (a_h a_rho : K)
    (a_jp05 a_jp04 a_jp03 a_jp15 a_jp14 a_jp13 a_jp12 a_jp11 a_kp4 a_kp3 a_kp2 : K) :
    RotationBody K :=
  let m_inXY : Bool := decide (IsZero a_z0)
  let m_inXZ : Bool := decide (IsZero a_y0)
  let m_cosA := F.Cos a_alpha
  let m_sinA := F.Sin a_alpha
  let m_h := a_h
  let dyz := m_sinA * m_h
  let m_left : Vec3 K :=
    if a_0is_left then ⟨a_x0, a_y0, a_z0⟩
    else ⟨a_x0 - m_cosA * m_h, if m_inXY then a_y0 - dyz else 0,
          if m_inXZ then a_z0 - dyz else 0⟩
  let m_right : Vec3 K :=
    if a_0is_left then
      ⟨a_x0 + m_cosA * m_h, if m_inXY then a_y0 + dyz else 0,
       if m_inXZ then a_z0 + dyz else 0⟩
    else ⟨a_x0, a_y0, a_z0⟩
  let m_yzR := if m_inXY then m_right.y else m_right.z
  { toConstrElement := ConstrElement.ctor_default
    m_inXY := m_inXY, m_inXZ := m_inXZ, m_cosA := m_cosA, m_sinA := m_sinA
    m_left := m_left, m_h := m_h, m_right := m_right, m_yzR := m_yzR
    m_sideSurfArea := a_side_surf_area, m_enclVol := a_encl_vol
    m_rho := a_rho, m_propMassCap := a_rho * a_encl_vol
    m_Jx0 := m_sinA ^ 2
    m_Jx1 := 1 + m_cosA ^ 2
    m_JxK := 2 * m_sinA * m_yzR
    m_JxSV := m_yzR ^ 2
    m_Jin0 := m_cosA ^ 2
    m_Jin1 := 1 + m_sinA ^ 2
    m_JinK := 2 * m_cosA * m_right.x
    m_JinSV := m_right.x ^ 2
    m_JortK := 2 * (m_cosA * m_right.x + m_sinA * m_yzR)
    m_JortSV := m_right.x ^ 2 + m_yzR ^ 2
    m_JP05 := a_jp05, m_JP04 := a_jp04, m_JP03 := a_jp03
    m_JP15 := a_jp15, m_JP14 := a_jp14, m_JP13 := a_jp13
    m_JP12 := a_jp12, m_JP11 := a_jp11
    m_KP4 := a_kp4, m_KP3 := a_kp3, m_KP2 := a_kp2 }

/-- The object `self` once `ConstrElement::Init(this, ...)` has initialised its
base-class part to `base`; the `RotationBody` fields are untouched. -/
def setBase (self : RotationBody K) (base : ConstrElement K) : RotationBody K :=
  { self with toConstrElement := base }

/-- The method `RotationBody::Init`: the assertions of the source, in its order,
on the fields stored (`Init.fields`: the stores are total and have no effect on
one another, so they are all made first); then the "empty" CoM and moments of
inertia by `MoIsCoM`, and the base-class initialiser `ConstrElement::Init`. The
object under construction is the result. -/
def Init (F : MathFns K)
    (a_side_surf_area a_encl_vol a_mass a_alpha a_x0 a_y0 a_z0 : K)
    (a_0is_left : Bool) (a_h a_je0 a_je1 a_ke a_rho : K)
    (a_jp05 a_jp04 a_jp03 a_jp15 a_jp14 a_jp13 a_jp12 a_jp11 a_kp4 a_kp3 a_kp2 : K) :
    Option (RotationBody K) :=
  let self := Init.fields F a_side_surf_area a_encl_vol a_alpha a_x0 a_y0 a_z0
    a_0is_left a_h a_rho a_jp05 a_jp04 a_jp03 a_jp15 a_jp14 a_jp13 a_jp12 a_jp11
    a_kp4 a_kp3 a_kp2
  assertion (self.m_inXY ∨ self.m_inXZ) <|
  assertion (¬ (self.m_inXY ∧ self.m_inXZ) ∨ a_alpha = 0) <|
  assertion (self.m_cosA > 0 ∧ IsPos self.m_h) <|
  assertion (IsPos self.m_sideSurfArea) <|
  assertion (IsPos self.m_enclVol) <|
  assertion (self.m_inXY ∨ self.m_inXZ) <|
  assertion (¬ (self.m_inXY ∧ self.m_inXZ) ∨ (self.m_cosA = 1 ∧ self.m_sinA = 0)) <|
  assertion (self.m_cosA > 0) <|
  assertion (¬ IsNeg self.m_rho) <|
  let isFinal : Bool := decide (IsPos a_mass)
  let surfDens := if isFinal then a_mass / a_side_surf_area else 1
  let emptyMass := if isFinal then a_mass else a_side_surf_area * surfDens
  (self.MoIsCoM a_je0 a_je1 a_ke a_side_surf_area surfDens).bind fun empty =>
  let emptyCoM := empty.1
  let emptyMoIs := empty.2
  assertion (¬ self.m_inXY ∨ IsZero emptyCoM.z) <|
  assertion (¬ self.m_inXZ ∨ IsZero emptyCoM.y) <|
  (ConstrElement.Init emptyCoM emptyMass emptyMoIs isFinal).bind fun base =>
  some (self.setBase base)

/-- The accessor `GetSideSurfArea()`. -/
def GetSideSurfArea (self : RotationBody K) : K := self.m_sideSurfArea

/-- The accessor `GetEnclVol()`. -/
def GetEnclVol (self : RotationBody K) : K := self.m_enclVol

/-- The accessor `GetHeight()`. -/
def GetHeight (self : RotationBody K) : K := self.m_h

/-- The accessor `GetPropMassCap()`. -/
def GetPropMassCap (self : RotationBody K) : K := self.m_propMassCap

/-- The accessor `GetPropDens()`. -/
def GetPropDens (self : RotationBody K) : K := self.m_rho

/-- The method `GetPropCE(a_prop_mass, a_prop_level)`. `m_LoV` is the function
`v ↦ m_LoV(v, this)` installed by the derived class. The result is the pair of
the `ConstrElement` returned and of the propellant level written through
`a_prop_level` (a caller passing the null pointer ignores it). The quotient
`a_prop_mass / GetPropDens()` is undefined for a zero density: no result. -/
def GetPropCE (F : MathFns K) (self : RotationBody K) (m_LoV : K → Option K)
    (a_prop_mass : K) : Option (ConstrElement K × K) :=
  assertion (¬ IsNeg a_prop_mass ∧ a_prop_mass ≤ self.GetPropMassCap * TolFact F) <|
  assertion (self.GetPropDens ≠ 0) <|
  let propVol := a_prop_mass / self.GetPropDens
  assertion (¬ IsNeg propVol ∧ propVol ≤ self.GetEnclVol * TolFact F) <|
  let propVol := min propVol self.GetEnclVol
  (m_LoV propVol).bind fun l =>
  assertion (¬ IsNeg l ∧ l ≤ self.m_h * TolFact F) <|
  let l := min l self.m_h
  let l2 := l ^ 2
  let l3 := l2 * l
  let JP0 := ((self.m_JP05 * l + self.m_JP04) * l + self.m_JP03) * l3
  let JP1 := (((((self.m_JP15 * l + self.m_JP14) * l + self.m_JP13) * l) + self.m_JP12)
    * l + self.m_JP11) * l
  let KP := ((self.m_KP4 * l + self.m_KP3) * l + self.m_KP2) * l2
  assertion (¬ IsNeg JP0 ∧ ¬ IsNeg JP1 ∧ ¬ IsPos KP) <|
  (self.MoIsCoM JP0 JP1 KP propVol self.GetPropDens).bind fun prop =>
  let com := prop.1
  let mois := prop.2
  (ConstrElement.ctor com a_prop_mass mois true).bind fun res =>
  some (res, l)

end RotationBody

/-! ### The formulas of the specification for `MoIsCoM` -/

/-- The specification's formula
`Jx = sin²α·J0 + (1+cos²α)·J1 + 2·sinα·yzR·K + yzR²·SV`. -/
def MoIsCoM_spec_Jx {K : Type} [LinearOrderedField K]
    (sinA cosA yzR J0 J1 Kc SV : K) : K :=
  sinA ^ 2 * J0 + (1 + cosA ^ 2) * J1 + 2 * sinA * yzR * Kc + yzR ^ 2 * SV

/-- The specification's formula
`Jin = cos²α·J0 + (1+sin²α)·J1 + 2·cosα·xR·K + xR²·SV`. -/
def MoIsCoM_spec_Jin {K : Type} [LinearOrderedField K]
    (sinA cosA xR J0 J1 Kc SV : K) : K :=
  cosA ^ 2 * J0 + (1 + sinA ^ 2) * J1 + 2 * cosA * xR * Kc + xR ^ 2 * SV

/-- The specification's formula
`Jort = J0 + J1 + 2·(cosα·xR+sinα·yzR)·K + (xR²+yzR²)·SV`. -/
def MoIsCoM_spec_Jort {K : Type} [LinearOrderedField K]
    (sinA cosA xR yzR J0 J1 Kc SV : K) : K :=
  J0 + J1 + 2 * (cosA * xR + sinA * yzR) * Kc + (xR ^ 2 + yzR ^ 2) * SV

/-! ## Truncated cones -/

/-- The data fields of class `TrCone`: the `RotationBody` it derives from
(`base`) and its own geometry. -/
structure TrCone (K : Type) where
  base : RotationBody K
  /-- Left (Upper, Smaller-X) base radius -/
  m_r : K
  /-- Right (Lower, Larger-X) base radius -/
  m_R : K
  /-- Duplicate of `RotationBody::m_h` -/
  m_h : K
  m_deltaR : K
  m_clVol : K
  m_Rh : K
  m_Rh3 : K

namespace TrCone

variable {K : Type} [LinearOrderedField K]

/-- The method `TrCone::LevelOfVol(a_v)`; the static `LevelOfVol(a_v, a_ctx)`
casts its context to a `TrCone` and calls it. (In exact arithmetic, as all of
this section; `Binary64.TrCone.LevelOfVol` is the same method with every
operation rounded.) -/
def LevelOfVol (F : MathFns K) (self : TrCone K) (a_v : K) : Option K :=
  assertion (¬ IsNeg a_v ∧ a_v ≤ self.base.GetEnclVol) <|
  some <|
    if IsZero self.m_deltaR then
      a_v / self.base.GetEnclVol * self.m_h
    else
      (self.m_Rh - F.CbRt (self.m_Rh3 - self.m_clVol * a_v)) / self.m_deltaR

/-- The general constructor `TrCone(a_x0, a_y0, a_z0, a_alpha, a_d0, a_d1, a_h,
a_rho, a_empty_mass)`. -/
def ctor (F : MathFns K) (a_x0 a_y0 a_z0 a_alpha a_d0 a_d1 a_h a_rho a_empty_mass : K) :
    Option (TrCone K) :=
  assertion (IsPos a_h ∧ ¬ IsNeg a_d0 ∧ ¬ IsNeg a_d1 ∧
    ¬ (IsZero a_d0 ∧ IsZero a_d1) ∧ |a_alpha| < F.Pi / 2 ∧
    ¬ IsNeg a_rho ∧ ¬ IsNeg a_empty_mass) <|
  let m_r := a_d0 / 2
  let m_R := a_d1 / 2
  let m_h := a_h
  let m_deltaR := m_R - m_r
  let h2 := m_h ^ 2
  let m_clVol := 3 / F.Pi * h2 * m_deltaR
  let m_Rh := m_R * m_h
  let m_Rh3 := m_Rh ^ 3
  let s := F.SqRt (m_deltaR ^ 2 + h2)
  let a := m_deltaR / m_h
  let a2 := a ^ 2
  let a3 := a2 * a
  let a4 := a2 ^ 2
  let R2 := m_R ^ 2
  let R3 := R2 * m_R
  let R4 := R2 ^ 2
  let r2 := m_r ^ 2
  let sideSurfArea := F.Pi * s * (m_R + m_r)
  let enclVol := F.Pi / 3 * m_h * (R2 + m_R * m_r + r2)
  let JE0 := F.Pi * h2 * s * (m_r / 2 + m_R / 6)
  let JE1 := F.Pi / 4 * s * (m_R + m_r) * (R2 + r2)
  let KE := -F.Pi / 3 * s * m_h * (2 * m_r + m_R)
  let JP05 := F.Pi / 5 * a2
  let JP04 := -F.Pi / 2 * a * m_R
  let JP03 := F.Pi / 3 * R2
  let JP15 := F.Pi / 20 * a4
  let JP14 := -F.Pi / 4 * a3 * m_R
  let JP13 := F.Pi / 2 * a2 * R2
  let JP12 := -F.Pi / 2 * a * R3
  let JP11 := F.Pi / 4 * R4
  let KP4 := -F.Pi / 4 * a2
  let KP3 := F.Pi * 2 / 3 * a * m_R
  let KP2 := -F.Pi / 2 * R2
  (RotationBody.Init F sideSurfArea enclVol a_empty_mass
    a_alpha a_x0 a_y0 a_z0 true m_h JE0 JE1 KE a_rho
    JP05 JP04 JP03 JP15 JP14 JP13 JP12 JP11 KP4 KP3 KP2).bind fun base =>
  some { base := base, m_r := m_r, m_R := m_R, m_h := m_h, m_deltaR := m_deltaR
         m_clVol := m_clVol, m_Rh := m_Rh, m_Rh3 := m_Rh3 }

/-- The constructor `TrCone(a_x0, a_d0, a_d1, a_h, a_rho, a_empty_mass)`: the
rotation axis coincides with OX. -/
def ctor_OX (F : MathFns K) (a_x0 a_d0 a_d1 a_h a_rho a_empty_mass : K) :
    Option (TrCone K) :=
  ctor F a_x0 0 0 0 a_d0 a_d1 a_h a_rho a_empty_mass

/-- The constructor `TrCone(a_x0, a_d0, a_h, a_rho, a_empty_mass)`: a cylinder
(`d0 = d1`) whose axis coincides with OX. -/
def ctor_cylinder (F : MathFns K) (a_x0 a_d0 a_h a_rho a_empty_mass : K) :
    Option (TrCone K) :=
  ctor F a_x0 0 0 0 a_d0 a_d0 a_h a_rho a_empty_mass

/-- The call `GetPropCE(a_prop_mass, &level)` on a `TrCone`: the inherited
method, with `m_LoV` the `LevelOfVol` of this truncated cone. -/
def GetPropCE (F : MathFns K) (self : TrCone K) (a_prop_mass : K) :
    Option (ConstrElement K × K) :=
  self.base.GetPropCE F (self.LevelOfVol F) a_prop_mass

/-- The static method `ConstrElement::ProRateMass(a_der, a_scale)` at `Derived =
TrCone`: the copy has the `ConstrElement` part scaled; every other field of the
`TrCone` is unaffected. -/
def ProRateMass (a_der : TrCone K) (a_scale : K) : Option (TrCone K) :=
  (ConstrElement.ProRateMass a_der.base.toConstrElement a_scale).bind fun ce =>
  some { a_der with base := a_der.base.setBase ce }

end TrCone

/-! ## Spherical segments -/

/-- The data fields of class `SpherSegm`: the `RotationBody` it derives from
(`base`) and its own geometry. -/
structure SpherSegm (K : Type) where
  base : RotationBody K
  /-- Segment Base Radius -/
  m_r : K
  /-- Sphere Radius -/
  m_R : K
  /-- Radius^3 -/
  m_R3 : K
  m_facingRight : Bool

namespace SpherSegm

variable {K : Type} [LinearOrderedField K]

/-- The loop of `LevelOfVolRight`, by the number of iterations left (`N - i`):
one Halley step, then the exit test. With no iteration left the loop ends with
`i = N` and `assert(i < N)` fails. A zero denominator gives no result (the
quotient is undefined). -/
def LevelOfVolRight.loop (tv Tol : K) : Nat → K → Option K
  | 0, _ => none
  | n + 1, x =>
    let x2 := x ^ 2
    let x3 := x2 * x
    let x4 := x2 ^ 2
    let den := 2 * x4 - 8 * x3 + 9 * x2 + tv * (1 - x)
    if den = 0 then none
    else
      let dx := x * (x - 2) * (x3 - 3 * x2 + tv) / den
      let x' := x - dx
      if |dx| < Tol then some x' else LevelOfVolRight.loop tv Tol n x'

/-- The method `LevelOfVolRight(a_v)`: Halley's method for `x^2*(3-x) = v`,
started at `x = 1/2`, with at most `N = 100` iterations. -/
def LevelOfVolRight (F : MathFns K) (self : SpherSegm K) (a_v : K) : Option K :=
  let tv := 3 * (a_v / self.m_R3) / F.Pi
  let Tol := 100 * F.Eps
  assertion (0 ≤ tv ∧ tv < 2 + Tol) <|
  let tv := min 2 tv
  (LevelOfVolRight.loop tv Tol 100 (1 / 2)).bind fun x =>
  let x := max (min x 1) 0
  some (x * self.m_R)

/-- The method `LevelOfVolLeft(a_v)`. -/
def LevelOfVolLeft (F : MathFns K) (self : SpherSegm K) (a_v : K) : Option K :=
  assertion (¬ IsNeg a_v ∧ a_v ≤ self.base.GetEnclVol) <|
  (LevelOfVolRight F self (self.base.GetEnclVol - a_v)).bind fun r =>
  let res := self.base.GetHeight - r
  assertion (¬ IsNeg res ∧ res ≤ self.base.GetHeight) <|
  some res

/-- The static `LevelOfVol(a_v, a_ctx)`: dispatch on the facing flag. -/
def LevelOfVol (F : MathFns K) (self : SpherSegm K) (a_v : K) : Option K :=
  if self.m_facingRight then LevelOfVolRight F self a_v else LevelOfVolLeft F self a_v

/-- The general constructor `SpherSegm(a_facing_right, a_x0, a_y0, a_z0, a_alpha,
a_d, a_h, a_rho, a_empty_mass)`. -/
def ctor (F : MathFns K) (a_facing_right : Bool)
    (a_x0 a_y0 a_z0 a_alpha a_d a_h a_rho a_empty_mass : K) : Option (SpherSegm K) :=
  assertion (IsPos a_d ∧ IsPos a_h ∧ |a_alpha| < F.Pi / 2 ∧
    ¬ IsNeg a_rho ∧ ¬ IsNeg a_empty_mass) <|
  let m_r := a_d / 2
  assertion (a_h ≤ m_r * (1 + 10 * F.Eps)) <|
  let m_R := (m_r ^ 2 / a_h + a_h) / 2
  let m_R3 := m_R ^ 3
  let h2 := a_h ^ 2
  let h3 := a_h * h2
  let R2 := m_R ^ 2
  let sideSurfArea := 2 * F.Pi * m_R * a_h
  let enclVol := F.Pi * h2 * (m_R - a_h / 3)
  let JE0 := 2 * F.Pi / 3 * m_R * h3
  let JE1 := m_R * enclVol
  let KE := -F.Pi * m_R * h2
  let Rmh := m_R - a_h
  assertion (¬ IsNeg Rmh) <|
  let TRmh := m_R + Rmh
  let JP05 := -F.Pi / 5
  let JP04 := F.Pi / 2 * (if a_facing_right then m_R else -Rmh)
  let JP03 := if a_facing_right then 0 else F.Pi / 3 * TRmh * a_h
  let JP15 := F.Pi / 20
  let JP14 := F.Pi / 4 * (if a_facing_right then -m_R else Rmh)
  let JP13 := F.Pi * (if a_facing_right then R2 / 3 else R2 / 3 - m_R * a_h + h2 / 2)
  let JP12 := if a_facing_right then 0 else -F.Pi / 2 * Rmh * TRmh * a_h
  let JP11 := if a_facing_right then 0 else F.Pi / 4 * TRmh ^ 2 * h2
  let KP4 := F.Pi / 4
  let KP3 := F.Pi * 2 / 3 * (if a_facing_right then -m_R else Rmh)
  let KP2 := if a_facing_right then 0 else -F.Pi / 2 * TRmh * a_h
  (RotationBody.Init F sideSurfArea enclVol a_empty_mass
    a_alpha a_x0 a_y0 a_z0 a_facing_right a_h JE0 JE1 KE a_rho
    JP05 JP04 JP03 JP15 JP14 JP13 JP12 JP11 KP4 KP3 KP2).bind fun base =>
  some { base := base, m_r := m_r, m_R := m_R, m_R3 := m_R3
         m_facingRight := a_facing_right }

/-- The call `GetPropCE(a_prop_mass, &level)` on a `SpherSegm`: the inherited
method, with `m_LoV` the `LevelOfVol` of this segment. -/
def GetPropCE (F : MathFns K) (self : SpherSegm K) (a_prop_mass : K) :
    Option (ConstrElement K × K) :=
  self.base.GetPropCE F (self.LevelOfVol F) a_prop_mass

end SpherSegm

/-! ## Halley's method, as the specification words it -/

section HalleySpec

variable {K : Type} [LinearOrderedField K]

/-- The function whose root `LevelOfVolRight` seeks: `f(x) = x^3 - 3*x^2 + v`
(the equation `x^2*(3-x) = v`). -/
def Halley_f (v x : K) : K := x ^ 3 - 3 * x ^ 2 + v

/-- The first derivative `f'(x) = 3*x^2 - 6*x`. -/
def Halley_df (x : K) : K := 3 * x ^ 2 - 6 * x

/-- The second derivative `f''(x) = 6*x - 6`. -/
def Halley_d2f (x : K) : K := 6 * x - 6

/-- The Halley step of the specification for `f`:
`2*f*f' / (2*f'^2 - f*f'')`. -/
def Halley_step_spec (v x : K) : K :=
  2 * Halley_f v x * Halley_df x / (2 * Halley_df x ^ 2 - Halley_f v x * Halley_d2f x)

end HalleySpec

/-! ## The Soyuz-2.1b strap-on booster constants (`Booster.h`) -/

namespace Soyuz21b_Booster

/-- `EmptyMass = 3815.0_kg`. -/
def EmptyMass : ℚ := 3815

/-- `EngMass = 1090.0_kg`. -/
def EngMass : ℚ := 1090

/-- `FuelMass = 11458.0_kg * 1.002`. -/
def FuelMass : ℚ := 11458 * 1.002

/-- `OxidMass = 27903.0_kg`. -/
def OxidMass : ℚ := 27903

/-- `FuelRem = 215.0_kg * 1.002`. -/
def FuelRem : ℚ := 215 * 1.002

/-- `OxidRem = 451.0_kg`. -/
def OxidRem : ℚ := 451

/-- `IspVernSL1 = 251.9_sec`. -/
def IspVernSL1 : ℚ := 251.9

/-- `ThrustVernSL1 = 2700.0_kg * g0`; the standard gravity `g0` (defined outside
`src/`) is a parameter. -/
def ThrustVernSL1 (g0 : ℚ) : ℚ := 2700 * g0

/-- `ThrustVernSL2 = 2.0 * ThrustVernSL1`. -/
def ThrustVernSL2 (g0 : ℚ) : ℚ := 2 * ThrustVernSL1 g0

/-- `IspMainSL = 263.3_sec`. -/
def IspMainSL : ℚ := 263.3

/-- `ThrustMainSL = 85600.0_kg * g0 - ThrustVernSL2`. -/
def ThrustMainSL (g0 : ℚ) : ℚ := 85600 * g0 - ThrustVernSL2 g0

/-- `MainMR = ThrustMainSL / (IspMainSL * g0)`. -/
def MainMR (g0 : ℚ) : ℚ := ThrustMainSL g0 / (IspMainSL * g0)

/-- `VernMR1 = ThrustVernSL1 / (IspVernSL1 * g0)`. -/
def VernMR1 (g0 : ℚ) : ℚ := ThrustVernSL1 g0 / (IspVernSL1 * g0)

/-- `VernMR2 = 2.0 * VernMR1`. -/
def VernMR2 (g0 : ℚ) : ℚ := 2 * VernMR1 g0

/-- `EngineMR = MainMR + VernMR2`. -/
def EngineMR (g0 : ℚ) : ℚ := MainMR g0 + VernMR2 g0

/-- `OxidFuelRatio = double((OxidMass - OxidRem) / (FuelMass - FuelRem))`. -/
def OxidFuelRatio : ℚ := (OxidMass - OxidRem) / (FuelMass - FuelRem)

/-- `FuelPart = 1.0 / (1.0 + OxidFuelRatio)`. -/
def FuelPart : ℚ := 1 / (1 + OxidFuelRatio)

/-- `OxidPart = OxidFuelRatio * FuelPart`. -/
def OxidPart : ℚ := OxidFuelRatio * FuelPart

/-- `FuelMR = EngineMR * FuelPart`. -/
def FuelMR (g0 : ℚ) : ℚ := EngineMR g0 * FuelPart

/-- `OxidMR = EngineMR * OxidPart`. -/
def OxidMR (g0 : ℚ) : ℚ := EngineMR g0 * OxidPart

/-- `IgnAdvance = 15.0_sec`. -/
def IgnAdvance : ℚ := 15

/-- `IntTime = 6.0_sec`. -/
def IntTime : ℚ := 6

/-- `IgnThrottlLevel = 0.25`. -/
def IgnThrottlLevel : ℚ := 0.25

/-- `FuelMass0 = FuelMass - FuelMR * IgnAdvance * IgnThrottlLevel`. -/
def FuelMass0 (g0 : ℚ) : ℚ := FuelMass - FuelMR g0 * IgnAdvance * IgnThrottlLevel

/-- `OxidMass0 = OxidMass - OxidMR * IgnAdvance * IgnThrottlLevel`. -/
def OxidMass0 (g0 : ℚ) : ℚ := OxidMass - OxidMR g0 * IgnAdvance * IgnThrottlLevel

/-- `IntThrottlLevel = 0.75`. -/
def IntThrottlLevel : ℚ := 0.75

/-- `FuelMassI = FuelMass0 - FuelMR * IntTime * IntThrottlLevel`. -/
def FuelMassI (g0 : ℚ) : ℚ := FuelMass0 g0 - FuelMR g0 * IntTime * IntThrottlLevel

/-- `OxidMassI = OxidMass0 - OxidMR * IntTime * IntThrottlLevel`. -/
def OxidMassI (g0 : ℚ) : ℚ := OxidMass0 g0 - OxidMR g0 * IntTime * IntThrottlLevel

/-- `ThrottlAdvance = 5.7_sec`. -/
def ThrottlAdvance : ℚ := 5.7

/-- `ShutDownThrottlLevel = 0.75`. -/
def ShutDownThrottlLevel : ℚ := 0.75

/-- `ShutDownSpentPropMass = EngineMR * ShutDownThrottlLevel * ThrottlAdvance`. -/
def ShutDownSpentPropMass (g0 : ℚ) : ℚ :=
  EngineMR g0 * ShutDownThrottlLevel * ThrottlAdvance

/-- `FullThrustPropMass =
FuelMassI + OxidMassI - ShutDownSpentPropMass - FuelRem - OxidRem`. -/
def FullThrustPropMass (g0 : ℚ) : ℚ :=
  FuelMassI g0 + OxidMassI g0 - ShutDownSpentPropMass g0 - FuelRem - OxidRem

end Soyuz21b_Booster

/-! ## The volume-to-level path of `TrCone` in binary64 arithmetic

The definitions above compute in an exact field. In the Cardano branch of
`TrCone::LevelOfVol` the argument of the cube root, `m_Rh3 - m_clVol * a_v`, is
the difference of two nearly equal numbers when the cone is nearly full, and
what the program returns there is decided by the rounding of each `double`
operation. This section repeats the statements of the source that lead from
the constructor arguments to the propellant level, every arithmetic operation
being rounded to binary64 the way IEEE 754 prescribes (to nearest, ties to
even; each operation on its own, no fused multiply-add). -/

namespace Binary64

variable {K : Type} [LinearOrderedField K] [FloorRing K]

/-- The integer nearest to `q`; the even one of the two nearest when `q` lies
half-way between two integers. -/
def roundHalfEven (q : K) : ℤ :=
  let f := ⌊q⌋
  let r := q - f
  if r < 1 / 2 then f
  else if 1 / 2 < r then f + 1
  else if f % 2 = 0 then f else f + 1

/-- The number an arithmetic operation of type `double` stores when its exact
result is `x`: with `e` such that `2 ^ (e + 52) <= |x| < 2 ^ (e + 53)`, the
multiple of `2 ^ e` nearest to `x` (a significand of 53 bits), the even multiple
in a tie. The exponent range of the format is not modelled: there is no
overflow and there are no subnormal numbers. -/
def RN (x : K) : K :=
  if x = 0 then 0
  else
    let e : ℤ := Int.log 2 |x| - 52
    roundHalfEven (x / 2 ^ e) * 2 ^ e

/-- The constant `RotationBody::Tol = 100.0 * Eps<double>`, rounded. -/
def Tol (F : MathFns K) : K := RN (100 * F.Eps)

/-- The constant `RotationBody::TolFact = 1.0 + Tol`, rounded. -/
def TolFact (F : MathFns K) : K := RN (1 + Tol F)

/-- The fields of a `TrCone` object, its own and those of its `RotationBody`
part, that `TrCone::LevelOfVol` and the statements of `GetPropCE` up to the
store of the propellant level read. -/
structure TrCone (K : Type) where
  m_h : K
  m_deltaR : K
  m_clVol : K
  m_Rh : K
  m_Rh3 : K
  m_enclVol : K
  m_rho : K
  m_propMassCap : K

namespace TrCone

/-- The values that the constructor `TrCone(..., a_d0, a_d1, a_h, a_rho, ...)`
stores in those fields: the statements `m_r = a_d0 / 2.0` to
`m_Rh3 = Cube(m_Rh)` and `R2`, `r2`, `enclVol` of the constructor, and the
stores `m_enclVol = a_encl_vol`, `m_rho = a_rho` and
`m_propMassCap = m_rho * a_encl_vol` of `RotationBody::Init`, each operation
rounded (`Sqr(x)` is `x * x` and `Cube(x)` is `x * x * x`). The assertions of
the constructor and of `Init`, and their stores into the other fields, are those
of `SpaceBallistics.TrCone.ctor`; they do not enter here: these are the values
the fields hold once the constructor has returned. -/
def ctor_fields (F : MathFns K) (a_d0 a_d1 a_h a_rho : K) : TrCone K :=
  let m_r := RN (a_d0 / 2)
  let m_R := RN (a_d1 / 2)
  let m_h := a_h
  let m_deltaR := RN (m_R - m_r)
  let h2 := RN (m_h * m_h)
  let m_clVol := RN (RN (RN (3 / F.Pi) * h2) * m_deltaR)
  let m_Rh := RN (m_R * m_h)
  let m_Rh3 := RN (RN (m_Rh * m_Rh) * m_Rh)
  let R2 := RN (m_R * m_R)
  let r2 := RN (m_r * m_r)
  let enclVol := RN (RN (RN (F.Pi / 3) * m_h) * RN (RN (R2 + RN (m_R * m_r)) + r2))
  { m_h := m_h, m_deltaR := m_deltaR, m_clVol := m_clVol, m_Rh := m_Rh, m_Rh3 := m_Rh3
    m_enclVol := enclVol, m_rho := a_rho, m_propMassCap := RN (a_rho * enclVol) }

/-- The method `TrCone::LevelOfVol(a_v)`, each operation rounded. The cube root
`CbRt` returns whatever the parameter `F.CbRt` does. -/
def LevelOfVol (F : MathFns K) (self : TrCone K) (a_v : K) : Option K :=
  assertion (¬ IsNeg a_v ∧ a_v ≤ self.m_enclVol) <|
  some <|
    if IsZero self.m_deltaR then
      RN (RN (a_v / self.m_enclVol) * self.m_h)
    else
      RN (RN (self.m_Rh - F.CbRt (RN (self.m_Rh3 - RN (self.m_clVol * a_v)))) /
        self.m_deltaR)

/-- The statements of `RotationBody::GetPropCE(a_prop_mass, a_prop_level)` from
its first assertion to the store `*a_prop_level = l`, each operation rounded,
on a `TrCone` (`m_LoV` is its `LevelOfVol`): the level stored through
`a_prop_level`, or nothing when one of the three assertions before that store
fails, in which case `GetPropCE` does not return either. With a zero density
the quotient `a_prop_mass / GetPropDens()` is an infinity or a NaN, which the
assertion after it rejects: no result. -/
def GetPropCE_level (F : MathFns K) (self : TrCone K) (a_prop_mass : K) : Option K :=
  assertion (¬ IsNeg a_prop_mass ∧ a_prop_mass ≤ RN (self.m_propMassCap * TolFact F)) <|
  assertion (self.m_rho ≠ 0) <|
  let propVol := RN (a_prop_mass / self.m_rho)
  assertion (¬ IsNeg propVol ∧ propVol ≤ RN (self.m_enclVol * TolFact F)) <|
  let propVol := min propVol self.m_enclVol
  (self.LevelOfVol F propVol).bind fun l =>
  assertion (¬ IsNeg l ∧ l ≤ RN (self.m_h * TolFact F)) <|
  some (min l self.m_h)

end TrCone

end Binary64

/-! ## Concrete elements used as test inputs -/

/-- A unit point mass on the OX axis, at (1, 0, 0): `PointMass(1, 0, 0, 1)`. -/
def pmOnAxis : ConstrElement ℚ :=
  { m_CoM := ⟨1, 0, 0⟩, m_mass := 1, m_MoIs := ⟨0, 1, 1⟩, m_isFinal := true }

/-- A point mass off the axes, at (1, 2, 3), of mass 2: `PointMass(1, 2, 3, 2)`. -/
def pmOffAxis : ConstrElement ℚ :=
  { m_CoM := ⟨1, 2, 3⟩, m_mass := 2, m_MoIs := ⟨26, 20, 10⟩, m_isFinal := true }

/-- A point mass at (-1, 1, 0), of mass 3: `PointMass(-1, 1, 0, 3)`. -/
def pmThree : ConstrElement ℚ :=
  { m_CoM := ⟨-1, 1, 0⟩, m_mass := 3, m_MoIs := ⟨3, 3, 6⟩, m_isFinal := true }

/-- A final element of mass 3 with moments (1, 2, 2), as built by
`ConstrElement({0,0,0}, 3, {1,2,2}, true)`. -/
def bodyA : ConstrElement ℚ :=
  { m_CoM := ⟨0, 0, 0⟩, m_mass := 3, m_MoIs := ⟨1, 2, 2⟩, m_isFinal := true }

/-- A final element of mass 1 with moments (1, 1, 1), as built by
`ConstrElement({0,0,0}, 1, {1,1,1}, true)`. -/
def bodyB : ConstrElement ℚ :=
  { m_CoM := ⟨0, 0, 0⟩, m_mass := 1, m_MoIs := ⟨1, 1, 1⟩, m_isFinal := true }

/-- A non-final element of nominal mass 4 (a shell with unit surface density). -/
def shellA : ConstrElement ℚ :=
  { m_CoM := ⟨1, 0, 0⟩, m_mass := 4, m_MoIs := ⟨2, 3, 3⟩, m_isFinal := false }

/-- A non-final element of nominal mass 6. -/
def shellB : ConstrElement ℚ :=
  { m_CoM := ⟨5, 0, 0⟩, m_mass := 6, m_MoIs := ⟨1, 7, 7⟩, m_isFinal := false }

/-! ## Theorems -/

open ConstrElement

section Algebra

variable {K : Type} [LinearOrderedField K]

/-- The sum of two non-negative masses that are not both zero is positive. -/
theorem mass_sum_pos {a b : K} (ha : 0 ≤ a) (hb : 0 ≤ b) (hz : ¬ (a = 0 ∧ b = 0)) :
    0 < a + b := by
  rcases ha.lt_or_eq with h | h
  · exact add_pos_of_pos_of_nonneg h hb
  · rcases hb.lt_or_eq with h' | h'
    · exact add_pos_of_nonneg_of_pos ha h'
    · exact absurd ⟨h.symm, h'.symm⟩ hz

/-- The value of `A + B` when both assertions of `operator+=` hold. -/
theorem operator_plus_eq_some (A B : ConstrElement K)
    (hA : A.m_isFinal = true) (hB : B.m_isFinal = true)
    (hz : ¬ (A.m_mass = 0 ∧ B.m_mass = 0)) (hpos : 0 < A.m_mass + B.m_mass) :
    operator_plus A B = some
      { m_CoM :=
          ⟨A.m_mass / (A.m_mass + B.m_mass) * A.m_CoM.x +
             B.m_mass / (A.m_mass + B.m_mass) * B.m_CoM.x,
           A.m_mass / (A.m_mass + B.m_mass) * A.m_CoM.y +
             B.m_mass / (A.m_mass + B.m_mass) * B.m_CoM.y,
           A.m_mass / (A.m_mass + B.m_mass) * A.m_CoM.z +
             B.m_mass / (A.m_mass + B.m_mass) * B.m_CoM.z⟩
        m_mass := A.m_mass + B.m_mass
        m_MoIs := ⟨A.m_MoIs.x + B.m_MoIs.x, A.m_MoIs.y + B.m_MoIs.y,
                   A.m_MoIs.z + B.m_MoIs.z⟩
        m_isFinal := true } := by
  simp only [operator_plus, operator_plus_eq, IsZero, IsPos, hA, hB, hz, hpos,
    true_and, not_false_eq_true, if_true, and_self]

/-- C1. For finalized `A`, `B` with non-negative masses that are not both zero,
`A + B` succeeds; its mass is `A.Mass + B.Mass` and each of its three moments of
inertia is the sum of the corresponding moments of `A` and `B`. -/
theorem operator_plus_mass_MoI (A B : ConstrElement K)
    (hA : A.m_isFinal = true) (hB : B.m_isFinal = true)
    (hmA : 0 ≤ A.m_mass) (hmB : 0 ≤ B.m_mass)
    (hz : ¬ (A.m_mass = 0 ∧ B.m_mass = 0)) :
    ∃ R, operator_plus A B = some R ∧
      R.m_mass = A.m_mass + B.m_mass ∧
      R.m_MoIs.x = A.m_MoIs.x + B.m_MoIs.x ∧
      R.m_MoIs.y = A.m_MoIs.y + B.m_MoIs.y ∧
      R.m_MoIs.z = A.m_MoIs.z + B.m_MoIs.z :=
  ⟨_, operator_plus_eq_some A B hA hB hz (mass_sum_pos hmA hmB hz), rfl, rfl, rfl, rfl⟩

/-- Witness of C1 at two point masses. -/
theorem operator_plus_mass_MoI_witness :
    ∃ R, operator_plus pmOnAxis pmOffAxis = some R ∧
      R.m_mass = pmOnAxis.m_mass + pmOffAxis.m_mass ∧
      R.m_MoIs.x = pmOnAxis.m_MoIs.x + pmOffAxis.m_MoIs.x ∧
      R.m_MoIs.y = pmOnAxis.m_MoIs.y + pmOffAxis.m_MoIs.y ∧
      R.m_MoIs.z = pmOnAxis.m_MoIs.z + pmOffAxis.m_MoIs.z :=
  operator_plus_mass_MoI pmOnAxis pmOffAxis rfl rfl
    (by norm_num [pmOnAxis]) (by norm_num [pmOffAxis]) (by norm_num [pmOnAxis])

/-- Whatever `A + B` returns is the value computed by `operator+=`, and the
total mass was positive. -/
theorem operator_plus_some_iff (A B R : ConstrElement K) :
    operator_plus A B = some R ↔
      (A.m_isFinal = true ∧ B.m_isFinal = true ∧ ¬ (A.m_mass = 0 ∧ B.m_mass = 0) ∧
        0 < A.m_mass + B.m_mass) ∧
      R =
        { m_CoM :=
            ⟨A.m_mass / (A.m_mass + B.m_mass) * A.m_CoM.x +
               B.m_mass / (A.m_mass + B.m_mass) * B.m_CoM.x,
             A.m_mass / (A.m_mass + B.m_mass) * A.m_CoM.y +
               B.m_mass / (A.m_mass + B.m_mass) * B.m_CoM.y,
             A.m_mass / (A.m_mass + B.m_mass) * A.m_CoM.z +
               B.m_mass / (A.m_mass + B.m_mass) * B.m_CoM.z⟩
          m_mass := A.m_mass + B.m_mass
          m_MoIs := ⟨A.m_MoIs.x + B.m_MoIs.x, A.m_MoIs.y + B.m_MoIs.y,
                     A.m_MoIs.z + B.m_MoIs.z⟩
          m_isFinal := true } := by
  constructor
  · intro h
    unfold operator_plus operator_plus_eq at h
    simp only [IsZero, IsPos] at h
    split_ifs at h with h1 h2
    obtain ⟨hA, hB, hz⟩ := h1
    refine ⟨⟨hA, hB, hz, h2⟩, ?_⟩
    simp only [Option.some.injEq] at h
    rw [← h, hA]
  · rintro ⟨⟨hA, hB, hz, hpos⟩, rfl⟩
    exact operator_plus_eq_some A B hA hB hz hpos

/-- C2. For finalized `A`, `B` that are not both zero-mass, the CoM of `A + B`
is `(A.Mass*A.CoM + B.Mass*B.CoM) / (A.Mass + B.Mass)` in each of the three
co-ordinates: any result of `A + B` has this CoM, and a result exists as soon as
the two masses are non-negative (the invariant of the data model). -/
theorem operator_plus_CoM (A B : ConstrElement K)
    (hA : A.m_isFinal = true) (hB : B.m_isFinal = true)
    (hz : ¬ (A.m_mass = 0 ∧ B.m_mass = 0)) :
    (0 ≤ A.m_mass → 0 ≤ B.m_mass → ∃ R, operator_plus A B = some R) ∧
    ∀ R, operator_plus A B = some R →
      R.m_CoM.x = (A.m_mass * A.m_CoM.x + B.m_mass * B.m_CoM.x) / (A.m_mass + B.m_mass) ∧
      R.m_CoM.y = (A.m_mass * A.m_CoM.y + B.m_mass * B.m_CoM.y) / (A.m_mass + B.m_mass) ∧
      R.m_CoM.z = (A.m_mass * A.m_CoM.z + B.m_mass * B.m_CoM.z) / (A.m_mass + B.m_mass) := by
  refine ⟨fun hmA hmB => ⟨_, operator_plus_eq_some A B hA hB hz (mass_sum_pos hmA hmB hz)⟩, ?_⟩
  intro R hR
  obtain ⟨-, rfl⟩ := (operator_plus_some_iff A B R).1 hR
  refine ⟨?_, ?_, ?_⟩ <;> simp only <;> ring

/-- Witness of C2 at two point masses: the sum exists, and its CoM is the
mass-weighted mean (1, 4/3, 2). -/
theorem operator_plus_CoM_witness :
    ∃ R, operator_plus pmOnAxis pmOffAxis = some R ∧
      R.m_CoM.x = 1 ∧ R.m_CoM.y = 4 / 3 ∧ R.m_CoM.z = 2 := by
  have h := operator_plus_CoM pmOnAxis pmOffAxis rfl rfl (by norm_num [pmOnAxis])
  obtain ⟨R, hR⟩ := h.1 (by norm_num [pmOnAxis]) (by norm_num [pmOffAxis])
  obtain ⟨hx, hy, hz⟩ := h.2 R hR
  refine ⟨R, hR, ?_, ?_, ?_⟩
  · rw [hx]; norm_num [pmOnAxis, pmOffAxis]
  · rw [hy]; norm_num [pmOnAxis, pmOffAxis]
  · rw [hz]; norm_num [pmOnAxis, pmOffAxis]

/-- Whatever `A - B` returns is the value computed by `operator-=`, and the
remaining mass and moments of inertia were strictly positive. -/
theorem operator_minus_some_iff (A B R : ConstrElement K) :
    operator_minus A B = some R ↔
      (A.m_isFinal = true ∧ B.m_isFinal = true ∧ ¬ (A.m_mass = 0 ∧ B.m_mass = 0) ∧
        0 < A.m_mass - B.m_mass ∧ 0 < A.m_MoIs.x - B.m_MoIs.x ∧
        0 < A.m_MoIs.y - B.m_MoIs.y ∧ 0 < A.m_MoIs.z - B.m_MoIs.z) ∧
      R =
        { m_CoM :=
            ⟨A.m_mass / (A.m_mass - B.m_mass) * A.m_CoM.x -
               B.m_mass / (A.m_mass - B.m_mass) * B.m_CoM.x,
             A.m_mass / (A.m_mass - B.m_mass) * A.m_CoM.y -
               B.m_mass / (A.m_mass - B.m_mass) * B.m_CoM.y,
             A.m_mass / (A.m_mass - B.m_mass) * A.m_CoM.z -
               B.m_mass / (A.m_mass - B.m_mass) * B.m_CoM.z⟩
          m_mass := A.m_mass - B.m_mass
          m_MoIs := ⟨A.m_MoIs.x - B.m_MoIs.x, A.m_MoIs.y - B.m_MoIs.y,
                     A.m_MoIs.z - B.m_MoIs.z⟩
          m_isFinal := true } := by
  constructor
  · intro h
    unfold operator_minus operator_minus_eq at h
    simp only [IsZero, IsPos] at h
    split_ifs at h with h1 h2
    obtain ⟨hA, hB, hz⟩ := h1
    refine ⟨⟨hA, hB, hz, h2⟩, ?_⟩
    simp only [Option.some.injEq] at h
    rw [← h, hA]
  · rintro ⟨⟨hA, hB, hz, hpos⟩, rfl⟩
    simp only [operator_minus, operator_minus_eq, IsZero, IsPos, hA, hB, hz, hpos,
      true_and, not_false_eq_true, if_true, and_self]

/-- `(A + B) - B` returns `A` whenever the mass and the moments of `A` are
strictly positive and the mass of `B` is not negative. -/
theorem plus_then_minus_eq_some (A B : ConstrElement K)
    (hA : A.m_isFinal = true) (hB : B.m_isFinal = true)
    (hmA : 0 < A.m_mass) (hmB : 0 ≤ B.m_mass)
    (hx : 0 < A.m_MoIs.x) (hy : 0 < A.m_MoIs.y) (hz : 0 < A.m_MoIs.z) :
    plus_then_minus A B = some A := by
  have hpos : 0 < A.m_mass + B.m_mass := add_pos_of_pos_of_nonneg hmA hmB
  have hne : ¬ (A.m_mass = 0 ∧ B.m_mass = 0) := fun h => hmA.ne' h.1
  have hA0 : A.m_mass ≠ 0 := hmA.ne'
  have hS0 : A.m_mass + B.m_mass ≠ 0 := hpos.ne'
  have hD : A.m_mass + B.m_mass - B.m_mass = A.m_mass := by ring
  unfold plus_then_minus
  rw [operator_plus_eq_some A B hA hB hne hpos, Option.some_bind,
    operator_minus_some_iff]
  refine ⟨⟨rfl, hB, ?_, ?_, ?_, ?_, ?_⟩, ?_⟩
  · exact fun h => hS0 h.1
  · simpa only [hD] using hmA
  · simpa only [add_sub_cancel_right] using hx
  · simpa only [add_sub_cancel_right] using hy
  · simpa only [add_sub_cancel_right] using hz
  · ext
    · simp only [hD]; field_simp; ring
    · simp only [hD]; field_simp; ring
    · simp only [hD]; field_simp; ring
    · simp only [hD]
    · simp only [add_sub_cancel_right]
    · simp only [add_sub_cancel_right]
    · simp only [add_sub_cancel_right]
    · exact hA

/-- C3 (amended). For finalized `A` and `B`, where the mass and the three
moments of inertia of `A` are strictly positive and the mass and moments of `B`
are not negative, `(A + B) - B` succeeds and reproduces the mass, the three
moments of inertia and the three CoM co-ordinates of `A` exactly. -/
theorem plus_then_minus_roundtrip (A B : ConstrElement K)
    (hA : A.m_isFinal = true) (hB : B.m_isFinal = true)
    (hmA : 0 < A.m_mass) (hx : 0 < A.m_MoIs.x) (hy : 0 < A.m_MoIs.y)
    (hz : 0 < A.m_MoIs.z) (hnB : NonNeg B) :
    ∃ R, plus_then_minus A B = some R ∧ R.m_mass = A.m_mass ∧
      R.m_MoIs.x = A.m_MoIs.x ∧ R.m_MoIs.y = A.m_MoIs.y ∧ R.m_MoIs.z = A.m_MoIs.z ∧
      R.m_CoM.x = A.m_CoM.x ∧ R.m_CoM.y = A.m_CoM.y ∧ R.m_CoM.z = A.m_CoM.z :=
  ⟨A, plus_then_minus_eq_some A B hA hB hmA hnB.1 hx hy hz,
    rfl, rfl, rfl, rfl, rfl, rfl, rfl⟩

/-- Witness of C3 (amended) at two point masses off the axes. -/
theorem plus_then_minus_roundtrip_witness :
    ∃ R, plus_then_minus pmOffAxis pmThree = some R ∧ R.m_mass = pmOffAxis.m_mass ∧
      R.m_MoIs.x = pmOffAxis.m_MoIs.x ∧ R.m_MoIs.y = pmOffAxis.m_MoIs.y ∧
      R.m_MoIs.z = pmOffAxis.m_MoIs.z ∧
      R.m_CoM.x = pmOffAxis.m_CoM.x ∧ R.m_CoM.y = pmOffAxis.m_CoM.y ∧
      R.m_CoM.z = pmOffAxis.m_CoM.z :=
  plus_then_minus_roundtrip pmOffAxis pmThree rfl rfl
    (by norm_num [pmOffAxis]) (by norm_num [pmOffAxis]) (by norm_num [pmOffAxis])
    (by norm_num [pmOffAxis]) (by norm_num [NonNeg, pmThree])

/-- C3 as stated fails. The zero element and the point mass `PointMass(1,0,0,1)`
on the OX axis are final, with non-negative mass and moments of inertia, and so
is `PointMass(1,2,3,2)`; yet `(Zero + B) - B` and `(P + B) - B` both fail: the
difference has zero mass in the first case, a zero moment about OX in the
second, and `operator-=` asserts that all four are positive. -/
theorem plus_then_minus_counterexample :
    ((ctor_default : ConstrElement ℚ).m_isFinal = true ∧ pmOffAxis.m_isFinal = true ∧
      NonNeg (ctor_default : ConstrElement ℚ) ∧ NonNeg pmOffAxis ∧
      ¬ ((ctor_default : ConstrElement ℚ).m_mass = 0 ∧ pmOffAxis.m_mass = 0) ∧
      plus_then_minus ctor_default pmOffAxis = none) ∧
    (PointMass (1 : ℚ) 0 0 1 = some pmOnAxis ∧ PointMass (1 : ℚ) 2 3 2 = some pmOffAxis ∧
      pmOnAxis.m_isFinal = true ∧ NonNeg pmOnAxis ∧
      ¬ (pmOnAxis.m_mass = 0 ∧ pmOffAxis.m_mass = 0) ∧
      plus_then_minus pmOnAxis pmOffAxis = none) := by
  refine ⟨⟨rfl, rfl, ?_, ?_, ?_, ?_⟩, ?_, ?_, rfl, ?_, ?_, ?_⟩
  · norm_num [NonNeg, ctor_default]
  · norm_num [NonNeg, pmOffAxis]
  · norm_num [pmOffAxis]
  · norm_num [plus_then_minus, operator_plus, operator_plus_eq, operator_minus,
      operator_minus_eq, ctor_default, pmOffAxis]
  · norm_num [PointMass, ConstrElement.Init, pmOnAxis]
  · norm_num [PointMass, ConstrElement.Init, pmOffAxis]
  · norm_num [NonNeg, pmOnAxis]
  · norm_num [pmOnAxis]
  · norm_num [plus_then_minus, operator_plus, operator_plus_eq, operator_minus,
      operator_minus_eq, pmOnAxis, pmOffAxis]

/-- C4. For `A`, `B` with non-negative masses, `A + B` fails if and only if `A`
is not final, or `B` is not final, or both have zero mass. -/
theorem operator_plus_fails_iff (A B : ConstrElement K)
    (hmA : 0 ≤ A.m_mass) (hmB : 0 ≤ B.m_mass) :
    operator_plus A B = none ↔
      (A.m_isFinal = false ∨ B.m_isFinal = false ∨ (A.m_mass = 0 ∧ B.m_mass = 0)) := by
  constructor
  · intro h
    by_contra hc
    push_neg at hc
    obtain ⟨hA, hB, hz⟩ := hc
    have hA' : A.m_isFinal = true := by simpa using hA
    have hB' : B.m_isFinal = true := by simpa using hB
    have hz' : ¬ (A.m_mass = 0 ∧ B.m_mass = 0) := fun hh => hz hh.1 hh.2
    rw [operator_plus_eq_some A B hA' hB' hz' (mass_sum_pos hmA hmB hz')] at h
    exact Option.some_ne_none _ h
  · intro h
    cases hR : operator_plus A B with
    | none => rfl
    | some R =>
      obtain ⟨⟨hA, hB, hz, -⟩, -⟩ := (operator_plus_some_iff A B R).1 hR
      rcases h with h | h | h
      · rw [hA] at h; exact absurd h (by decide)
      · rw [hB] at h; exact absurd h (by decide)
      · exact absurd h hz

/-- Witness of C4: the sum of a point mass and a non-final shell fails, and the
sum of two point masses does not. -/
theorem operator_plus_fails_iff_witness :
    operator_plus pmOnAxis shellA = none ∧ operator_plus pmOnAxis pmOffAxis ≠ none := by
  constructor
  · exact (operator_plus_fails_iff pmOnAxis shellA (by norm_num [pmOnAxis])
      (by norm_num [shellA])).2 (Or.inr (Or.inl rfl))
  · intro h
    have h' := (operator_plus_fails_iff pmOnAxis pmOffAxis (by norm_num [pmOnAxis])
      (by norm_num [pmOffAxis])).1 h
    norm_num [pmOnAxis, pmOffAxis] at h'

/-- C5 (amended). For finalized `A`, `B` that are not both zero-mass, `A - B`
succeeds exactly when the resulting mass `A.Mass - B.Mass` and each of the three
resulting differences of moments of inertia are strictly positive: a result with
a zero mass or a zero moment of inertia is rejected. -/
theorem operator_minus_succeeds_iff (A B : ConstrElement K)
    (hA : A.m_isFinal = true) (hB : B.m_isFinal = true)
    (hz : ¬ (A.m_mass = 0 ∧ B.m_mass = 0)) :
    (∃ R, operator_minus A B = some R) ↔
      (0 < A.m_mass - B.m_mass ∧ 0 < A.m_MoIs.x - B.m_MoIs.x ∧
        0 < A.m_MoIs.y - B.m_MoIs.y ∧ 0 < A.m_MoIs.z - B.m_MoIs.z) := by
  constructor
  · rintro ⟨R, hR⟩
    obtain ⟨⟨-, -, -, h⟩, -⟩ := (operator_minus_some_iff A B R).1 hR
    exact h
  · intro h
    exact ⟨_, (operator_minus_some_iff A B _).2 ⟨⟨hA, hB, hz, h⟩, rfl⟩⟩

/-- Witness of C5 (amended): a point mass can be taken out of a heavier body
with larger moments of inertia. -/
theorem operator_minus_succeeds_iff_witness :
    ∃ R, operator_minus pmOffAxis bodyB = some R :=
  (operator_minus_succeeds_iff pmOffAxis bodyB rfl rfl (by norm_num [bodyB])).2
    (by norm_num [pmOffAxis, bodyB])

/-- C5 as stated fails. `bodyA` and `bodyB` are final elements built by the
non-default constructor. In `bodyB - bodyB` the resulting mass and moments are
all zero, in `bodyA - bodyB` the mass is 2 and the moments are (0, 1, 1): all
are non-negative, and both subtractions fail. -/
theorem operator_minus_counterexample :
    (ConstrElement.ctor (⟨0, 0, 0⟩ : Vec3 ℚ) 3 ⟨1, 2, 2⟩ true = some bodyA ∧
      ConstrElement.ctor (⟨0, 0, 0⟩ : Vec3 ℚ) 1 ⟨1, 1, 1⟩ true = some bodyB) ∧
    (bodyB.m_isFinal = true ∧ ¬ (bodyB.m_mass = 0 ∧ bodyB.m_mass = 0) ∧
      0 ≤ bodyB.m_mass - bodyB.m_mass ∧ 0 ≤ bodyB.m_MoIs.x - bodyB.m_MoIs.x ∧
      0 ≤ bodyB.m_MoIs.y - bodyB.m_MoIs.y ∧ 0 ≤ bodyB.m_MoIs.z - bodyB.m_MoIs.z ∧
      operator_minus bodyB bodyB = none) ∧
    (bodyA.m_isFinal = true ∧ ¬ (bodyA.m_mass = 0 ∧ bodyB.m_mass = 0) ∧
      0 ≤ bodyA.m_mass - bodyB.m_mass ∧ 0 ≤ bodyA.m_MoIs.x - bodyB.m_MoIs.x ∧
      0 ≤ bodyA.m_MoIs.y - bodyB.m_MoIs.y ∧ 0 ≤ bodyA.m_MoIs.z - bodyB.m_MoIs.z ∧
      operator_minus bodyA bodyB = none) := by
  refine ⟨⟨?_, ?_⟩, ⟨rfl, ?_, ?_, ?_, ?_, ?_, ?_⟩, ⟨rfl, ?_, ?_, ?_, ?_, ?_, ?_⟩⟩
  · norm_num [ConstrElement.ctor, ConstrElement.Init, bodyA]
  · norm_num [ConstrElement.ctor, ConstrElement.Init, bodyB]
  · norm_num [bodyB]
  · norm_num [bodyB]
  · norm_num [bodyB]
  · norm_num [bodyB]
  · norm_num [bodyB]
  · norm_num [operator_minus, operator_minus_eq, bodyB]
  · norm_num [bodyA, bodyB]
  · norm_num [bodyA, bodyB]
  · norm_num [bodyA, bodyB]
  · norm_num [bodyA, bodyB]
  · norm_num [bodyA, bodyB]
  · norm_num [operator_minus, operator_minus_eq, bodyA, bodyB]

/-- C6. The default-constructed element (zero CoM, zero mass, zero moments,
final) is an identity of addition: for every finalized `A` of strictly positive
mass, `Zero + A` and `A + Zero` both succeed and return exactly `A` (the same
mass, moments of inertia and CoM). -/
theorem ctor_default_plus_identity (A : ConstrElement K)
    (hA : A.m_isFinal = true) (hm : 0 < A.m_mass) :
    ((ctor_default : ConstrElement K).m_CoM = ⟨0, 0, 0⟩ ∧
      (ctor_default : ConstrElement K).m_mass = 0 ∧
      (ctor_default : ConstrElement K).m_MoIs = ⟨0, 0, 0⟩ ∧
      (ctor_default : ConstrElement K).m_isFinal = true) ∧
    operator_plus ctor_default A = some A ∧ operator_plus A ctor_default = some A := by
  have h0 : A.m_mass ≠ 0 := hm.ne'
  refine ⟨⟨rfl, rfl, rfl, rfl⟩, ?_, ?_⟩
  · rw [operator_plus_some_iff]
    refine ⟨⟨rfl, hA, fun h => h0 h.2, ?_⟩, ?_⟩
    · simpa [ctor_default] using hm
    · ext <;> simp [ctor_default, h0, hA]
  · rw [operator_plus_some_iff]
    refine ⟨⟨hA, rfl, fun h => h0 h.1, ?_⟩, ?_⟩
    · simpa [ctor_default] using hm
    · ext <;> simp [ctor_default, h0, hA]

/-- Witness of C6 at a point mass. -/
theorem ctor_default_plus_identity_witness :
    operator_plus ctor_default pmOffAxis = some pmOffAxis ∧
      operator_plus pmOffAxis ctor_default = some pmOffAxis :=
  (ctor_default_plus_identity pmOffAxis rfl (by norm_num [pmOffAxis])).2

/-- Whatever `ProRateMass` returns is the scaled copy; the scale was positive
and the argument not final. -/
theorem ProRateMass_some_iff (E R : ConstrElement K) (s : K) :
    ProRateMass E s = some R ↔
      (0 < s ∧ E.m_isFinal = false) ∧
      R = { m_CoM := E.m_CoM
            m_mass := E.m_mass * s
            m_MoIs := ⟨E.m_MoIs.x * s, E.m_MoIs.y * s, E.m_MoIs.z * s⟩
            m_isFinal := true } := by
  unfold ProRateMass
  dsimp only
  constructor
  · intro h
    split_ifs at h with h1 h2
    simp only [Option.some.injEq] at h
    exact ⟨⟨h1, by simpa using h2⟩, h.symm⟩
  · rintro ⟨⟨h1, h2⟩, rfl⟩
    simp [h1, h2]

/-- C7. Non-negativity of the mass and of the three moments of inertia is an
invariant: the default constructor and `Init` establish it, and every successful
`+`, `-` and `ProRateMass` on operands that satisfy it returns an element that
satisfies it. -/
theorem NonNeg_invariant (A B : ConstrElement K) (s : K)
    (hA : NonNeg A) (hB : NonNeg B) :
    NonNeg (ctor_default : ConstrElement K) ∧
    (∀ (com : Vec3 K) (m : K) (mois : Vec3 K) (f : Bool) (R : ConstrElement K),
      ConstrElement.Init com m mois f = some R → NonNeg R) ∧
    (∀ R, operator_plus A B = some R → NonNeg R) ∧
    (∀ R, operator_minus A B = some R → NonNeg R) ∧
    (∀ R, ProRateMass A s = some R → NonNeg R) := by
  obtain ⟨a0, a1, a2, a3⟩ := hA
  obtain ⟨b0, b1, b2, b3⟩ := hB
  refine ⟨?_, ?_, ?_, ?_, ?_⟩
  · simp [NonNeg, ctor_default]
  · intro com m mois f R h
    unfold ConstrElement.Init at h
    simp only [IsPos, IsNeg, not_lt] at h
    split_ifs at h with h1
    simp only [Option.some.injEq] at h
    subst h
    exact ⟨h1.1.le, h1.2.1, h1.2.2.1, h1.2.2.2⟩
  · intro R h
    obtain ⟨-, rfl⟩ := (operator_plus_some_iff A B R).1 h
    exact ⟨add_nonneg a0 b0, add_nonneg a1 b1, add_nonneg a2 b2, add_nonneg a3 b3⟩
  · intro R h
    obtain ⟨⟨-, -, -, h0, h1, h2, h3⟩, rfl⟩ := (operator_minus_some_iff A B R).1 h
    exact ⟨h0.le, h1.le, h2.le, h3.le⟩
  · intro R h
    obtain ⟨⟨hs, -⟩, rfl⟩ := (ProRateMass_some_iff A R s).1 h
    exact ⟨mul_nonneg a0 hs.le, mul_nonneg a1 hs.le, mul_nonneg a2 hs.le,
      mul_nonneg a3 hs.le⟩

/-- Witness of C7: a sum, a difference and a pro-rated shell that exist and
satisfy the invariant. -/
theorem NonNeg_invariant_witness :
    (∃ R, operator_plus pmOffAxis bodyB = some R ∧ NonNeg R) ∧
    (∃ R, operator_minus pmOffAxis bodyB = some R ∧ NonNeg R) ∧
    (∃ R, ProRateMass shellA 2 = some R ∧ NonNeg R) := by
  have hP : NonNeg pmOffAxis := by norm_num [NonNeg, pmOffAxis]
  have hB : NonNeg bodyB := by norm_num [NonNeg, bodyB]
  have hS : NonNeg shellA := by norm_num [NonNeg, shellA]
  refine ⟨?_, ?_, ?_⟩
  · obtain ⟨R, hR⟩ : ∃ R, operator_plus pmOffAxis bodyB = some R :=
      ⟨_, operator_plus_eq_some pmOffAxis bodyB rfl rfl (by norm_num [bodyB])
        (by norm_num [pmOffAxis, bodyB])⟩
    exact ⟨R, hR, (NonNeg_invariant pmOffAxis bodyB 2 hP hB).2.2.1 R hR⟩
  · obtain ⟨R, hR⟩ : ∃ R, operator_minus pmOffAxis bodyB = some R :=
      ⟨_, (operator_minus_some_iff pmOffAxis bodyB _).2
        ⟨⟨rfl, rfl, by norm_num [bodyB], by norm_num [pmOffAxis, bodyB]⟩, rfl⟩⟩
    exact ⟨R, hR, (NonNeg_invariant pmOffAxis bodyB 2 hP hB).2.2.2.1 R hR⟩
  · obtain ⟨R, hR⟩ : ∃ R, ProRateMass shellA 2 = some R :=
      ⟨_, (ProRateMass_some_iff shellA _ 2).2 ⟨⟨by norm_num, rfl⟩, rfl⟩⟩
    exact ⟨R, hR, (NonNeg_invariant shellA shellA 2 hS hS).2.2.2.2 R hR⟩

/-- C8. For every non-final `E` and every scale `s > 0`, `ProRateMass(E, s)`
returns a finalized element whose mass is `s * E.mass`, whose three moments of
inertia are `s` times those of `E`, and whose three CoM co-ordinates are those of
`E`. -/
theorem ProRateMass_spec (E : ConstrElement K) (s : K)
    (hE : E.m_isFinal = false) (hs : 0 < s) :
    ∃ R, ProRateMass E s = some R ∧ R.m_isFinal = true ∧
      R.m_mass = s * E.m_mass ∧
      R.m_MoIs.x = s * E.m_MoIs.x ∧ R.m_MoIs.y = s * E.m_MoIs.y ∧
      R.m_MoIs.z = s * E.m_MoIs.z ∧
      R.m_CoM.x = E.m_CoM.x ∧ R.m_CoM.y = E.m_CoM.y ∧ R.m_CoM.z = E.m_CoM.z :=
  ⟨_, (ProRateMass_some_iff E _ s).2 ⟨⟨hs, hE⟩, rfl⟩, rfl, mul_comm _ _, mul_comm _ _,
    mul_comm _ _, mul_comm _ _, rfl, rfl, rfl⟩

/-- Witness of C8: a shell of nominal mass 4 pro-rated by 5/2. -/
theorem ProRateMass_spec_witness :
    ∃ R, ProRateMass shellA (5 / 2) = some R ∧ R.m_isFinal = true ∧
      R.m_mass = 5 / 2 * shellA.m_mass ∧
      R.m_MoIs.x = 5 / 2 * shellA.m_MoIs.x ∧ R.m_MoIs.y = 5 / 2 * shellA.m_MoIs.y ∧
      R.m_MoIs.z = 5 / 2 * shellA.m_MoIs.z ∧
      R.m_CoM.x = shellA.m_CoM.x ∧ R.m_CoM.y = shellA.m_CoM.y ∧
      R.m_CoM.z = shellA.m_CoM.z :=
  ProRateMass_spec shellA (5 / 2) rfl (by norm_num)

/-- C9. `ProRateMass(E, s)` fails if and only if `E` is already final or
`s <= 0`; consequently `ProRateMass(ProRateMass(E, s1), s2)` fails for every
`E`, `s1` and `s2`. -/
theorem ProRateMass_fails_iff (E : ConstrElement K) (s s1 s2 : K) :
    (ProRateMass E s = none ↔ (E.m_isFinal = true ∨ s ≤ 0)) ∧
    (ProRateMass E s1).bind (fun E1 => ProRateMass E1 s2) = none := by
  constructor
  · constructor
    · intro h
      by_contra hc
      push_neg at hc
      have hE : E.m_isFinal = false := by simpa using hc.1
      rw [(ProRateMass_some_iff E _ s).2 ⟨⟨hc.2, hE⟩, rfl⟩] at h
      exact Option.some_ne_none _ h
    · intro h
      cases hR : ProRateMass E s with
      | none => rfl
      | some R =>
        obtain ⟨⟨hs, hE⟩, -⟩ := (ProRateMass_some_iff E R s).1 hR
        rcases h with h | h
        · rw [hE] at h; exact absurd h (by decide)
        · exact absurd hs (not_lt.2 h)
  · cases hR : ProRateMass E s1 with
    | none => rfl
    | some R =>
      obtain ⟨-, rfl⟩ := (ProRateMass_some_iff E R s1).1 hR
      simp [ProRateMass]

/-- The loop of `GetMassScale` over non-final elements adds their nominal
masses to the accumulator. -/
theorem GetMassScale_loop_eq (l : List (ConstrElement K)) (acc : K)
    (hnf : ∀ e ∈ l, e.m_isFinal = false) :
    GetMassScale.loop l acc = some (acc + (l.map fun e => e.m_mass).sum) := by
  induction l generalizing acc with
  | nil => simp [GetMassScale.loop]
  | cons e rest ih =>
    have he : e.m_isFinal = false := hnf e (List.mem_cons_self _ _)
    have hrest : ∀ e' ∈ rest, e'.m_isFinal = false :=
      fun e' h' => hnf e' (List.mem_cons_of_mem _ h')
    simp only [GetMassScale.loop, he, Bool.false_eq_true, not_false_eq_true, if_true,
      List.map_cons, List.sum_cons]
    rw [ih _ hrest, add_assoc]

/-- Every element of a list of non-final elements can be pro-rated by a positive
scale, and the masses of the results add up to the scaled nominal total. -/
theorem ProRateMass_all (l : List (ConstrElement K)) (s : K) (hs : 0 < s)
    (hnf : ∀ e ∈ l, e.m_isFinal = false) :
    ∃ rs : List (ConstrElement K),
      List.Forall₂ (fun e r => ProRateMass e s = some r) l rs ∧
      (rs.map fun r => r.m_mass).sum = (l.map fun e => e.m_mass).sum * s := by
  induction l with
  | nil => exact ⟨[], List.Forall₂.nil, by simp⟩
  | cons e rest ih =>
    have he : e.m_isFinal = false := hnf e (List.mem_cons_self _ _)
    obtain ⟨rs, hrs, hsum⟩ := ih fun e' h' => hnf e' (List.mem_cons_of_mem _ h')
    refine ⟨_ :: rs,
      List.Forall₂.cons ((ProRateMass_some_iff e _ s).2 ⟨⟨hs, he⟩, rfl⟩) hrs, ?_⟩
    simp only [List.map_cons, List.sum_cons, hsum]
    ring

/-- C10. For every list of non-final elements whose nominal total mass is
strictly positive (such a list is never empty) and every `totalMass > 0`,
`GetMassScale` returns a factor `s > 0`, `ProRateMass(e, s)` succeeds on every
element `e` of the list, and the masses of the results add up to `totalMass`. -/
theorem GetMassScale_spec (l : List (ConstrElement K)) (totalMass : K)
    (hnf : ∀ e ∈ l, e.m_isFinal = false)
    (hnom : 0 < (l.map fun e => e.m_mass).sum) (hT : 0 < totalMass) :
    ∃ s, GetMassScale l totalMass = some s ∧ 0 < s ∧
      ∃ rs : List (ConstrElement K),
        List.Forall₂ (fun e r => ProRateMass e s = some r) l rs ∧
        (rs.map fun r => r.m_mass).sum = totalMass := by
  have hs : 0 < totalMass / (l.map fun e => e.m_mass).sum := div_pos hT hnom
  refine ⟨totalMass / (l.map fun e => e.m_mass).sum, ?_, hs, ?_⟩
  · simp only [GetMassScale, IsPos, hT, if_true, GetMassScale_loop_eq l 0 hnf, zero_add,
      hnom, gt_iff_lt, hs]
  · obtain ⟨rs, hrs, hsum⟩ := ProRateMass_all l _ hs hnf
    exact ⟨rs, hrs, by rw [hsum, mul_div_cancel₀ _ hnom.ne']⟩

/-- Witness of C10: two shells of nominal masses 4 and 6 and a total mass of 25;
the factor is 5/2. -/
theorem GetMassScale_spec_witness :
    GetMassScale [shellA, shellB] (25 : ℚ) = some (5 / 2) ∧
    ∃ s, GetMassScale [shellA, shellB] (25 : ℚ) = some s ∧ 0 < s ∧
      ∃ rs : List (ConstrElement ℚ),
        List.Forall₂ (fun e r => ProRateMass e s = some r) [shellA, shellB] rs ∧
        (rs.map fun r => r.m_mass).sum = 25 := by
  refine ⟨?_, GetMassScale_spec [shellA, shellB] 25 ?_ ?_ (by norm_num)⟩
  · norm_num [GetMassScale, GetMassScale.loop, shellA, shellB]
  · intro e he
    simp only [List.mem_cons, List.mem_singleton, List.not_mem_nil, or_false] at he
    rcases he with rfl | rfl <;> rfl
  · norm_num [shellA, shellB]

end Algebra

/-- C11. `GetMass` and `GetMoIs` fail if and only if the element is not final,
and return the stored mass and moments of inertia otherwise; `GetCoM` has no
precondition and returns the stored CoM of every element, final or not. -/
theorem accessors_spec {K : Type} (E : ConstrElement K) :
    (GetMass E = none ↔ E.m_isFinal = false) ∧
    (E.m_isFinal = true → GetMass E = some E.m_mass) ∧
    (GetMoIs E = none ↔ E.m_isFinal = false) ∧
    (E.m_isFinal = true → GetMoIs E = some E.m_MoIs) ∧
    GetCoM E = E.m_CoM := by
  unfold GetMass GetMoIs GetCoM
  cases E.m_isFinal <;> simp

/-- Witness of C11: the accessors on a point mass (final) and on a shell that is
not final yet. -/
theorem accessors_spec_witness :
    GetMass pmOffAxis = some 2 ∧ GetMoIs pmOffAxis = some ⟨26, 20, 10⟩ ∧
    GetMass shellA = none ∧ GetMoIs shellA = none ∧ GetCoM shellA = ⟨1, 0, 0⟩ :=
  ⟨(accessors_spec pmOffAxis).2.1 rfl, (accessors_spec pmOffAxis).2.2.2.1 rfl,
    (accessors_spec shellA).1.2 rfl, (accessors_spec shellA).2.2.1.2 rfl,
    (accessors_spec shellA).2.2.2.2⟩

section Bodies

variable {K : Type} [LinearOrderedField K]

/-- C12. For every point `(x0, y0, z0)` and every mass `m > 0`, `PointMass(x0,
y0, z0, m)` is final, has mass `m`, CoM `(x0, y0, z0)` and moments of inertia
`(m*(y0^2+z0^2), m*(x0^2+z0^2), m*(x0^2+y0^2))`; the construction fails when
`m <= 0`. -/
theorem PointMass_spec (x0 y0 z0 m : K) :
    (0 < m → PointMass x0 y0 z0 m = some
      { m_CoM := ⟨x0, y0, z0⟩
        m_mass := m
        m_MoIs := ⟨m * (y0 ^ 2 + z0 ^ 2), m * (x0 ^ 2 + z0 ^ 2), m * (x0 ^ 2 + y0 ^ 2)⟩
        m_isFinal := true }) ∧
    (m ≤ 0 → PointMass x0 y0 z0 m = none) := by
  constructor
  · intro hm
    have hx : ¬ m * (y0 ^ 2 + z0 ^ 2) < 0 := not_lt.2 (by positivity)
    have hy : ¬ m * (x0 ^ 2 + z0 ^ 2) < 0 := not_lt.2 (by positivity)
    have hz : ¬ m * (x0 ^ 2 + y0 ^ 2) < 0 := not_lt.2 (by positivity)
    simp only [PointMass, ConstrElement.Init, IsPos, IsNeg, hm, hx, hy, hz, if_true,
      not_false_eq_true, and_self]
  · intro hm
    simp only [PointMass, IsPos, not_lt.2 hm, if_false]

/-- Witness of C12: the point mass `PointMass(1, 2, 3, 2)`, and the rejected
`PointMass(1, 2, 3, 0)`. -/
theorem PointMass_spec_witness :
    PointMass (1 : ℚ) 2 3 2 = some pmOffAxis ∧ PointMass (1 : ℚ) 2 3 0 = none := by
  refine ⟨?_, (PointMass_spec (1 : ℚ) 2 3 0).2 le_rfl⟩
  rw [(PointMass_spec (1 : ℚ) 2 3 2).1 (by norm_num)]
  norm_num [pmOffAxis]

/-- An assertion followed by `k` returns `b` exactly when the asserted condition
holds and `k` returns `b`. -/
theorem assertion_eq_some_iff {α : Type} {p : Prop} [Decidable p] (k : Option α) (b : α) :
    assertion p k = some b ↔ p ∧ k = some b := by
  unfold assertion
  by_cases h : p <;> simp [h]

/-- An assertion that holds is transparent. -/
theorem assertion_of {α : Type} {p : Prop} [Decidable p] (k : Option α) (h : p) :
    assertion p k = k := by
  unfold assertion
  simp [h]

/-- An assertion that does not hold aborts. -/
theorem assertion_of_not {α : Type} {p : Prop} [Decidable p] (k : Option α) (h : ¬ p) :
    assertion p k = none := by
  unfold assertion
  simp [h]

/-- `ConstrElement::Init` returns exactly when the mass is positive and no
moment of inertia is negative, and then stores its arguments. -/
theorem ConstrElement_Init_eq_some_iff (com : Vec3 K) (m : K) (mois : Vec3 K) (f : Bool)
    (R : ConstrElement K) :
    ConstrElement.Init com m mois f = some R ↔
      (0 < m ∧ 0 ≤ mois.x ∧ 0 ≤ mois.y ∧ 0 ≤ mois.z) ∧
      R = { m_CoM := com, m_mass := m, m_MoIs := mois, m_isFinal := f } := by
  unfold ConstrElement.Init
  simp only [IsPos, IsNeg, not_lt]
  constructor
  · intro h
    split_ifs at h with hc
    exact ⟨hc, (Option.some.inj h).symm⟩
  · rintro ⟨hc, rfl⟩
    rw [if_pos hc]

/-- `MoIsCoM` returns exactly when its two assertions hold, and then returns the
CoM and the moments of inertia computed from the stored coefficients. -/
theorem MoIsCoM_eq_some_iff (B : RotationBody K) (j0 j1 k sv d : K) (r : Vec3 K × Vec3 K) :
    B.MoIsCoM j0 j1 k sv d = some r ↔
      (0 < j0 ∧ 0 < j1 ∧ 0 < sv ∧ k < 0) ∧
      (0 ≤ d * (B.m_Jx0 * j0 + B.m_Jx1 * j1 + B.m_JxK * k + B.m_JxSV * sv) ∧
       0 ≤ d * (if B.m_inXY then B.m_Jin0 * j0 + B.m_Jin1 * j1 + B.m_JinK * k + B.m_JinSV * sv
                else j0 + j1 + B.m_JortK * k + B.m_JortSV * sv) ∧
       0 ≤ d * (if B.m_inXZ then B.m_Jin0 * j0 + B.m_Jin1 * j1 + B.m_JinK * k + B.m_JinSV * sv
                else j0 + j1 + B.m_JortK * k + B.m_JortSV * sv)) ∧
      r = (⟨B.m_right.x + B.m_cosA * (k / sv),
            if B.m_inXY then B.m_yzR + B.m_sinA * (k / sv) else 0,
            if B.m_inXZ then B.m_yzR + B.m_sinA * (k / sv) else 0⟩,
           ⟨d * (B.m_Jx0 * j0 + B.m_Jx1 * j1 + B.m_JxK * k + B.m_JxSV * sv),
            d * (if B.m_inXY then B.m_Jin0 * j0 + B.m_Jin1 * j1 + B.m_JinK * k + B.m_JinSV * sv
                else j0 + j1 + B.m_JortK * k + B.m_JortSV * sv),
            d * (if B.m_inXZ then B.m_Jin0 * j0 + B.m_Jin1 * j1 + B.m_JinK * k + B.m_JinSV * sv
                else j0 + j1 + B.m_JortK * k + B.m_JortSV * sv)⟩) := by
  unfold RotationBody.MoIsCoM
  simp only [assertion_eq_some_iff, IsPos, IsNeg, not_or, not_lt, Option.some.injEq]
  constructor
  · rintro ⟨h1, h2, h3⟩
    exact ⟨h1, h2, h3.symm⟩
  · rintro ⟨h1, h2, h3⟩
    exact ⟨h1, h2, h3.symm⟩

/-- `RotationBody::Init` returns exactly when its assertions, those of `MoIsCoM`
on the "empty" parameters and those of `ConstrElement::Init` hold; the result
has the fields stored by `Init.fields` and the base part computed last. -/
theorem Init_eq_some_iff (F : MathFns K)
    (a_side_surf_area a_encl_vol a_mass a_alpha a_x0 a_y0 a_z0 : K)
    (a_0is_left : Bool) (a_h a_je0 a_je1 a_ke a_rho : K)
    (a_jp05 a_jp04 a_jp03 a_jp15 a_jp14 a_jp13 a_jp12 a_jp11 a_kp4 a_kp3 a_kp2 : K)
    (B : RotationBody K) :
    RotationBody.Init F a_side_surf_area a_encl_vol a_mass a_alpha a_x0 a_y0 a_z0
      a_0is_left a_h a_je0 a_je1 a_ke a_rho
      a_jp05 a_jp04 a_jp03 a_jp15 a_jp14 a_jp13 a_jp12 a_jp11 a_kp4 a_kp3 a_kp2 = some B ↔
    (a_z0 = 0 ∨ a_y0 = 0) ∧ (¬ (a_z0 = 0 ∧ a_y0 = 0) ∨ a_alpha = 0) ∧
    (0 < F.Cos a_alpha ∧ 0 < a_h) ∧ 0 < a_side_surf_area ∧ 0 < a_encl_vol ∧
    (¬ (a_z0 = 0 ∧ a_y0 = 0) ∨ (F.Cos a_alpha = 1 ∧ F.Sin a_alpha = 0)) ∧
    0 ≤ a_rho ∧
    ∃ com mois base,
      (RotationBody.Init.fields F a_side_surf_area a_encl_vol a_alpha a_x0 a_y0 a_z0
        a_0is_left a_h a_rho
        a_jp05 a_jp04 a_jp03 a_jp15 a_jp14 a_jp13 a_jp12 a_jp11 a_kp4 a_kp3 a_kp2).MoIsCoM
          a_je0 a_je1 a_ke a_side_surf_area
          (if 0 < a_mass then a_mass / a_side_surf_area else 1) = some (com, mois) ∧
      (¬ a_z0 = 0 ∨ com.z = 0) ∧ (¬ a_y0 = 0 ∨ com.y = 0) ∧
      ConstrElement.Init com
        (if 0 < a_mass then a_mass
         else a_side_surf_area * (if 0 < a_mass then a_mass / a_side_surf_area else 1))
        mois (decide (0 < a_mass)) = some base ∧
      B = (RotationBody.Init.fields F a_side_surf_area a_encl_vol a_alpha a_x0 a_y0 a_z0
              a_0is_left a_h a_rho
              a_jp05 a_jp04 a_jp03 a_jp15 a_jp14 a_jp13 a_jp12 a_jp11 a_kp4 a_kp3
              a_kp2).setBase base := by
  unfold RotationBody.Init
  simp only [assertion_eq_some_iff, Option.bind_eq_some, Prod.exists]
  simp only [RotationBody.Init.fields, IsPos, IsNeg, IsZero, decide_eq_true_eq, not_lt,
    gt_iff_lt]
  constructor
  · rintro ⟨h1, h2, h3, h4, h5, -, h7, -, h9, com, mois, hm, h10, h11, base, hb, hB⟩
    exact ⟨h1, h2, h3, h4, h5, h7, h9, com, mois, base, hm, h10, h11, hb,
      (Option.some.inj hB).symm⟩
  · rintro ⟨h1, h2, h3, h4, h5, h7, h9, com, mois, base, hm, h10, h11, hb, rfl⟩
    exact ⟨h1, h2, h3, h4, h5, h1, h7, h3.1, h9, com, mois, hm, h10, h11, base, hb, rfl⟩

/-- C13. Whenever `RotationBody::Init` returns a body: with an explicit empty
mass `M > 0` the body is final, its mass is exactly `M` and its moments of
inertia are the areal density `M / area` times the three combinations of the
"empty" parameters; with the unknown mass `0` the body is not final and its
stored nominal mass is the side surface area times the unit areal density. -/
theorem RotationBody_Init_mass (F : MathFns K)
    (area vol M alpha x0 y0 z0 : K) (is_left : Bool) (h je0 je1 ke rho : K)
    (jp05 jp04 jp03 jp15 jp14 jp13 jp12 jp11 kp4 kp3 kp2 : K) (B : RotationBody K)
    (hB : RotationBody.Init F area vol M alpha x0 y0 z0 is_left h je0 je1 ke rho
      jp05 jp04 jp03 jp15 jp14 jp13 jp12 jp11 kp4 kp3 kp2 = some B) :
    (0 < M → B.m_isFinal = true ∧ B.m_mass = M ∧
      B.m_MoIs.x = M / area *
        (B.m_Jx0 * je0 + B.m_Jx1 * je1 + B.m_JxK * ke + B.m_JxSV * area) ∧
      B.m_MoIs.y = M / area *
        (if B.m_inXY then B.m_Jin0 * je0 + B.m_Jin1 * je1 + B.m_JinK * ke + B.m_JinSV * area
         else je0 + je1 + B.m_JortK * ke + B.m_JortSV * area) ∧
      B.m_MoIs.z = M / area *
        (if B.m_inXZ then B.m_Jin0 * je0 + B.m_Jin1 * je1 + B.m_JinK * ke + B.m_JinSV * area
         else je0 + je1 + B.m_JortK * ke + B.m_JortSV * area)) ∧
    (M = 0 → B.m_isFinal = false ∧ B.m_mass = area * 1) := by
  obtain ⟨-, -, -, -, -, -, -, com, mois, base, hm, -, -, hb, rfl⟩ :=
    (Init_eq_some_iff _ _ _ _ _ _ _ _ _ _ _ _ _ _ _ _ _ _ _ _ _ _ _ _ _ _).1 hB
  obtain ⟨-, rfl⟩ := (ConstrElement_Init_eq_some_iff _ _ _ _ _).1 hb
  obtain ⟨-, -, hr⟩ := (MoIsCoM_eq_some_iff _ _ _ _ _ _ _).1 hm
  obtain ⟨-, rfl⟩ := Prod.mk.inj hr
  constructor
  · intro hM
    simp [RotationBody.setBase, hM]
  · rintro rfl
    simp [RotationBody.setBase]

/-- The fields of a body returned by `RotationBody::Init` that `MoIsCoM` reads,
in terms of the arguments of `Init`. -/
theorem Init_fields_of_some (F : MathFns K)
    (area vol M alpha x0 y0 z0 : K) (is_left : Bool) (h je0 je1 ke rho : K)
    (jp05 jp04 jp03 jp15 jp14 jp13 jp12 jp11 kp4 kp3 kp2 : K) (B : RotationBody K)
    (hB : RotationBody.Init F area vol M alpha x0 y0 z0 is_left h je0 je1 ke rho
      jp05 jp04 jp03 jp15 jp14 jp13 jp12 jp11 kp4 kp3 kp2 = some B) :
    B.m_inXY = decide (z0 = 0) ∧ B.m_inXZ = decide (y0 = 0) ∧
    B.m_cosA = F.Cos alpha ∧ B.m_sinA = F.Sin alpha ∧
    B.m_yzR = (if z0 = 0 then B.m_right.y else B.m_right.z) ∧
    B.m_Jx0 = F.Sin alpha ^ 2 ∧ B.m_Jx1 = 1 + F.Cos alpha ^ 2 ∧
    B.m_JxK = 2 * F.Sin alpha * B.m_yzR ∧ B.m_JxSV = B.m_yzR ^ 2 ∧
    B.m_Jin0 = F.Cos alpha ^ 2 ∧ B.m_Jin1 = 1 + F.Sin alpha ^ 2 ∧
    B.m_JinK = 2 * F.Cos alpha * B.m_right.x ∧ B.m_JinSV = B.m_right.x ^ 2 ∧
    B.m_JortK = 2 * (F.Cos alpha * B.m_right.x + F.Sin alpha * B.m_yzR) ∧
    B.m_JortSV = B.m_right.x ^ 2 + B.m_yzR ^ 2 := by
  obtain ⟨-, -, -, -, -, -, -, com, mois, base, -, -, -, -, rfl⟩ :=
    (Init_eq_some_iff _ _ _ _ _ _ _ _ _ _ _ _ _ _ _ _ _ _ _ _ _ _ _ _ _ _).1 hB
  simp only [RotationBody.setBase, RotationBody.Init.fields, IsZero, decide_eq_true_eq,
    and_self]

/-- C14. For a body returned by `RotationBody::Init` with tilt `alpha` and every
admissible input (`J0 > 0`, `J1 > 0`, `SV > 0`, `K < 0`, density `d`): whatever
`MoIsCoM` returns is `d` times `Jx`, `Jy`, `Jz`, where `Jx`, `Jin`, `Jort` are the
formulas of the specification at `sin(alpha)`, `cos(alpha)`, `xR` (the X
co-ordinate of the right axis end) and `yzR` (its in-plane transverse
co-ordinate), `Jy` is `Jin` when the axis is in the XY plane (`z0 = 0`) and `Jort`
otherwise, `Jz` is `Jin` when the axis is in the XZ plane (`y0 = 0`) and `Jort`
otherwise, and the CoM is at the axial offset `K/SV` from the right axis end. It
returns exactly when none of the three moments is negative (its second
assertion). -/
theorem MoIsCoM_formulas (F : MathFns K)
    (area vol M alpha x0 y0 z0 : K) (is_left : Bool) (h je0 je1 ke rho : K)
    (jp05 jp04 jp03 jp15 jp14 jp13 jp12 jp11 kp4 kp3 kp2 : K) (B : RotationBody K)
    (hB : RotationBody.Init F area vol M alpha x0 y0 z0 is_left h je0 je1 ke rho
      jp05 jp04 jp03 jp15 jp14 jp13 jp12 jp11 kp4 kp3 kp2 = some B)
    (J0 J1 Kc SV d : K) (h0 : 0 < J0) (h1 : 0 < J1) (hsv : 0 < SV) (hk : Kc < 0) :
    B.m_yzR = (if z0 = 0 then B.m_right.y else B.m_right.z) ∧
    (∀ com mois, B.MoIsCoM J0 J1 Kc SV d = some (com, mois) →
      mois.x = d * MoIsCoM_spec_Jx (F.Sin alpha) (F.Cos alpha) B.m_yzR J0 J1 Kc SV ∧
      mois.y = d * (if z0 = 0
        then MoIsCoM_spec_Jin (F.Sin alpha) (F.Cos alpha) B.m_right.x J0 J1 Kc SV
        else MoIsCoM_spec_Jort (F.Sin alpha) (F.Cos alpha) B.m_right.x B.m_yzR J0 J1 Kc SV) ∧
      mois.z = d * (if y0 = 0
        then MoIsCoM_spec_Jin (F.Sin alpha) (F.Cos alpha) B.m_right.x J0 J1 Kc SV
        else MoIsCoM_spec_Jort (F.Sin alpha) (F.Cos alpha) B.m_right.x B.m_yzR J0 J1 Kc SV) ∧
      com.x = B.m_right.x + F.Cos alpha * (Kc / SV) ∧
      com.y = (if z0 = 0 then B.m_yzR + F.Sin alpha * (Kc / SV) else 0) ∧
      com.z = (if y0 = 0 then B.m_yzR + F.Sin alpha * (Kc / SV) else 0)) ∧
    ((∃ r, B.MoIsCoM J0 J1 Kc SV d = some r) ↔
      0 ≤ d * MoIsCoM_spec_Jx (F.Sin alpha) (F.Cos alpha) B.m_yzR J0 J1 Kc SV ∧
      0 ≤ d * (if z0 = 0
        then MoIsCoM_spec_Jin (F.Sin alpha) (F.Cos alpha) B.m_right.x J0 J1 Kc SV
        else MoIsCoM_spec_Jort (F.Sin alpha) (F.Cos alpha) B.m_right.x B.m_yzR J0 J1 Kc SV) ∧
      0 ≤ d * (if y0 = 0
        then MoIsCoM_spec_Jin (F.Sin alpha) (F.Cos alpha) B.m_right.x J0 J1 Kc SV
        else MoIsCoM_spec_Jort (F.Sin alpha) (F.Cos alpha) B.m_right.x B.m_yzR J0 J1 Kc SV)) := by
  obtain ⟨eXY, eXZ, eC, eS, eyz, e1, e2, e3, e4, e5, e6, e7, e8, e9, e10⟩ :=
    Init_fields_of_some F area vol M alpha x0 y0 z0 is_left h je0 je1 ke rho
      jp05 jp04 jp03 jp15 jp14 jp13 jp12 jp11 kp4 kp3 kp2 B hB
  have key : ∀ r, B.MoIsCoM J0 J1 Kc SV d = some r ↔
      (0 ≤ d * MoIsCoM_spec_Jx (F.Sin alpha) (F.Cos alpha) B.m_yzR J0 J1 Kc SV ∧
      0 ≤ d * (if z0 = 0
        then MoIsCoM_spec_Jin (F.Sin alpha) (F.Cos alpha) B.m_right.x J0 J1 Kc SV
        else MoIsCoM_spec_Jort (F.Sin alpha) (F.Cos alpha) B.m_right.x B.m_yzR J0 J1 Kc SV) ∧
      0 ≤ d * (if y0 = 0
        then MoIsCoM_spec_Jin (F.Sin alpha) (F.Cos alpha) B.m_right.x J0 J1 Kc SV
        else MoIsCoM_spec_Jort (F.Sin alpha) (F.Cos alpha) B.m_right.x B.m_yzR J0 J1 Kc SV)) ∧
      r = (⟨B.m_right.x + F.Cos alpha * (Kc / SV),
            if z0 = 0 then B.m_yzR + F.Sin alpha * (Kc / SV) else 0,
            if y0 = 0 then B.m_yzR + F.Sin alpha * (Kc / SV) else 0⟩,
           ⟨d * MoIsCoM_spec_Jx (F.Sin alpha) (F.Cos alpha) B.m_yzR J0 J1 Kc SV,
            d * (if z0 = 0
              then MoIsCoM_spec_Jin (F.Sin alpha) (F.Cos alpha) B.m_right.x J0 J1 Kc SV
              else MoIsCoM_spec_Jort (F.Sin alpha) (F.Cos alpha) B.m_right.x B.m_yzR
                J0 J1 Kc SV),
            d * (if y0 = 0
              then MoIsCoM_spec_Jin (F.Sin alpha) (F.Cos alpha) B.m_right.x J0 J1 Kc SV
              else MoIsCoM_spec_Jort (F.Sin alpha) (F.Cos alpha) B.m_right.x B.m_yzR
                J0 J1 Kc SV)⟩) := by
    intro r
    rw [MoIsCoM_eq_some_iff]
    simp only [eXY, eXZ, eC, eS, e1, e2, e3, e4, e5, e6, e7, e8, e9, e10, decide_eq_true_eq,
      MoIsCoM_spec_Jx, MoIsCoM_spec_Jin, MoIsCoM_spec_Jort, h0, h1, hsv, hk, and_self,
      true_and]
  refine ⟨eyz, ?_, ?_⟩
  · intro com mois hr
    obtain ⟨-, hr'⟩ := (key _).1 hr
    obtain ⟨rfl, rfl⟩ := Prod.mk.inj hr'
    exact ⟨rfl, rfl, rfl, rfl, rfl, rfl⟩
  · constructor
    · rintro ⟨r, hr⟩
      exact ((key r).1 hr).1
    · intro hnn
      exact ⟨_, (key _).2 ⟨hnn, rfl⟩⟩

/-- `RotationBody::Init` succeeds for a body whose axis lies on OX (`alpha = 0`,
`y0 = z0 = 0`), when the "empty" parameters are admissible and satisfy the
Cauchy-Schwarz inequality `ke^2 <= je0 * area`. -/
theorem Init_OX_isSome (F : MathFns K) (hc : F.Cos 0 = 1) (hs : F.Sin 0 = 0)
    (area vol M x0 : K) (is_left : Bool) (h je0 je1 ke rho : K)
    (jp05 jp04 jp03 jp15 jp14 jp13 jp12 jp11 kp4 kp3 kp2 : K)
    (harea : 0 < area) (hvol : 0 < vol) (hh : 0 < h) (hje0 : 0 < je0) (hje1 : 0 < je1)
    (hke : ke < 0) (hrho : 0 ≤ rho) (hCS : ke ^ 2 ≤ je0 * area) :
    ∃ B, RotationBody.Init F area vol M 0 x0 0 0 is_left h je0 je1 ke rho
      jp05 jp04 jp03 jp15 jp14 jp13 jp12 jp11 kp4 kp3 kp2 = some B := by
  have hd : 0 < (if 0 < M then M / area else 1) := by
    split_ifs with hM'
    · exact div_pos hM' harea
    · exact one_pos
  have hmass : 0 < (if 0 < M then M
      else area * (if 0 < M then M / area else 1)) := by
    split_ifs with hM'
    · exact hM'
    · simpa using harea
  have hJin : ∀ xR : K, 0 ≤ je0 + je1 + 2 * xR * ke + xR ^ 2 * area := by
    intro xR
    have h1 : 0 ≤ area * (je0 + 2 * xR * ke + xR ^ 2 * area) := by
      nlinarith [sq_nonneg (area * xR + ke)]
    have h2 : 0 ≤ je0 + 2 * xR * ke + xR ^ 2 * area := nonneg_of_mul_nonneg_right h1 harea
    linarith
  generalize hS : RotationBody.Init.fields F area vol 0 x0 0 0 is_left h rho
    jp05 jp04 jp03 jp15 jp14 jp13 jp12 jp11 kp4 kp3 kp2 = S
  have eXY : S.m_inXY = true := by rw [← hS]; simp [RotationBody.Init.fields, IsZero]
  have eXZ : S.m_inXZ = true := by rw [← hS]; simp [RotationBody.Init.fields, IsZero]
  have eJx0 : S.m_Jx0 = 0 := by rw [← hS]; simp [RotationBody.Init.fields, hs]
  have eJx1 : S.m_Jx1 = 2 := by rw [← hS]; simp [RotationBody.Init.fields, hc]; norm_num
  have esin : S.m_sinA = 0 := by rw [← hS]; simp [RotationBody.Init.fields, hs]
  have eyz : S.m_yzR = 0 := by
    rw [← hS]; cases is_left <;> simp [RotationBody.Init.fields, IsZero, hs]
  have eJxK : S.m_JxK = 0 := by rw [← hS]; simp [RotationBody.Init.fields, hs]
  have eJxSV : S.m_JxSV = 0 := by
    rw [← hS]; cases is_left <;> simp [RotationBody.Init.fields, IsZero, hs]
  have eJin0 : S.m_Jin0 = 1 := by rw [← hS]; simp [RotationBody.Init.fields, hc]
  have eJin1 : S.m_Jin1 = 1 := by rw [← hS]; simp [RotationBody.Init.fields, hs]
  have eJinK : S.m_JinK = 2 * S.m_right.x := by
    rw [← hS]; simp [RotationBody.Init.fields, hc]
  have eJinSV : S.m_JinSV = S.m_right.x ^ 2 := by
    rw [← hS]; simp [RotationBody.Init.fields]
  obtain ⟨com, mois, hMo, hmois, hcy, hcz⟩ : ∃ com mois,
      S.MoIsCoM je0 je1 ke area (if 0 < M then M / area else 1) = some (com, mois) ∧
      (0 ≤ mois.x ∧ 0 ≤ mois.y ∧ 0 ≤ mois.z) ∧ com.y = 0 ∧ com.z = 0 := by
    refine ⟨_, _, (MoIsCoM_eq_some_iff S je0 je1 ke area _ _).2
      ⟨⟨hje0, hje1, harea, hke⟩, ?_, rfl⟩, ?_, ?_, ?_⟩
    · rw [eXY, eXZ, eJx0, eJx1, eJxK, eJxSV, eJin0, eJin1, eJinK, eJinSV]
      simp only [if_true, zero_mul, one_mul, add_zero, zero_add]
      exact ⟨mul_nonneg hd.le (mul_nonneg (by norm_num) hje1.le),
        mul_nonneg hd.le (hJin _), mul_nonneg hd.le (hJin _)⟩
    · rw [eXY, eXZ, eJx0, eJx1, eJxK, eJxSV, eJin0, eJin1, eJinK, eJinSV]
      simp only [if_true, zero_mul, one_mul, add_zero, zero_add]
      exact ⟨mul_nonneg hd.le (mul_nonneg (by norm_num) hje1.le),
        mul_nonneg hd.le (hJin _), mul_nonneg hd.le (hJin _)⟩
    · simp only [eXY, eyz, esin, if_true, zero_mul, add_zero]
    · simp only [eXZ, eyz, esin, if_true, zero_mul, add_zero]
  refine ⟨S.setBase ⟨com, (if 0 < M then M
      else area * (if 0 < M then M / area else 1)), mois, decide (0 < M)⟩, ?_⟩
  rw [Init_eq_some_iff, hS]
  exact ⟨Or.inl rfl, Or.inr rfl, ⟨by rw [hc]; exact one_pos, hh⟩, harea, hvol,
      Or.inr ⟨hc, hs⟩, hrho, com, mois, _, hMo, Or.inr hcz, Or.inr hcy,
      (ConstrElement_Init_eq_some_iff _ _ _ _ _).2 ⟨⟨hmass, hmois⟩, rfl⟩, rfl⟩

/-- The propellant-related fields of a body returned by `RotationBody::Init`, and
the assertions that held. -/
theorem Init_props_of_some (F : MathFns K)
    (area vol M alpha x0 y0 z0 : K) (is_left : Bool) (h je0 je1 ke rho : K)
    (jp05 jp04 jp03 jp15 jp14 jp13 jp12 jp11 kp4 kp3 kp2 : K) (B : RotationBody K)
    (hB : RotationBody.Init F area vol M alpha x0 y0 z0 is_left h je0 je1 ke rho
      jp05 jp04 jp03 jp15 jp14 jp13 jp12 jp11 kp4 kp3 kp2 = some B) :
    (0 < F.Cos alpha ∧ 0 < h ∧ 0 < area ∧ 0 < vol ∧ 0 ≤ rho) ∧
    (B.m_h = h ∧ B.m_sideSurfArea = area ∧ B.m_enclVol = vol ∧ B.m_rho = rho ∧
      B.m_propMassCap = rho * vol) ∧
    (B.m_JP05 = jp05 ∧ B.m_JP04 = jp04 ∧ B.m_JP03 = jp03) ∧
    (B.m_JP15 = jp15 ∧ B.m_JP14 = jp14 ∧ B.m_JP13 = jp13 ∧ B.m_JP12 = jp12 ∧
      B.m_JP11 = jp11) ∧
    (B.m_KP4 = kp4 ∧ B.m_KP3 = kp3 ∧ B.m_KP2 = kp2) := by
  obtain ⟨-, -, h3, h4, h5, -, h7, com, mois, base, -, -, -, -, rfl⟩ :=
    (Init_eq_some_iff _ _ _ _ _ _ _ _ _ _ _ _ _ _ _ _ _ _ _ _ _ _ _ _ _ _).1 hB
  refine ⟨⟨h3.1, h3.2, h4, h5, h7⟩, ?_⟩
  simp only [RotationBody.setBase, RotationBody.Init.fields, and_self]

/-- `GetPropCE` returns exactly when all its assertions, those of `MoIsCoM` and
those of the `ConstrElement` constructor hold; the element returned carries the
propellant mass given and is final. -/
theorem GetPropCE_eq_some_iff (F : MathFns K) (B : RotationBody K) (LoV : K → Option K)
    (m : K) (R : ConstrElement K) (l : K) :
    B.GetPropCE F LoV m = some (R, l) ↔
      (0 ≤ m ∧ m ≤ B.m_propMassCap * RotationBody.TolFact F) ∧ B.m_rho ≠ 0 ∧
      (0 ≤ m / B.m_rho ∧ m / B.m_rho ≤ B.m_enclVol * RotationBody.TolFact F) ∧
      ∃ l0, LoV (min (m / B.m_rho) B.m_enclVol) = some l0 ∧
        (0 ≤ l0 ∧ l0 ≤ B.m_h * RotationBody.TolFact F) ∧ l = min l0 B.m_h ∧
        (0 ≤ ((B.m_JP05 * l + B.m_JP04) * l + B.m_JP03) * (l ^ 2 * l) ∧
         0 ≤ (((((B.m_JP15 * l + B.m_JP14) * l + B.m_JP13) * l) + B.m_JP12) * l +
            B.m_JP11) * l ∧
         ((B.m_KP4 * l + B.m_KP3) * l + B.m_KP2) * l ^ 2 ≤ 0) ∧
        ∃ com mois,
          B.MoIsCoM (((B.m_JP05 * l + B.m_JP04) * l + B.m_JP03) * (l ^ 2 * l))
            ((((((B.m_JP15 * l + B.m_JP14) * l + B.m_JP13) * l) + B.m_JP12) * l +
              B.m_JP11) * l)
            (((B.m_KP4 * l + B.m_KP3) * l + B.m_KP2) * l ^ 2)
            (min (m / B.m_rho) B.m_enclVol) B.m_rho = some (com, mois) ∧
          (0 < m ∧ 0 ≤ mois.x ∧ 0 ≤ mois.y ∧ 0 ≤ mois.z) ∧
          R = { m_CoM := com, m_mass := m, m_MoIs := mois, m_isFinal := true } := by
  unfold RotationBody.GetPropCE
  simp only [assertion_eq_some_iff, Option.bind_eq_some, Prod.exists, ConstrElement.ctor,
    ConstrElement_Init_eq_some_iff, RotationBody.GetPropMassCap, RotationBody.GetPropDens,
    RotationBody.GetEnclVol, IsPos, IsNeg, not_lt, Option.some.injEq, Prod.mk.injEq]
  constructor
  · rintro ⟨h1, h2, h3, l0, hl0, h4, h5, com, mois, hm, R', ⟨h6, rfl⟩, rfl, rfl⟩
    exact ⟨h1, h2, h3, l0, hl0, h4, rfl, h5, com, mois, hm, h6, rfl⟩
  · rintro ⟨h1, h2, h3, l0, hl0, h4, rfl, h5, com, mois, hm, h6, rfl⟩
    exact ⟨h1, h2, h3, l0, hl0, h4, h5, com, mois, hm, _, ⟨h6, rfl⟩, rfl, rfl⟩

/-- C15. Whenever `GetPropCE(propMass)` succeeds on a rotation body, the
`ConstrElement` returned is final and its mass is `propMass` exactly; and
`GetPropCE` fails when `propMass` is negative or exceeds
`capacity * (1 + Tol)`. -/
theorem GetPropCE_mass (F : MathFns K) (B : RotationBody K) (LoV : K → Option K)
    (propMass : K) :
    (∀ R l, B.GetPropCE F LoV propMass = some (R, l) →
      R.m_isFinal = true ∧ R.m_mass = propMass) ∧
    ((propMass < 0 ∨ B.GetPropMassCap * (1 + RotationBody.Tol F) < propMass) →
      B.GetPropCE F LoV propMass = none) := by
  constructor
  · intro R l hR
    obtain ⟨-, -, -, l0, -, -, -, -, com, mois, -, -, rfl⟩ :=
      (GetPropCE_eq_some_iff F B LoV propMass R l).1 hR
    exact ⟨rfl, rfl⟩
  · intro hm
    cases hR : B.GetPropCE F LoV propMass with
    | none => rfl
    | some r =>
      obtain ⟨R, l⟩ := r
      obtain ⟨⟨h1, h2⟩, -⟩ := (GetPropCE_eq_some_iff F B LoV propMass R l).1 hR
      rcases hm with hm | hm
      · exact absurd h1 (not_le.2 hm)
      · exact absurd h2 (not_le.2 hm)

/-- C16 fails on the code. `GetPropCE(0)` returns nothing, on every rotation
body and whatever the level function: were all the assertions before it to
hold, the constructor `ConstrElement(com, 0, mois, true)` at its end asserts a
positive mass. -/
theorem GetPropCE_zero_fails (F : MathFns K) (B : RotationBody K) (LoV : K → Option K) :
    B.GetPropCE F LoV 0 = none := by
  cases hR : B.GetPropCE F LoV 0 with
  | none => rfl
  | some r =>
    obtain ⟨R, l⟩ := r
    obtain ⟨-, -, -, l0, -, -, -, -, com, mois, -, h, -⟩ :=
      (GetPropCE_eq_some_iff F B LoV 0 R l).1 hR
    exact absurd h.1 (lt_irrefl 0)

/-- A `TrCone` that its constructor returns: the preconditions held, the
geometry is stored, and the base part has the enclosed volume and the
propellant coefficients of the source. -/
theorem TrCone_ctor_some (F : MathFns K) (x0 y0 z0 alpha d0 d1 h rho M : K) (T : TrCone K)
    (hT : TrCone.ctor F x0 y0 z0 alpha d0 d1 h rho M = some T) :
    (0 < h ∧ 0 ≤ d0 ∧ 0 ≤ d1 ∧ ¬ (d0 = 0 ∧ d1 = 0) ∧ |alpha| < F.Pi / 2 ∧ 0 ≤ rho ∧
      0 ≤ M) ∧
    (T.m_r = d0 / 2 ∧ T.m_R = d1 / 2 ∧ T.m_h = h ∧ T.m_deltaR = T.m_R - T.m_r ∧
      T.m_clVol = 3 / F.Pi * T.m_h ^ 2 * (T.m_R - T.m_r) ∧ T.m_Rh = T.m_R * T.m_h ∧
      T.m_Rh3 = (T.m_R * T.m_h) ^ 3) ∧
    (0 < F.Cos alpha ∧ 0 < T.base.m_sideSurfArea ∧ 0 < T.base.m_enclVol) ∧
    (T.base.m_h = h ∧
      T.base.m_sideSurfArea =
        F.Pi * F.SqRt ((T.m_R - T.m_r) ^ 2 + T.m_h ^ 2) * (T.m_R + T.m_r) ∧
      T.base.m_enclVol = F.Pi / 3 * T.m_h * (T.m_R ^ 2 + T.m_R * T.m_r + T.m_r ^ 2) ∧
      T.base.m_rho = rho ∧ T.base.m_propMassCap = rho * T.base.m_enclVol) ∧
    (T.base.m_JP05 = F.Pi / 5 * ((T.m_R - T.m_r) / T.m_h) ^ 2 ∧
      T.base.m_JP04 = -F.Pi / 2 * ((T.m_R - T.m_r) / T.m_h) * T.m_R ∧
      T.base.m_JP03 = F.Pi / 3 * T.m_R ^ 2) ∧
    (T.base.m_JP15 = F.Pi / 20 * (((T.m_R - T.m_r) / T.m_h) ^ 2) ^ 2 ∧
      T.base.m_JP14 = -F.Pi / 4 *
        (((T.m_R - T.m_r) / T.m_h) ^ 2 * ((T.m_R - T.m_r) / T.m_h)) * T.m_R ∧
      T.base.m_JP13 = F.Pi / 2 * ((T.m_R - T.m_r) / T.m_h) ^ 2 * T.m_R ^ 2 ∧
      T.base.m_JP12 = -F.Pi / 2 * ((T.m_R - T.m_r) / T.m_h) * (T.m_R ^ 2 * T.m_R) ∧
      T.base.m_JP11 = F.Pi / 4 * (T.m_R ^ 2) ^ 2) ∧
    (T.base.m_KP4 = -F.Pi / 4 * ((T.m_R - T.m_r) / T.m_h) ^ 2 ∧
      T.base.m_KP3 = F.Pi * 2 / 3 * ((T.m_R - T.m_r) / T.m_h) * T.m_R ∧
      T.base.m_KP2 = -F.Pi / 2 * T.m_R ^ 2) := by
  unfold TrCone.ctor at hT
  simp only [assertion_eq_some_iff, Option.bind_eq_some, IsPos, IsNeg, IsZero, not_lt,
    Option.some.injEq] at hT
  obtain ⟨hpre, base, hInit, rfl⟩ := hT
  obtain ⟨⟨hcos, -, harea, hvol, -⟩, ⟨e1, e2, e3, e4, e5⟩, hJP0, hJP1, hKP⟩ :=
    Init_props_of_some F _ _ _ _ _ _ _ _ _ _ _ _ _ _ _ _ _ _ _ _ _ _ _ _ base hInit
  refine ⟨hpre, ⟨rfl, rfl, rfl, rfl, rfl, rfl, rfl⟩, ⟨hcos, ?_, ?_⟩,
    ⟨e1, e2, e3, e4, ?_⟩, hJP0, hJP1, hKP⟩
  · rw [e2]; exact harea
  · rw [e3]; exact hvol
  · rw [e5, e3]

/-- A computation that binds a successful step and then returns succeeds. -/
theorem bind_some_isSome {α β : Type} {x : Option α} (g : α → β)
    (h : ∃ a, x = some a) : ∃ b, x.bind (fun a => some (g a)) = some b := by
  obtain ⟨a, rfl⟩ := h
  exact ⟨g a, rfl⟩

/-- The constructor of a `TrCone` whose axis lies on OX succeeds on every
admissible geometry. -/
theorem TrCone_ctor_OX_isSome (F : MathFns K) (hpi : 0 < F.Pi) (hc : F.Cos 0 = 1)
    (hs : F.Sin 0 = 0) (hsq : ∀ x, 0 < x → 0 < F.SqRt x)
    (x0 d0 d1 h rho M : K) (hh : 0 < h) (hd0 : 0 ≤ d0) (hd1 : 0 ≤ d1)
    (hd : ¬ (d0 = 0 ∧ d1 = 0)) (hrho : 0 ≤ rho) (hM : 0 ≤ M) :
    ∃ T, TrCone.ctor F x0 0 0 0 d0 d1 h rho M = some T := by
  have hsum : 0 < d1 / 2 + d0 / 2 := by
    rcases hd0.lt_or_eq with h0 | h0
    · positivity
    · rcases hd1.lt_or_eq with h1 | h1
      · positivity
      · exact absurd ⟨h0.symm, h1.symm⟩ hd
  have hr : 0 ≤ d0 / 2 := by positivity
  have hR : 0 ≤ d1 / 2 := by positivity
  have hs0 : 0 < F.SqRt ((d1 / 2 - d0 / 2) ^ 2 + h ^ 2) := hsq _ (by positivity)
  have hsq2 : 0 < (d1 / 2) ^ 2 + (d0 / 2) ^ 2 := by
    nlinarith [sq_nonneg (d1 / 2 - d0 / 2), mul_pos hsum hsum]
  have hsq3 : 0 < (d1 / 2) ^ 2 + d1 / 2 * (d0 / 2) + (d0 / 2) ^ 2 := by
    nlinarith [mul_nonneg hR hr]
  have hpre : IsPos h ∧ ¬ IsNeg d0 ∧ ¬ IsNeg d1 ∧ ¬ (IsZero d0 ∧ IsZero d1) ∧
      |(0 : K)| < F.Pi / 2 ∧ ¬ IsNeg rho ∧ ¬ IsNeg M :=
    ⟨hh, not_lt.2 hd0, not_lt.2 hd1, hd, by rw [abs_zero]; positivity, not_lt.2 hrho,
      not_lt.2 hM⟩
  unfold TrCone.ctor
  rw [assertion_of _ hpre]
  apply bind_some_isSome
  apply Init_OX_isSome F hc hs
  · positivity
  · positivity
  · exact hh
  · have : 0 < d0 / 2 / 2 + d1 / 2 / 6 := by linarith
    positivity
  · positivity
  · have : 0 < 2 * (d0 / 2) + d1 / 2 := by linarith
    have h1 : 0 < F.Pi / 3 * F.SqRt ((d1 / 2 - d0 / 2) ^ 2 + h ^ 2) * h *
        (2 * (d0 / 2) + d1 / 2) := by positivity
    have e : -F.Pi / 3 * F.SqRt ((d1 / 2 - d0 / 2) ^ 2 + h ^ 2) * h *
        (2 * (d0 / 2) + d1 / 2) =
        -(F.Pi / 3 * F.SqRt ((d1 / 2 - d0 / 2) ^ 2 + h ^ 2) * h *
        (2 * (d0 / 2) + d1 / 2)) := by ring
    rw [e]
    exact neg_neg_of_pos h1
  · exact hrho
  · generalize F.SqRt ((d1 / 2 - d0 / 2) ^ 2 + h ^ 2) = s at hs0 ⊢
    have h2 : 0 ≤ (F.Pi * s * h) ^ 2 := sq_nonneg _
    have h3 : 0 ≤ (d0 / 2) ^ 2 + 4 * (d0 / 2) * (d1 / 2) + (d1 / 2) ^ 2 := by positivity
    have e : F.Pi * h ^ 2 * s * (d0 / 2 / 2 + d1 / 2 / 6) * (F.Pi * s * (d1 / 2 + d0 / 2)) -
        (-F.Pi / 3 * s * h * (2 * (d0 / 2) + d1 / 2)) ^ 2 =
        (F.Pi * s * h) ^ 2 * (((d0 / 2) ^ 2 + 4 * (d0 / 2) * (d1 / 2) + (d1 / 2) ^ 2) / 18) := by
      ring
    have h4 := mul_nonneg h2 (div_nonneg h3 (by norm_num : (0 : K) ≤ 18))
    rw [← e] at h4
    linarith

/-- The axis ends of a body returned by `RotationBody::Init`. -/
theorem Init_ends_of_some (F : MathFns K)
    (area vol M alpha x0 y0 z0 : K) (is_left : Bool) (h je0 je1 ke rho : K)
    (jp05 jp04 jp03 jp15 jp14 jp13 jp12 jp11 kp4 kp3 kp2 : K) (B : RotationBody K)
    (hB : RotationBody.Init F area vol M alpha x0 y0 z0 is_left h je0 je1 ke rho
      jp05 jp04 jp03 jp15 jp14 jp13 jp12 jp11 kp4 kp3 kp2 = some B) :
    B.m_left = (if is_left then ⟨x0, y0, z0⟩
      else ⟨x0 - F.Cos alpha * h, if z0 = 0 then y0 - F.Sin alpha * h else 0,
            if y0 = 0 then z0 - F.Sin alpha * h else 0⟩) ∧
    B.m_right = (if is_left then
        ⟨x0 + F.Cos alpha * h, if z0 = 0 then y0 + F.Sin alpha * h else 0,
         if y0 = 0 then z0 + F.Sin alpha * h else 0⟩
      else ⟨x0, y0, z0⟩) := by
  obtain ⟨-, -, -, -, -, -, -, com, mois, base, -, -, -, -, rfl⟩ :=
    (Init_eq_some_iff _ _ _ _ _ _ _ _ _ _ _ _ _ _ _ _ _ _ _ _ _ _ _ _ _ _).1 hB
  simp only [RotationBody.setBase, RotationBody.Init.fields, IsZero, decide_eq_true_eq,
    and_self]

/-- Witness of C13: a body on the OX axis with side area 6, initialised with the
explicit mass 12 and with the unknown mass 0. -/
theorem RotationBody_Init_mass_witness :
    let F : MathFns ℝ :=
      ⟨Real.pi, (1 / 2) ^ 52, Real.cos, Real.sin, Real.sqrt, fun x => x ^ ((3 : ℝ)⁻¹)⟩
    (∃ B, RotationBody.Init F 6 1 12 0 0 0 0 true 2 8 3 (-6) 0 0 0 0 0 0 0 0 0 0 0 0 = some B ∧
      B.m_isFinal = true ∧ B.m_mass = 12) ∧
    (∃ B, RotationBody.Init F 6 1 0 0 0 0 0 true 2 8 3 (-6) 0 0 0 0 0 0 0 0 0 0 0 0 = some B ∧
      B.m_isFinal = false ∧ B.m_mass = 6 * 1) := by
  intro F
  constructor
  · obtain ⟨B, hB⟩ := Init_OX_isSome F Real.cos_zero Real.sin_zero 6 1 12 0 true 2 8 3 (-6) 0
      0 0 0 0 0 0 0 0 0 0 0 (by norm_num) (by norm_num) (by norm_num) (by norm_num)
      (by norm_num) (by norm_num) le_rfl (by norm_num)
    have h := (RotationBody_Init_mass F 6 1 12 0 0 0 0 true 2 8 3 (-6) 0
      0 0 0 0 0 0 0 0 0 0 0 B hB).1 (by norm_num)
    exact ⟨B, hB, h.1, h.2.1⟩
  · obtain ⟨B, hB⟩ := Init_OX_isSome F Real.cos_zero Real.sin_zero 6 1 0 0 true 2 8 3 (-6) 0
      0 0 0 0 0 0 0 0 0 0 0 (by norm_num) (by norm_num) (by norm_num) (by norm_num)
      (by norm_num) (by norm_num) le_rfl (by norm_num)
    have h := (RotationBody_Init_mass F 6 1 0 0 0 0 0 true 2 8 3 (-6) 0
      0 0 0 0 0 0 0 0 0 0 0 B hB).2 rfl
    exact ⟨B, hB, h.1, h.2⟩

/-- Witness of C14: on a body on the OX axis whose right end is at `x = 2`,
`MoIsCoM(8, 3, -6, 6, 2)` returns the moments `(12, 22, 22)` and the CoM
`(1, 0, 0)`. -/
theorem MoIsCoM_formulas_witness :
    let F : MathFns ℝ :=
      ⟨Real.pi, (1 / 2) ^ 52, Real.cos, Real.sin, Real.sqrt, fun x => x ^ ((3 : ℝ)⁻¹)⟩
    ∃ B, RotationBody.Init F 6 1 12 0 0 0 0 true 2 8 3 (-6) 0 0 0 0 0 0 0 0 0 0 0 0 = some B ∧
      B.MoIsCoM 8 3 (-6) 6 2 = some (⟨1, 0, 0⟩, ⟨12, 22, 22⟩) := by
  intro F
  obtain ⟨B, hB⟩ := Init_OX_isSome F Real.cos_zero Real.sin_zero 6 1 12 0 true 2 8 3 (-6) 0
    0 0 0 0 0 0 0 0 0 0 0 (by norm_num) (by norm_num) (by norm_num) (by norm_num)
    (by norm_num) (by norm_num) le_rfl (by norm_num)
  have hR := (Init_ends_of_some F 6 1 12 0 0 0 0 true 2 8 3 (-6) 0
    0 0 0 0 0 0 0 0 0 0 0 B hB).2
  have hc : F.Cos 0 = 1 := Real.cos_zero
  have hs : F.Sin 0 = 0 := Real.sin_zero
  have hx : B.m_right.x = 2 := by rw [hR]; simp [hc]
  have hy : B.m_right.y = 0 := by rw [hR]; simp [hs]
  obtain ⟨hyz, hval, hex⟩ := MoIsCoM_formulas F 6 1 12 0 0 0 0 true 2 8 3 (-6) 0
    0 0 0 0 0 0 0 0 0 0 0 B hB 8 3 (-6) 6 2 (by norm_num) (by norm_num) (by norm_num)
    (by norm_num)
  have hyz0 : B.m_yzR = 0 := by rw [hyz, if_pos rfl, hy]
  rw [hyz0, hx, hc, hs] at hval hex
  obtain ⟨⟨com, mois⟩, hr⟩ := hex.2 (by
    norm_num [MoIsCoM_spec_Jx, MoIsCoM_spec_Jin, MoIsCoM_spec_Jort])
  obtain ⟨m1, m2, m3, c1, c2, c3⟩ := hval com mois hr
  refine ⟨B, hB, ?_⟩
  rw [hr]
  have ecom : com = ⟨1, 0, 0⟩ := by
    ext
    · rw [c1]; norm_num
    · rw [c2]; norm_num
    · rw [c3]; norm_num
  have emois : mois = ⟨12, 22, 22⟩ := by
    ext
    · rw [m1]; norm_num [MoIsCoM_spec_Jx]
    · rw [m2]; norm_num [MoIsCoM_spec_Jin]
    · rw [m3]; norm_num [MoIsCoM_spec_Jin]
  rw [ecom, emois]

/-- The real numbers with `Real.pi`, `Real.cos`, `Real.sin`, `Real.sqrt`, the
real cube root and the machine epsilon `2^-52` satisfy every law of the numeric
functions that the theorems below assume. -/
theorem real_MathFns_laws :
    let F : MathFns ℝ :=
      ⟨Real.pi, (1 / 2) ^ 52, Real.cos, Real.sin, Real.sqrt, fun x => x ^ ((3 : ℝ)⁻¹)⟩
    0 < F.Pi ∧ F.Cos 0 = 1 ∧ F.Sin 0 = 0 ∧ (∀ x, 0 < x → 0 < F.SqRt x) ∧
    (∀ x, 0 ≤ x → F.CbRt (x ^ 3) = x) ∧ (∀ a, F.Cos a ^ 2 + F.Sin a ^ 2 = 1) ∧
    (1 / 2) ^ 52 ≤ F.Eps := by
  intro F
  refine ⟨Real.pi_pos, Real.cos_zero, Real.sin_zero, fun x hx => Real.sqrt_pos.2 hx, ?_,
    fun a => Real.cos_sq_add_sin_sq a, le_rfl⟩
  intro x hx
  have h := Real.pow_rpow_inv_natCast hx (by norm_num : (3 : ℕ) ≠ 0)
  simpa using h

/-- `TrCone::LevelOfVol` on an admissible volume: the assertion holds. -/
theorem TrCone_LevelOfVol_eq (F : MathFns K) (T : TrCone K) (v : K) (hv0 : 0 ≤ v)
    (hv1 : v ≤ T.base.m_enclVol) :
    T.LevelOfVol F v = some
      (if T.m_deltaR = 0 then v / T.base.m_enclVol * T.m_h
       else (T.m_Rh - F.CbRt (T.m_Rh3 - T.m_clVol * v)) / T.m_deltaR) := by
  unfold TrCone.LevelOfVol
  rw [assertion_of _ ⟨not_lt.2 hv0, hv1⟩]
  rfl

/-- C18. For a `TrCone` constructed with equal base diameters (a cylinder,
`r = R`) and every volume `v` in `[0, enclosedVolume]`, `LevelOfVol(v)` is
`(v / enclosedVolume) * h`; in particular the level at half the enclosed volume
is `h / 2`. -/
theorem TrCone_LevelOfVol_cylinder (F : MathFns K) (x0 y0 z0 alpha d0 d1 h rho M : K)
    (T : TrCone K) (hT : TrCone.ctor F x0 y0 z0 alpha d0 d1 h rho M = some T)
    (hd : d0 = d1) (v : K) (hv0 : 0 ≤ v) (hv1 : v ≤ T.base.GetEnclVol) :
    T.LevelOfVol F v = some (v / T.base.GetEnclVol * h) ∧
    T.LevelOfVol F (T.base.GetEnclVol / 2) = some (h / 2) := by
  obtain ⟨-, ⟨er, eR, eh, eD, -, -, -⟩, ⟨-, -, hV⟩, -⟩ :=
    TrCone_ctor_some F x0 y0 z0 alpha d0 d1 h rho M T hT
  have hD : T.m_deltaR = 0 := by rw [eD, er, eR, hd, sub_self]
  have hV' : 0 < T.base.GetEnclVol := hV
  constructor
  · rw [TrCone_LevelOfVol_eq F T v hv0 hv1, if_pos hD, eh]
    rfl
  · rw [TrCone_LevelOfVol_eq F T _ (le_of_lt (half_pos hV')) (half_le_self hV.le),
      if_pos hD, eh]
    congr 1
    have : T.base.m_enclVol ≠ 0 := hV.ne'
    show T.base.m_enclVol / 2 / T.base.m_enclVol * h = h / 2
    field_simp
    ring

/-- Witness of C18: the cylinder of radius 1 and height 2 on the OX axis; the
level at half its enclosed volume is exactly 1. -/
theorem TrCone_LevelOfVol_cylinder_witness :
    let F : MathFns ℝ :=
      ⟨Real.pi, (1 / 2) ^ 52, Real.cos, Real.sin, Real.sqrt, fun x => x ^ ((3 : ℝ)⁻¹)⟩
    ∃ T, TrCone.ctor_cylinder F 0 2 2 1000 0 = some T ∧
      T.LevelOfVol F (T.base.GetEnclVol / 2) = some 1 := by
  intro F
  obtain ⟨hpi, hc, hs, hsq, -, -, -⟩ := real_MathFns_laws
  obtain ⟨T, hT⟩ := TrCone_ctor_OX_isSome F hpi hc hs hsq 0 2 2 2 1000 0 (by norm_num)
    (by norm_num) (by norm_num) (by norm_num) (by norm_num) le_rfl
  have hV := (TrCone_ctor_some F 0 0 0 0 2 2 2 1000 0 T hT).2.2.1.2.2
  have h := (TrCone_LevelOfVol_cylinder F 0 0 0 0 2 2 2 1000 0 T hT rfl
    (T.base.GetEnclVol / 2) (le_of_lt (half_pos hV)) (half_le_self hV.le)).2
  refine ⟨T, hT, ?_⟩
  rw [h]
  norm_num

/-- The level of a constructed `TrCone` at the volumes 0 and `enclosedVolume`. -/
theorem TrCone_LevelOfVol_zero_full (F : MathFns K) (x0 y0 z0 alpha d0 d1 h rho M : K)
    (T : TrCone K) (hT : TrCone.ctor F x0 y0 z0 alpha d0 d1 h rho M = some T)
    (hcb : ∀ x, 0 ≤ x → F.CbRt (x ^ 3) = x) :
    T.LevelOfVol F 0 = some 0 ∧ T.LevelOfVol F T.base.m_enclVol = some h := by
  obtain ⟨⟨hh, hd0, hd1, -, hal, -, -⟩, ⟨er, eR, eh, eD, eCl, eRh, eRh3⟩, ⟨-, -, hV⟩,
    ⟨-, -, eV, -, -⟩, -⟩ := TrCone_ctor_some F x0 y0 z0 alpha d0 d1 h rho M T hT
  have hpi : 0 < F.Pi := by
    have := lt_of_le_of_lt (abs_nonneg alpha) hal
    linarith
  have hr : 0 ≤ T.m_r := by rw [er]; positivity
  have hR : 0 ≤ T.m_R := by rw [eR]; positivity
  have hh' : 0 < T.m_h := by rw [eh]; exact hh
  constructor
  · rw [TrCone_LevelOfVol_eq F T 0 le_rfl hV.le]
    congr 1
    split_ifs with hD
    · simp
    · rw [mul_zero, sub_zero, eRh3, eRh, hcb _ (mul_nonneg hR hh'.le), sub_self, zero_div]
  · rw [TrCone_LevelOfVol_eq F T _ hV.le le_rfl]
    congr 1
    split_ifs with hD
    · rw [div_self hV.ne', one_mul, eh]
    · have e : T.m_Rh3 - T.m_clVol * T.base.m_enclVol = (T.m_r * T.m_h) ^ 3 := by
        rw [eRh3, eCl, eV]
        field_simp
        ring
      have hD' : T.m_R - T.m_r ≠ 0 := by rwa [eD] at hD
      rw [e, hcb _ (mul_nonneg hr hh'.le), eRh, eD, ← eh]
      field_simp
      ring

/-- The three combinations of `MoIsCoM` are non-negative as soon as the
parameters satisfy the Cauchy-Schwarz inequality `K^2 <= J0 * SV`. -/
theorem MoI_forms_nonneg (s c x y J0 J1 Kc V : K) (h1 : 0 ≤ J1) (hV : 0 < V)
    (hCS : Kc ^ 2 ≤ J0 * V) :
    0 ≤ s ^ 2 * J0 + (1 + c ^ 2) * J1 + 2 * s * y * Kc + y ^ 2 * V ∧
    0 ≤ c ^ 2 * J0 + (1 + s ^ 2) * J1 + 2 * c * x * Kc + x ^ 2 * V ∧
    (c ^ 2 + s ^ 2 = 1 →
      0 ≤ J0 + J1 + 2 * (c * x + s * y) * Kc + (x ^ 2 + y ^ 2) * V) := by
  have key : ∀ t w : K, 0 ≤ t ^ 2 * J0 + 2 * t * w * Kc + w ^ 2 * V := by
    intro t w
    have e : V * (t ^ 2 * J0 + 2 * t * w * Kc + w ^ 2 * V) =
        (V * w + t * Kc) ^ 2 + t ^ 2 * (J0 * V - Kc ^ 2) := by ring
    have h2 : 0 ≤ V * (t ^ 2 * J0 + 2 * t * w * Kc + w ^ 2 * V) := by
      rw [e]
      exact add_nonneg (sq_nonneg _) (mul_nonneg (sq_nonneg _) (sub_nonneg.2 hCS))
    exact nonneg_of_mul_nonneg_right h2 hV
  have hc2 : 0 ≤ (1 + c ^ 2) * J1 := mul_nonneg (by positivity) h1
  have hs2 : 0 ≤ (1 + s ^ 2) * J1 := mul_nonneg (by positivity) h1
  refine ⟨?_, ?_, ?_⟩
  · linarith [key s y]
  · linarith [key c x]
  · intro hp
    have e : J0 + J1 + 2 * (c * x + s * y) * Kc + (x ^ 2 + y ^ 2) * V =
        (c ^ 2 + s ^ 2 - 1) * (-J0) + J1 + (c ^ 2 * J0 + 2 * c * x * Kc + x ^ 2 * V) +
        (s ^ 2 * J0 + 2 * s * y * Kc + y ^ 2 * V) := by ring
    rw [e, hp, sub_self, zero_mul, zero_add]
    linarith [key s y, key c x]

/-- On a body returned by `RotationBody::Init`, `MoIsCoM` succeeds on admissible
parameters that satisfy the Cauchy-Schwarz inequality, with a non-negative
density. -/
theorem MoIsCoM_isSome_of_CS (F : MathFns K) (hpy : ∀ a, F.Cos a ^ 2 + F.Sin a ^ 2 = 1)
    (area vol M alpha x0 y0 z0 : K) (is_left : Bool) (h je0 je1 ke rho : K)
    (jp05 jp04 jp03 jp15 jp14 jp13 jp12 jp11 kp4 kp3 kp2 : K) (B : RotationBody K)
    (hB : RotationBody.Init F area vol M alpha x0 y0 z0 is_left h je0 je1 ke rho
      jp05 jp04 jp03 jp15 jp14 jp13 jp12 jp11 kp4 kp3 kp2 = some B)
    (J0 J1 Kc V d : K) (h0 : 0 < J0) (h1 : 0 < J1) (hV : 0 < V) (hK : Kc < 0)
    (hCS : Kc ^ 2 ≤ J0 * V) (hd : 0 ≤ d) :
    ∃ com mois, B.MoIsCoM J0 J1 Kc V d = some (com, mois) ∧
      0 ≤ mois.x ∧ 0 ≤ mois.y ∧ 0 ≤ mois.z := by
  obtain ⟨eXY, eXZ, eC, eS, eyz, e1, e2, e3, e4, e5, e6, e7, e8, e9, e10⟩ :=
    Init_fields_of_some F area vol M alpha x0 y0 z0 is_left h je0 je1 ke rho
      jp05 jp04 jp03 jp15 jp14 jp13 jp12 jp11 kp4 kp3 kp2 B hB
  obtain ⟨hx, hin, hort⟩ := MoI_forms_nonneg (F.Sin alpha) (F.Cos alpha) B.m_right.x B.m_yzR
    J0 J1 Kc V h1.le hV hCS
  have hort' := hort (hpy alpha)
  have hnn : 0 ≤ d * (B.m_Jx0 * J0 + B.m_Jx1 * J1 + B.m_JxK * Kc + B.m_JxSV * V) ∧
      0 ≤ d * (if B.m_inXY then B.m_Jin0 * J0 + B.m_Jin1 * J1 + B.m_JinK * Kc + B.m_JinSV * V
                else J0 + J1 + B.m_JortK * Kc + B.m_JortSV * V) ∧
      0 ≤ d * (if B.m_inXZ then B.m_Jin0 * J0 + B.m_Jin1 * J1 + B.m_JinK * Kc + B.m_JinSV * V
                else J0 + J1 + B.m_JortK * Kc + B.m_JortSV * V) := by
    rw [e1, e2, e3, e4, e5, e6, e7, e8, e9, e10]
    refine ⟨mul_nonneg hd hx, mul_nonneg hd ?_, mul_nonneg hd ?_⟩
    · split_ifs
      · exact hin
      · exact hort'
    · split_ifs
      · exact hin
      · exact hort'
  exact ⟨_, _, (MoIsCoM_eq_some_iff B J0 J1 Kc V d _).2 ⟨⟨h0, h1, hV, hK⟩, hnn, rfl⟩, hnn⟩

/-- The call of `RotationBody::Init` made by the constructor of a `TrCone`. -/
theorem TrCone_ctor_Init (F : MathFns K) (x0 y0 z0 alpha d0 d1 h rho M : K) (T : TrCone K)
    (hT : TrCone.ctor F x0 y0 z0 alpha d0 d1 h rho M = some T) :
    ∃ area vol je0 je1 ke jp05 jp04 jp03 jp15 jp14 jp13 jp12 jp11 kp4 kp3 kp2,
      RotationBody.Init F area vol M alpha x0 y0 z0 true h je0 je1 ke rho
        jp05 jp04 jp03 jp15 jp14 jp13 jp12 jp11 kp4 kp3 kp2 = some T.base := by
  unfold TrCone.ctor at hT
  simp only [assertion_eq_some_iff, Option.bind_eq_some, Option.some.injEq] at hT
  obtain ⟨-, base, hInit, rfl⟩ := hT
  exact ⟨_, _, _, _, _, _, _, _, _, _, _, _, _, _, _, _, hInit⟩

/-- The closed forms, at the full level `l = h`, of the propellant polynomials
of a truncated cone with radii `r`, `R` and height `h` (`p` stands for pi). -/
theorem TrCone_full_closed_forms (p r R h : K) (hh : h ≠ 0) :
    ((p / 5 * ((R - r) / h) ^ 2 * h + -p / 2 * ((R - r) / h) * R) * h + p / 3 * R ^ 2) *
        (h ^ 2 * h) = p * h ^ 3 * (R ^ 2 / 30 + R * r / 10 + r ^ 2 / 5) ∧
    (((((p / 20 * (((R - r) / h) ^ 2) ^ 2 * h +
        -p / 4 * (((R - r) / h) ^ 2 * ((R - r) / h)) * R) * h +
        p / 2 * ((R - r) / h) ^ 2 * R ^ 2) * h) +
        -p / 2 * ((R - r) / h) * (R ^ 2 * R)) * h + p / 4 * (R ^ 2) ^ 2) * h =
      p * h / 20 * (R ^ 4 + R ^ 3 * r + R ^ 2 * r ^ 2 + R * r ^ 3 + r ^ 4) ∧
    ((-p / 4 * ((R - r) / h) ^ 2 * h + p * 2 / 3 * ((R - r) / h) * R) * h +
        -p / 2 * R ^ 2) * h ^ 2 =
      -(p * h ^ 2 * (R ^ 2 / 12 + R * r / 6 + r ^ 2 / 4)) := by
  refine ⟨?_, ?_, ?_⟩
  · field_simp
    ring
  · field_simp
    ring
  · field_simp
    ring

/-- The signs of the closed forms of `TrCone_full_closed_forms`, and their
Cauchy-Schwarz inequality with the enclosed volume. -/
theorem TrCone_full_signs (p r R h : K) (hp : 0 < p) (hr : 0 ≤ r) (hR : 0 ≤ R)
    (hsum : 0 < R + r) (hh : 0 < h) :
    0 < p * h ^ 3 * (R ^ 2 / 30 + R * r / 10 + r ^ 2 / 5) ∧
    0 < p * h / 20 * (R ^ 4 + R ^ 3 * r + R ^ 2 * r ^ 2 + R * r ^ 3 + r ^ 4) ∧
    0 < p * h ^ 2 * (R ^ 2 / 12 + R * r / 6 + r ^ 2 / 4) ∧
    (-(p * h ^ 2 * (R ^ 2 / 12 + R * r / 6 + r ^ 2 / 4))) ^ 2 ≤
      p * h ^ 3 * (R ^ 2 / 30 + R * r / 10 + r ^ 2 / 5) *
        (p / 3 * h * (R ^ 2 + R * r + r ^ 2)) := by
  have hq2 : 0 < R ^ 2 + r ^ 2 := by
    nlinarith [sq_nonneg (R - r), mul_pos hsum hsum]
  have hRr : 0 ≤ R * r := mul_nonneg hR hr
  have h4 : 0 < R ^ 4 + r ^ 4 := by
    nlinarith [sq_nonneg (R ^ 2 - r ^ 2), mul_pos hq2 hq2]
  have a1 : 0 ≤ R ^ 3 * r := by positivity
  have a2 : 0 ≤ R ^ 2 * r ^ 2 := by positivity
  have a3 : 0 ≤ R * r ^ 3 := by positivity
  have q0 : 0 < R ^ 2 / 30 + R * r / 10 + r ^ 2 / 5 := by
    nlinarith [sq_nonneg r, sq_nonneg R]
  have q1 : 0 < R ^ 4 + R ^ 3 * r + R ^ 2 * r ^ 2 + R * r ^ 3 + r ^ 4 := by linarith
  have qK : 0 < R ^ 2 / 12 + R * r / 6 + r ^ 2 / 4 := by
    nlinarith [sq_nonneg r, sq_nonneg R]
  refine ⟨mul_pos (mul_pos hp (pow_pos hh 3)) q0,
    mul_pos (div_pos (mul_pos hp hh) (by norm_num)) q1,
    mul_pos (mul_pos hp (pow_pos hh 2)) qK, ?_⟩
  have e : p * h ^ 3 * (R ^ 2 / 30 + R * r / 10 + r ^ 2 / 5) *
      (p / 3 * h * (R ^ 2 + R * r + r ^ 2)) -
      (-(p * h ^ 2 * (R ^ 2 / 12 + R * r / 6 + r ^ 2 / 4))) ^ 2 =
      (p * h ^ 2) ^ 2 * (R ^ 4 / 240 + R ^ 3 * r / 60 +
        R ^ 2 * r ^ 2 / 24 + R * r ^ 3 / 60 + r ^ 4 / 240) := by
    ring
  have h5 : 0 ≤ R ^ 4 / 240 + R ^ 3 * r / 60 +
      R ^ 2 * r ^ 2 / 24 + R * r ^ 3 / 60 + r ^ 4 / 240 := by
    have b1 : 0 ≤ R ^ 4 := by positivity
    have b2 : 0 ≤ r ^ 4 := by positivity
    linarith
  have h6 := mul_nonneg (sq_nonneg (p * h ^ 2)) h5
  rw [← e] at h6
  exact sub_nonneg.1 h6

/-- The tolerance factor is at least 1 when the machine epsilon is not
negative. -/
theorem one_le_TolFact (F : MathFns K) (hEps : 0 ≤ F.Eps) : 1 ≤ RotationBody.TolFact F := by
  unfold RotationBody.TolFact RotationBody.Tol
  linarith [mul_nonneg (by norm_num : (0 : K) ≤ 100) hEps]

/-- The geometry facts of a constructed `TrCone`: pi and the height are
positive, the radii are not negative and not both zero. -/
theorem TrCone_ctor_geom (F : MathFns K) (x0 y0 z0 alpha d0 d1 h rho M : K)
    (T : TrCone K) (hT : TrCone.ctor F x0 y0 z0 alpha d0 d1 h rho M = some T) :
    0 < F.Pi ∧ 0 ≤ T.m_r ∧ 0 ≤ T.m_R ∧ 0 < T.m_R + T.m_r ∧ 0 < T.m_h := by
  obtain ⟨⟨hh, hd0, hd1, hd, hal, -, -⟩, ⟨er, eR, eh, -, -, -, -⟩, -⟩ :=
    TrCone_ctor_some F x0 y0 z0 alpha d0 d1 h rho M T hT
  clear hT
  have hpi : 0 < F.Pi := by
    have := lt_of_le_of_lt (abs_nonneg alpha) hal
    linarith
  refine ⟨hpi, by rw [er]; positivity, by rw [eR]; positivity, ?_, by rw [eh]; exact hh⟩
  rw [er, eR]
  rcases hd0.lt_or_eq with h0 | h0
  · positivity
  · rcases hd1.lt_or_eq with h1 | h1
    · positivity
    · exact absurd ⟨h0.symm, h1.symm⟩ hd

/-- On a constructed `TrCone` with a positive propellant density,
`GetPropCE(GetPropMassCap())` succeeds and reports the level `h`. -/
theorem TrCone_GetPropCE_cap (F : MathFns K) (x0 y0 z0 alpha d0 d1 h rho M : K)
    (T : TrCone K) (hT : TrCone.ctor F x0 y0 z0 alpha d0 d1 h rho M = some T)
    (hrho : 0 < rho) (hEps : 0 ≤ F.Eps) (hcb : ∀ x, 0 ≤ x → F.CbRt (x ^ 3) = x)
    (hpy : ∀ a, F.Cos a ^ 2 + F.Sin a ^ 2 = 1) :
    ∃ R, T.GetPropCE F T.base.m_propMassCap = some (R, h) := by
  obtain ⟨⟨hh, -⟩, ⟨-, -, eh, -, -, -, -⟩, ⟨-, -, hV⟩,
    ⟨ebh, -, eV, erho, ecap⟩, ⟨e05, e04, e03⟩, ⟨e15, e14, e13, e12, e11⟩, ⟨e4, e3, e2⟩⟩ :=
    TrCone_ctor_some F x0 y0 z0 alpha d0 d1 h rho M T hT
  obtain ⟨area, vol, je0, je1, ke, jp05, jp04, jp03, jp15, jp14, jp13, jp12, jp11, kp4, kp3,
    kp2, hInit⟩ := TrCone_ctor_Init F x0 y0 z0 alpha d0 d1 h rho M T hT
  have hlev := (TrCone_LevelOfVol_zero_full F x0 y0 z0 alpha d0 d1 h rho M T hT hcb).2
  obtain ⟨hpi, hr, hR, hsum, hh'⟩ := TrCone_ctor_geom F x0 y0 z0 alpha d0 d1 h rho M T hT
  have hTol := one_le_TolFact F hEps
  obtain ⟨c0, c1, cK⟩ := TrCone_full_closed_forms F.Pi T.m_r T.m_R T.m_h hh'.ne'
  obtain ⟨p0, p1, pK, hCS⟩ := TrCone_full_signs F.Pi T.m_r T.m_R T.m_h hpi hr hR hsum hh'
  rw [← eV] at hCS
  obtain ⟨com, mois, hMo, hmx, hmy, hmz⟩ := MoIsCoM_isSome_of_CS F hpy _ _ _ _ _ _ _ _ _ _ _ _
    _ _ _ _ _ _ _ _ _ _ _ _ T.base hInit _ _ _ T.base.m_enclVol rho p0 p1 hV
    (neg_neg_of_pos pK) hCS hrho.le
  have hcap : 0 < T.base.m_propMassCap := by rw [ecap]; exact mul_pos hrho hV
  have hdiv : T.base.m_propMassCap / T.base.m_rho = T.base.m_enclVol := by
    rw [ecap, erho]
    field_simp
  refine ⟨⟨com, T.base.m_propMassCap, mois, true⟩, ?_⟩
  unfold TrCone.GetPropCE
  rw [GetPropCE_eq_some_iff, hdiv, min_self]
  refine ⟨⟨hcap.le, le_mul_of_one_le_right hcap.le hTol⟩, by rw [erho]; exact hrho.ne',
    ⟨hV.le, le_mul_of_one_le_right hV.le hTol⟩, h, hlev,
    ⟨hh.le, by rw [ebh]; exact le_mul_of_one_le_right hh.le hTol⟩,
    by rw [ebh, min_self], ?_, com, mois, ?_, ⟨hcap, hmx, hmy, hmz⟩, rfl⟩
  · rw [e05, e04, e03, e15, e14, e13, e12, e11, e4, e3, e2, ← eh, c0, c1, cK]
    exact ⟨p0.le, p1.le, (neg_neg_of_pos pK).le⟩
  · rw [e05, e04, e03, e15, e14, e13, e12, e11, e4, e3, e2, ← eh, c0, c1, cK, erho]
    exact hMo

/-- Witness of C15: on the cylinder of radius 1 and height 2 filled to its
capacity, `GetPropCE` returns a final element whose mass is the mass given. -/
theorem GetPropCE_mass_witness :
    let F : MathFns ℝ :=
      ⟨Real.pi, (1 / 2) ^ 52, Real.cos, Real.sin, Real.sqrt, fun x => x ^ ((3 : ℝ)⁻¹)⟩
    ∃ T R l, TrCone.ctor_cylinder F 0 2 2 1000 0 = some T ∧
      T.base.GetPropCE F (T.LevelOfVol F) T.base.GetPropMassCap = some (R, l) ∧
      R.m_isFinal = true ∧ R.m_mass = T.base.GetPropMassCap := by
  intro F
  obtain ⟨hpi, hc, hs, hsq, hcb, hpy, -⟩ := real_MathFns_laws
  obtain ⟨T, hT⟩ := TrCone_ctor_OX_isSome F hpi hc hs hsq 0 2 2 2 1000 0 (by norm_num)
    (by norm_num) (by norm_num) (by norm_num) (by norm_num) le_rfl
  obtain ⟨R, hR⟩ := TrCone_GetPropCE_cap F 0 0 0 0 2 2 2 1000 0 T hT (by norm_num)
    (by positivity) hcb hpy
  have h := (GetPropCE_mass F T.base (T.LevelOfVol F) T.base.GetPropMassCap).1 R 2 hR
  exact ⟨T, R, 2, hT, hR, h.1, h.2⟩

/-- The failing input of C16: the cylinder of radius 1 and height 2 with the
propellant density 1000 is constructed, and `GetPropCE(0)` on it returns
nothing. -/
theorem GetPropCE_zero_fails_witness :
    let F : MathFns ℝ :=
      ⟨Real.pi, (1 / 2) ^ 52, Real.cos, Real.sin, Real.sqrt, fun x => x ^ ((3 : ℝ)⁻¹)⟩
    ∃ T, TrCone.ctor_cylinder F 0 2 2 1000 0 = some T ∧ T.GetPropCE F 0 = none := by
  intro F
  obtain ⟨hpi, hc, hs, hsq, -, -, -⟩ := real_MathFns_laws
  obtain ⟨T, hT⟩ := TrCone_ctor_OX_isSome F hpi hc hs hsq 0 2 2 2 1000 0 (by norm_num)
    (by norm_num) (by norm_num) (by norm_num) (by norm_num) le_rfl
  exact ⟨T, hT, GetPropCE_zero_fails F T.base (T.LevelOfVol F)⟩

/-! ### The Halley iteration of `SpherSegm::LevelOfVolRight` -/

/-- The denominator of the Halley update is positive for `0 < x <= 1` and
`tv >= 0`. -/
theorem halley_den_pos (tv x : K) (htv : 0 ≤ tv) (hx : 0 < x) (hx1 : x ≤ 1) :
    0 < 2 * (x ^ 2) ^ 2 - 8 * (x ^ 2 * x) + 9 * x ^ 2 + tv * (1 - x) := by
  have h1 : 0 < x ^ 2 * (2 * (x - 2) ^ 2 + 1) :=
    mul_pos (pow_pos hx 2) (by nlinarith [sq_nonneg (x - 2)])
  have h2 : 0 ≤ tv * (1 - x) := mul_nonneg htv (by linarith)
  have e : 2 * (x ^ 2) ^ 2 - 8 * (x ^ 2 * x) + 9 * x ^ 2 + tv * (1 - x)
      = x ^ 2 * (2 * (x - 2) ^ 2 + 1) + tv * (1 - x) := by ring
  rw [e]
  exact add_pos_of_pos_of_nonneg h1 h2

/-- The polynomial `3*N - 2*D` of the Halley update is non-negative between the
root `s` and `1/2`. -/
theorem halley_G_nonneg (s x : K) (hs0 : 0 ≤ s) (hs1 : s ≤ 1)
    (hb : (s ≤ x ∧ x ≤ 1 / 2) ∨ (1 / 2 ≤ x ∧ x ≤ s)) :
    0 ≤ (x - s) ^ 3 * (1 - x) +
      3 * s * (2 - s) * (3 * (x - s) * (1 - s) + s * (2 - s) - 2 * (x - s) ^ 2) := by
  rcases hb with ⟨h1, h2⟩ | ⟨h1, h2⟩
  · have t0 : 0 ≤ x - s := by linarith
    have a1 : 0 ≤ (x - s) ^ 3 * (1 - x) := mul_nonneg (pow_nonneg t0 3) (by linarith)
    have a2 : 0 ≤ 3 * s * (2 - s) :=
      mul_nonneg (mul_nonneg (by norm_num) hs0) (by linarith)
    have a3 : 0 ≤ 3 * (x - s) * (1 - s) + s * (2 - s) - 2 * (x - s) ^ 2 := by
      have b1 : 0 ≤ (x - s) * (3 - 3 * s - 2 * (x - s)) :=
        mul_nonneg t0 (by linarith)
      have b2 : 0 ≤ s * (2 - s) := mul_nonneg hs0 (by linarith)
      have e : 3 * (x - s) * (1 - s) + s * (2 - s) - 2 * (x - s) ^ 2
          = (x - s) * (3 - 3 * s - 2 * (x - s)) + s * (2 - s) := by ring
      rw [e]; exact add_nonneg b1 b2
    exact add_nonneg a1 (mul_nonneg a2 a3)
  · obtain ⟨t, ht⟩ : ∃ t, t = s - x := ⟨_, rfl⟩
    obtain ⟨u, hu⟩ : ∃ u, u = 1 - s := ⟨_, rfl⟩
    have t0 : 0 ≤ t := by linarith
    have u0 : 0 ≤ u := by linarith
    have tu : t + u ≤ 1 / 2 := by linarith
    have hx : x = 1 - u - t := by linarith
    have hs : s = 1 - u := by linarith
    subst hx
    subst hs
    have c1 : t ^ 3 * (u + t) ≤ 1 / 16 := by
      have d1 : t ^ 3 ≤ (1 / 2) ^ 3 := pow_le_pow_left₀ t0 (by linarith) 3
      have d2 : 0 ≤ t ^ 3 := pow_nonneg t0 3
      have d3 : u + t ≤ 1 / 2 := by linarith
      have d4 : 0 ≤ u + t := by linarith
      calc t ^ 3 * (u + t) ≤ (1 / 2) ^ 3 * (1 / 2) := mul_le_mul d1 d3 d4 (by norm_num)
        _ = 1 / 16 := by norm_num
    have u2 : u ^ 2 ≤ 1 / 4 := by nlinarith
    have c2 : 3 / 4 ≤ (1 - u) * (1 + u) := by nlinarith
    have c3 : 1 / 2 ≤ (1 - u) * (1 + u) - 3 * t * u - 2 * t ^ 2 := by
      nlinarith [mul_nonneg t0 u0, mul_nonneg t0 t0]
    have c4 : 9 / 8 ≤ 3 * ((1 - u) * (1 + u)) *
        ((1 - u) * (1 + u) - 3 * t * u - 2 * t ^ 2) := by
      have e1 : (9 : K) / 4 ≤ 3 * ((1 - u) * (1 + u)) := by linarith
      calc (9 : K) / 8 = 9 / 4 * (1 / 2) := by norm_num
        _ ≤ 3 * ((1 - u) * (1 + u)) * ((1 - u) * (1 + u) - 3 * t * u - 2 * t ^ 2) :=
          mul_le_mul e1 c3 (by norm_num) (by linarith)
    have e3 : (1 - u - t - (1 - u)) ^ 3 * (1 - (1 - u - t)) +
        3 * (1 - u) * (2 - (1 - u)) * (3 * (1 - u - t - (1 - u)) * (1 - (1 - u)) +
          (1 - u) * (2 - (1 - u)) - 2 * (1 - u - t - (1 - u)) ^ 2)
        = 3 * ((1 - u) * (1 + u)) * ((1 - u) * (1 + u) - 3 * t * u - 2 * t ^ 2)
          - t ^ 3 * (u + t) := by ring
    rw [e3]
    linarith

/-- One Halley step of `LevelOfVolRight` towards the root `s` of
`x^2*(3-x) = tv`, from a point `x` between `s` and `1/2`: the denominator is
positive and the update is `dx = (x - s) * β` with `2/3 <= β <= 1`, and `β < 1`
unless `x = s`. -/
theorem halley_step (s x : K) (hs0 : 0 ≤ s) (hs1 : s ≤ 1) (hx : 0 < x)
    (hb : (s ≤ x ∧ x ≤ 1 / 2) ∨ (1 / 2 ≤ x ∧ x ≤ s)) :
    0 < 2 * (x ^ 2) ^ 2 - 8 * (x ^ 2 * x) + 9 * x ^ 2 + s ^ 2 * (3 - s) * (1 - x) ∧
    ∃ β : K, 2 / 3 ≤ β ∧ β ≤ 1 ∧ (x ≠ s → β < 1) ∧
      x * (x - 2) * (x ^ 2 * x - 3 * x ^ 2 + s ^ 2 * (3 - s)) /
        (2 * (x ^ 2) ^ 2 - 8 * (x ^ 2 * x) + 9 * x ^ 2 + s ^ 2 * (3 - s) * (1 - x)) =
      (x - s) * β := by
  have hx1 : x ≤ 1 := by
    rcases hb with h | h
    · linarith [h.2]
    · linarith [h.2]
  have htv : 0 ≤ s ^ 2 * (3 - s) := mul_nonneg (sq_nonneg s) (by linarith)
  have hD := halley_den_pos (s ^ 2 * (3 - s)) x htv hx hx1
  have hG := halley_G_nonneg s x hs0 hs1 hb
  refine ⟨hD, ?_⟩
  obtain ⟨D, hDdef⟩ : ∃ D, D = 2 * (x ^ 2) ^ 2 - 8 * (x ^ 2 * x) + 9 * x ^ 2 +
      s ^ 2 * (3 - s) * (1 - x) := ⟨_, rfl⟩
  obtain ⟨N, hNdef⟩ : ∃ N, N = x * (2 - x) * (3 * (x + s) - x ^ 2 - x * s - s ^ 2) :=
    ⟨_, rfl⟩
  rw [← hDdef] at hD ⊢
  have hDN : D - N = (x - s) ^ 2 * ((1 - x) * (3 - s) + x ^ 2) := by
    rw [hDdef, hNdef]; ring
  have hfac : 0 < (1 - x) * (3 - s) + x ^ 2 :=
    add_pos_of_nonneg_of_pos (mul_nonneg (by linarith) (by linarith)) (pow_pos hx 2)
  have hG0 : 0 ≤ 3 * N - 2 * D := by
    have e : 3 * N - 2 * D = (x - s) ^ 3 * (1 - x) +
        3 * s * (2 - s) * (3 * (x - s) * (1 - s) + s * (2 - s) - 2 * (x - s) ^ 2) := by
      rw [hDdef, hNdef]; ring
    rw [e]; exact hG
  refine ⟨N / D, ?_, ?_, ?_, ?_⟩
  · rw [le_div_iff₀ hD]
    linarith
  · rw [div_le_one hD]
    have : 0 ≤ D - N := by
      rw [hDN]; exact mul_nonneg (sq_nonneg _) hfac.le
    linarith
  · intro hne
    rw [div_lt_one hD]
    have : 0 < D - N := by
      rw [hDN]
      exact mul_pos (by have := sub_ne_zero.2 hne; positivity) hfac
    linarith
  · rw [← mul_div_assoc]
    congr 1
    rw [hNdef]
    ring

/-- The exit of a Halley step `x' = x - (x - s) * β` with `2/3 <= β <= 1`. -/
theorem halley_exit (s x β Tol : K) (hβ0 : 2 / 3 ≤ β) (hβ1 : β ≤ 1)
    (hβne : x ≠ s → β < 1) (habs : |(x - s) * β| < Tol) :
    (s ≤ x → s ≤ x - (x - s) * β ∧ x - (x - s) * β ≤ x) ∧
    (x ≤ s → x ≤ x - (x - s) * β ∧ x - (x - s) * β ≤ s) ∧
    |x - (x - s) * β - s| ≤ Tol / 2 ∧ (x ≠ s → x - (x - s) * β ≠ s) := by
  have hβ : (0 : K) ≤ β := by linarith
  have e : x - (x - s) * β - s = (x - s) * (1 - β) := by ring
  refine ⟨?_, ?_, ?_, ?_⟩
  · intro h
    have h1 : 0 ≤ (x - s) * (1 - β) := mul_nonneg (by linarith) (by linarith)
    have h2 : 0 ≤ (x - s) * β := mul_nonneg (by linarith) hβ
    constructor <;> linarith
  · intro h
    have h1 : 0 ≤ (s - x) * (1 - β) := mul_nonneg (by linarith) (by linarith)
    have h2 : 0 ≤ (s - x) * β := mul_nonneg (by linarith) hβ
    constructor <;> nlinarith
  · rw [e, abs_mul, abs_of_nonneg (by linarith : (0 : K) ≤ 1 - β)]
    rw [abs_mul, abs_of_nonneg hβ] at habs
    have h0 := abs_nonneg (x - s)
    have : |x - s| * (1 - β) ≤ |x - s| * (β / 2) :=
      mul_le_mul_of_nonneg_left (by linarith) h0
    linarith
  · intro hne h
    have h1 : (x - s) * (1 - β) = 0 := by rw [← e, h, sub_self]
    rcases mul_eq_zero.1 h1 with h2 | h2
    · exact hne (sub_eq_zero.1 h2)
    · have := hβne hne
      linarith

/-- The next iterate of a Halley step that starts off the root, between the root
and `1/2`: it is positive, still between the root and `1/2`, three times closer
to the root, on the same side, and off the root. -/
theorem halley_next (s x β : K) (hs0 : 0 ≤ s)
    (hb : (s ≤ x ∧ x ≤ 1 / 2) ∨ (1 / 2 ≤ x ∧ x ≤ s))
    (hβ0 : 2 / 3 ≤ β) (hβlt : β < 1) (hxs : x ≠ s) :
    0 < x - (x - s) * β ∧
    ((s ≤ x - (x - s) * β ∧ x - (x - s) * β ≤ 1 / 2) ∨
      (1 / 2 ≤ x - (x - s) * β ∧ x - (x - s) * β ≤ s)) ∧
    |x - (x - s) * β - s| ≤ |x - s| * (1 / 3) ∧
    (s ≤ x → s ≤ x - (x - s) * β ∧ x - (x - s) * β ≤ x) ∧
    (x ≤ s → x ≤ x - (x - s) * β ∧ x - (x - s) * β ≤ s) ∧
    x - (x - s) * β ≠ s := by
  have hβ : (0 : K) ≤ β := by linarith
  have e : x - (x - s) * β - s = (x - s) * (1 - β) := by ring
  have hA : s ≤ x → s ≤ x - (x - s) * β ∧ x - (x - s) * β ≤ x := by
    intro h
    have h1 : 0 ≤ (x - s) * (1 - β) := mul_nonneg (by linarith) (by linarith)
    have h2 : 0 ≤ (x - s) * β := mul_nonneg (by linarith) hβ
    constructor <;> linarith
  have hB : x ≤ s → x ≤ x - (x - s) * β ∧ x - (x - s) * β ≤ s := by
    intro h
    have h1 : 0 ≤ (s - x) * (1 - β) := mul_nonneg (by linarith) (by linarith)
    have h2 : 0 ≤ (s - x) * β := mul_nonneg (by linarith) hβ
    constructor <;> nlinarith
  have hne : x - (x - s) * β ≠ s := by
    intro h
    have h1 : (x - s) * (1 - β) = 0 := by rw [← e, h, sub_self]
    rcases mul_eq_zero.1 h1 with h2 | h2
    · exact hxs (sub_eq_zero.1 h2)
    · linarith
  refine ⟨?_, ?_, ?_, hA, hB, hne⟩
  · rcases hb with ⟨h1, h2⟩ | ⟨h1, h2⟩
    · have := (hA h1).1
      exact lt_of_le_of_lt hs0 (lt_of_le_of_ne this (Ne.symm hne))
    · have := (hB h2).1
      linarith
  · rcases hb with ⟨h1, h2⟩ | ⟨h1, h2⟩
    · left
      have := hA h1
      exact ⟨this.1, by linarith [this.2]⟩
    · right
      have := hB h2
      exact ⟨by linarith [this.1], this.2⟩
  · rw [e, abs_mul, abs_of_nonneg (by linarith : (0 : K) ≤ 1 - β)]
    exact mul_le_mul_of_nonneg_left (by linarith) (abs_nonneg _)

/-- The Halley loop of `LevelOfVolRight` for `tv = s^2*(3-s)` with `0 <= s <= 1`,
entered at a point `x > 0` between `s` and `1/2` with `n + 1` iterations left,
where `|x - s| * (1/3)^n < Tol`: it returns a point `y` that lies between `s` and
`x`, within `Tol / 2` of `s`, and differs from `s` unless `x = s`. -/
theorem halley_loop (s Tol : K) (hs0 : 0 ≤ s) (hs1 : s ≤ 1) (hTol : 0 < Tol) :
    ∀ (n : Nat) (x : K), 0 < x →
      ((s ≤ x ∧ x ≤ 1 / 2) ∨ (1 / 2 ≤ x ∧ x ≤ s)) →
      |x - s| * (1 / 3) ^ n < Tol →
      ∃ y, SpherSegm.LevelOfVolRight.loop (s ^ 2 * (3 - s)) Tol (n + 1) x = some y ∧
        (s ≤ x → s ≤ y ∧ y ≤ x) ∧ (x ≤ s → x ≤ y ∧ y ≤ s) ∧
        |y - s| ≤ Tol / 2 ∧ (x ≠ s → y ≠ s) := by
  intro n
  induction n with
  | zero =>
    intro x hx hb hlt
    obtain ⟨hD, β, hβ0, hβ1, hβne, hdx⟩ := halley_step s x hs0 hs1 hx hb
    rw [pow_zero, mul_one] at hlt
    have habs : |(x - s) * β| < Tol := by
      rw [abs_mul, abs_of_nonneg (by linarith : (0 : K) ≤ β)]
      have := abs_nonneg (x - s)
      nlinarith
    refine ⟨x - (x - s) * β, ?_, ?_⟩
    · unfold SpherSegm.LevelOfVolRight.loop
      simp only [hdx, hD.ne', if_false, habs, if_true]
    · exact halley_exit s x β Tol hβ0 hβ1 hβne habs
  | succ n ih =>
    intro x hx hb hlt
    obtain ⟨hD, β, hβ0, hβ1, hβne, hdx⟩ := halley_step s x hs0 hs1 hx hb
    by_cases habs : |(x - s) * β| < Tol
    · refine ⟨x - (x - s) * β, ?_, ?_⟩
      · unfold SpherSegm.LevelOfVolRight.loop
        simp only [hdx, hD.ne', if_false, habs, if_true]
      · exact halley_exit s x β Tol hβ0 hβ1 hβne habs
    · have hxs : x ≠ s := by
        intro h
        apply habs
        rw [h, sub_self, zero_mul, abs_zero]
        exact hTol
      obtain ⟨hx', hb', hc', hA, hB, hne'⟩ := halley_next s x β hs0 hb hβ0 (hβne hxs) hxs
      have hlt' : |x - (x - s) * β - s| * (1 / 3) ^ n < Tol := by
        have h3 : (0 : K) ≤ (1 / 3) ^ n := by positivity
        have : |x - (x - s) * β - s| * (1 / 3) ^ n ≤ |x - s| * (1 / 3) ^ (n + 1) := by
          rw [pow_succ]
          have := mul_le_mul_of_nonneg_right hc' h3
          linarith
        linarith
      obtain ⟨y, hy, hyA, hyB, hyT, hyne⟩ := ih (x - (x - s) * β) hx' hb' hlt'
      refine ⟨y, ?_, ?_, ?_, hyT, fun _ => hyne hne'⟩
      · rw [SpherSegm.LevelOfVolRight.loop]
        simp only [hdx, hD.ne', if_false, habs]
        exact hy
      · intro h
        obtain ⟨a1, a2⟩ := hA h
        obtain ⟨b1, b2⟩ := hyA a1
        exact ⟨b1, le_trans b2 a2⟩
      · intro h
        obtain ⟨a1, a2⟩ := hB h
        obtain ⟨b1, b2⟩ := hyB a2
        exact ⟨le_trans a1 b1, b2⟩

/-- The Halley loop as `LevelOfVolRight` calls it (100 iterations, start `1/2`)
for `tv = s^2*(3-s)` with `0 <= s <= 1` and a tolerance of at least
`100 * 2^-52`: it returns a point between `s` and `1/2` within `Tol / 2` of `s`,
which is not `s` unless `s = 1/2`. -/
theorem halley_from_half (s Tol : K) (hs0 : 0 ≤ s) (hs1 : s ≤ 1)
    (hTol : 100 * (1 / 2) ^ 52 ≤ Tol) :
    ∃ y, SpherSegm.LevelOfVolRight.loop (s ^ 2 * (3 - s)) Tol 100 (1 / 2) = some y ∧
      (s ≤ 1 / 2 → s ≤ y ∧ y ≤ 1 / 2) ∧ (1 / 2 ≤ s → 1 / 2 ≤ y ∧ y ≤ s) ∧
      |y - s| ≤ Tol / 2 ∧ (s ≠ 1 / 2 → y ≠ s) := by
  have hT0 : (0 : K) < Tol := lt_of_lt_of_le (by norm_num) hTol
  have hb : (s ≤ (1 / 2 : K) ∧ (1 / 2 : K) ≤ 1 / 2) ∨ ((1 / 2 : K) ≤ 1 / 2 ∧ 1 / 2 ≤ s) := by
    rcases le_total s (1 / 2) with h | h
    · exact Or.inl ⟨h, le_refl _⟩
    · exact Or.inr ⟨le_refl _, h⟩
  have habs : |1 / 2 - s| ≤ 1 / 2 := by
    rw [abs_le]; constructor <;> linarith
  have hlt : |1 / 2 - s| * (1 / 3) ^ 99 < Tol := by
    have h1 : |1 / 2 - s| * (1 / 3 : K) ^ 99 ≤ 1 / 2 * (1 / 3) ^ 99 :=
      mul_le_mul_of_nonneg_right habs (by positivity)
    have h2 : (1 / 2 : K) * (1 / 3) ^ 99 < 100 * (1 / 2) ^ 52 := by norm_num
    linarith
  obtain ⟨y, hy, hA, hB, hT, hne⟩ :=
    halley_loop s Tol hs0 hs1 hT0 99 (1 / 2) (by norm_num) hb hlt
  exact ⟨y, hy, hA, hB, hT, fun h => hne (Ne.symm h)⟩

/-! ### Spherical segments: construction -/

/-- A `SpherSegm` that its constructor returns: the preconditions held, the
geometry is stored, and the base part has the side surface area, the enclosed
volume and the propellant density of the source. -/
theorem SpherSegm_ctor_some (F : MathFns K) (fr : Bool) (x0 y0 z0 alpha d h rho M : K)
    (S : SpherSegm K)
    (hS : SpherSegm.ctor F fr x0 y0 z0 alpha d h rho M = some S) :
    (0 < d ∧ 0 < h ∧ |alpha| < F.Pi / 2 ∧ 0 ≤ rho ∧ 0 ≤ M) ∧
    (h ≤ d / 2 * (1 + 10 * F.Eps) ∧ 0 ≤ S.m_R - h) ∧
    (S.m_r = d / 2 ∧ S.m_R = ((d / 2) ^ 2 / h + h) / 2 ∧ S.m_R3 = S.m_R ^ 3 ∧
      S.m_facingRight = fr) ∧
    (0 < F.Cos alpha ∧ 0 < S.base.m_sideSurfArea ∧ 0 < S.base.m_enclVol) ∧
    (S.base.m_h = h ∧ S.base.m_sideSurfArea = 2 * F.Pi * S.m_R * h ∧
      S.base.m_enclVol = F.Pi * h ^ 2 * (S.m_R - h / 3) ∧
      S.base.m_rho = rho ∧ S.base.m_propMassCap = rho * S.base.m_enclVol) := by
  unfold SpherSegm.ctor at hS
  simp only [assertion_eq_some_iff, Option.bind_eq_some, IsPos, IsNeg, IsZero, not_lt,
    Option.some.injEq] at hS
  obtain ⟨hpre, hle, hRmh, base, hInit, rfl⟩ := hS
  obtain ⟨⟨hcos, -, harea, hvol, -⟩, ⟨e1, e2, e3, e4, e5⟩, -, -, -⟩ :=
    Init_props_of_some F _ _ _ _ _ _ _ _ _ _ _ _ _ _ _ _ _ _ _ _ _ _ _ _ base hInit
  refine ⟨hpre, ⟨hle, hRmh⟩, ⟨rfl, rfl, rfl, rfl⟩, ⟨hcos, ?_, ?_⟩, ⟨e1, e2, e3, e4, ?_⟩⟩
  · rw [e2]; exact harea
  · rw [e3]; exact hvol
  · rw [e5, e3]

/-- The `RotationBody::Init` call inside the constructor of a `SpherSegm`, for a
segment that the constructor returns. -/
theorem SpherSegm_ctor_Init (F : MathFns K) (fr : Bool) (x0 y0 z0 alpha d h rho M : K)
    (S : SpherSegm K)
    (hS : SpherSegm.ctor F fr x0 y0 z0 alpha d h rho M = some S) :
    RotationBody.Init F (2 * F.Pi * S.m_R * h) (F.Pi * h ^ 2 * (S.m_R - h / 3)) M
      alpha x0 y0 z0 fr h (2 * F.Pi / 3 * S.m_R * (h * h ^ 2))
      (S.m_R * (F.Pi * h ^ 2 * (S.m_R - h / 3))) (-F.Pi * S.m_R * h ^ 2) rho
      (-F.Pi / 5) (F.Pi / 2 * (if fr then S.m_R else -(S.m_R - h)))
      (if fr then 0 else F.Pi / 3 * (S.m_R + (S.m_R - h)) * h)
      (F.Pi / 20) (F.Pi / 4 * (if fr then -S.m_R else S.m_R - h))
      (F.Pi * (if fr then S.m_R ^ 2 / 3 else S.m_R ^ 2 / 3 - S.m_R * h + h ^ 2 / 2))
      (if fr then 0 else -F.Pi / 2 * (S.m_R - h) * (S.m_R + (S.m_R - h)) * h)
      (if fr then 0 else F.Pi / 4 * (S.m_R + (S.m_R - h)) ^ 2 * h ^ 2)
      (F.Pi / 4) (F.Pi * 2 / 3 * (if fr then -S.m_R else S.m_R - h))
      (if fr then 0 else -F.Pi / 2 * (S.m_R + (S.m_R - h)) * h) = some S.base := by
  unfold SpherSegm.ctor at hS
  simp only [assertion_eq_some_iff, Option.bind_eq_some, Option.some.injEq] at hS
  obtain ⟨-, -, -, base, hInit, rfl⟩ := hS
  exact hInit

/-- The sphere radius of a segment of base radius `r > 0` and height
`0 < h <= r`: it is at least `r`, hence at least `h`. -/
theorem SpherSegm_radius (r h : K) (hr : 0 < r) (hh : 0 < h) (hle : h ≤ r) :
    0 < (r ^ 2 / h + h) / 2 ∧ h ≤ (r ^ 2 / h + h) / 2 ∧
    (r ^ 2 / h + h) / 2 * h = (r ^ 2 + h ^ 2) / 2 := by
  have e : (r ^ 2 / h + h) / 2 * h = (r ^ 2 + h ^ 2) / 2 := by
    field_simp
    ring
  have h1 : h * h ≤ (r ^ 2 / h + h) / 2 * h := by
    rw [e]
    nlinarith
  have h2 : h ≤ (r ^ 2 / h + h) / 2 := le_of_mul_le_mul_right h1 hh
  exact ⟨lt_of_lt_of_le hh h2, h2, e⟩

/-- The constructor of a `SpherSegm` whose axis lies on OX succeeds for every base
diameter `d > 0` and height `0 < h <= d/2`. -/
theorem SpherSegm_ctor_OX_isSome (F : MathFns K) (hpi : 0 < F.Pi) (hEps : 0 ≤ F.Eps)
    (hc : F.Cos 0 = 1) (hs : F.Sin 0 = 0) (fr : Bool)
    (x0 d h rho M : K) (hd : 0 < d) (hh : 0 < h) (hle : h ≤ d / 2)
    (hrho : 0 ≤ rho) (hM : 0 ≤ M) :
    ∃ S, SpherSegm.ctor F fr x0 0 0 0 d h rho M = some S := by
  obtain ⟨hR, hRh, -⟩ := SpherSegm_radius (d / 2) h (half_pos hd) hh hle
  have hpre : IsPos d ∧ IsPos h ∧ |(0 : K)| < F.Pi / 2 ∧ ¬ IsNeg rho ∧ ¬ IsNeg M :=
    ⟨hd, hh, by rw [abs_zero]; exact half_pos hpi, not_lt.2 hrho, not_lt.2 hM⟩
  have hle' : h ≤ d / 2 * (1 + 10 * F.Eps) := by
    have : 0 ≤ d / 2 * (10 * F.Eps) :=
      mul_nonneg (half_pos hd).le (mul_nonneg (by norm_num) hEps)
    linarith
  have hRmh : ¬ IsNeg (((d / 2) ^ 2 / h + h) / 2 - h) := not_lt.2 (by linarith)
  unfold SpherSegm.ctor
  rw [assertion_of _ hpre]
  dsimp only
  rw [assertion_of _ hle', assertion_of _ hRmh]
  generalize ((d / 2) ^ 2 / h + h) / 2 = R at hR hRh ⊢
  have hvol : 0 < F.Pi * h ^ 2 * (R - h / 3) :=
    mul_pos (mul_pos hpi (pow_pos hh 2)) (by linarith)
  apply bind_some_isSome
  apply Init_OX_isSome F hc hs
  · exact mul_pos (mul_pos (mul_pos (by norm_num) hpi) hR) hh
  · exact hvol
  · exact hh
  · exact mul_pos (mul_pos (div_pos (mul_pos (by norm_num) hpi) (by norm_num)) hR)
      (mul_pos hh (pow_pos hh 2))
  · exact mul_pos hR hvol
  · have h1 : 0 < F.Pi * R * h ^ 2 := mul_pos (mul_pos hpi hR) (pow_pos hh 2)
    have e : -F.Pi * R * h ^ 2 = -(F.Pi * R * h ^ 2) := by ring
    rw [e]
    exact neg_neg_of_pos h1
  · exact hrho
  · have h2 : 0 ≤ (F.Pi * R * h ^ 2) ^ 2 := sq_nonneg _
    have e : 2 * F.Pi / 3 * R * (h * h ^ 2) * (2 * F.Pi * R * h) - (-F.Pi * R * h ^ 2) ^ 2 =
        (F.Pi * R * h ^ 2) ^ 2 * (1 / 3) := by ring
    have h4 := mul_nonneg h2 (by norm_num : (0 : K) ≤ 1 / 3)
    rw [← e] at h4
    linarith
/-- The cubic `s^2*(3-s)` is at most 2 on `[0, 1]`. -/
theorem cubic_le_two (s : K) (hs0 : 0 ≤ s) (hs1 : s ≤ 1) : s ^ 2 * (3 - s) ≤ 2 := by
  have h1 : 0 ≤ (1 - s) * (2 + 2 * s - s ^ 2) :=
    mul_nonneg (by linarith) (by nlinarith)
  nlinarith

/-- `LevelOfVolRight` at the volume of the cap of relative height `s` (that is
`pi/3 * R^3 * s^2 * (3 - s)`, `0 <= s <= 1`), with `Eps >= 2^-52`: the solver
returns `y * R` for a point `y` between `s` and `1/2`, within `Tol / 2` of `s`,
which is not `s` unless `s = 1/2`. -/
theorem SpherSegm_LevelOfVolRight_root (F : MathFns K) (hpi : 0 < F.Pi)
    (hEps : (1 / 2) ^ 52 ≤ F.Eps) (S : SpherSegm K) (hR : 0 < S.m_R)
    (hR3 : S.m_R3 = S.m_R ^ 3) (s v : K) (hs0 : 0 ≤ s) (hs1 : s ≤ 1)
    (hv : v = F.Pi / 3 * S.m_R ^ 3 * (s ^ 2 * (3 - s))) :
    ∃ y, S.LevelOfVolRight F v = some (y * S.m_R) ∧
      (s ≤ 1 / 2 → s ≤ y ∧ y ≤ 1 / 2) ∧ (1 / 2 ≤ s → 1 / 2 ≤ y ∧ y ≤ s) ∧
      |y - s| ≤ 100 * F.Eps / 2 ∧ (s ≠ 1 / 2 → y ≠ s) := by
  have hTol : 100 * (1 / 2) ^ 52 ≤ 100 * F.Eps :=
    mul_le_mul_of_nonneg_left hEps (by norm_num)
  have hT0 : (0 : K) < 100 * F.Eps := lt_of_lt_of_le (by norm_num) hTol
  obtain ⟨y, hy, hA, hB, hT, hne⟩ := halley_from_half s (100 * F.Eps) hs0 hs1 hTol
  have htv : 3 * (v / S.m_R3) / F.Pi = s ^ 2 * (3 - s) := by
    rw [hv, hR3]
    have := hR.ne'
    have := hpi.ne'
    field_simp
    ring
  have h0 : 0 ≤ s ^ 2 * (3 - s) := mul_nonneg (sq_nonneg s) (by linarith)
  have h2 : s ^ 2 * (3 - s) ≤ 2 := cubic_le_two s hs0 hs1
  have hy01 : 0 ≤ y ∧ y ≤ 1 := by
    rcases le_total s (1 / 2) with h | h
    · obtain ⟨a, b⟩ := hA h
      exact ⟨le_trans hs0 a, by linarith⟩
    · obtain ⟨a, b⟩ := hB h
      exact ⟨by linarith, le_trans b hs1⟩
  refine ⟨y, ?_, hA, hB, hT, hne⟩
  unfold SpherSegm.LevelOfVolRight
  simp only [htv]
  rw [assertion_of _ (⟨h0, by linarith⟩ : 0 ≤ s ^ 2 * (3 - s) ∧ s ^ 2 * (3 - s) < 2 + 100 * F.Eps),
    min_eq_right h2, hy]
  simp only [Option.some_bind, min_eq_left hy01.2, max_eq_left hy01.1]
/-- The geometry of a constructed `SpherSegm` that the level solver depends on:
the sphere radius is positive and at least the height, and the enclosed volume
is that of the cap of relative height `h / R`. -/
theorem SpherSegm_ctor_geom (F : MathFns K) (fr : Bool) (x0 y0 z0 alpha d h rho M : K)
    (S : SpherSegm K)
    (hS : SpherSegm.ctor F fr x0 y0 z0 alpha d h rho M = some S) :
    0 < F.Pi ∧ 0 < h ∧ 0 < S.m_R ∧ S.m_R3 = S.m_R ^ 3 ∧ S.m_facingRight = fr ∧
    S.base.m_h = h ∧ 0 ≤ h / S.m_R ∧ h / S.m_R ≤ 1 ∧ 0 < S.base.m_enclVol ∧
    S.base.m_enclVol = F.Pi / 3 * S.m_R ^ 3 * ((h / S.m_R) ^ 2 * (3 - h / S.m_R)) := by
  obtain ⟨⟨-, hh, hal, -, -⟩, ⟨-, hRh⟩, ⟨-, -, eR3, efr⟩, ⟨-, -, hV⟩, ⟨eh, -, eV, -, -⟩⟩ :=
    SpherSegm_ctor_some F fr x0 y0 z0 alpha d h rho M S hS
  clear hS
  have hpi : 0 < F.Pi := by
    have := lt_of_le_of_lt (abs_nonneg alpha) hal
    linarith
  have hR : 0 < S.m_R := lt_of_lt_of_le hh (by linarith)
  refine ⟨hpi, hh, hR, eR3, efr, eh, div_nonneg hh.le hR.le,
    (div_le_one hR).2 (by linarith), hV, ?_⟩
  rw [eV]
  have := hR.ne'
  field_simp
  ring

/-- `LevelOfVolLeft` returns exactly when both its assertions hold and the
right-facing solver returns at the complementary volume. -/
theorem LevelOfVolLeft_eq_some_iff (F : MathFns K) (S : SpherSegm K) (v l : K) :
    S.LevelOfVolLeft F v = some l ↔
      (0 ≤ v ∧ v ≤ S.base.m_enclVol) ∧
      ∃ r, S.LevelOfVolRight F (S.base.m_enclVol - v) = some r ∧
        (0 ≤ S.base.m_h - r ∧ S.base.m_h - r ≤ S.base.m_h) ∧ l = S.base.m_h - r := by
  unfold SpherSegm.LevelOfVolLeft
  simp only [assertion_eq_some_iff, Option.bind_eq_some, RotationBody.GetEnclVol,
    RotationBody.GetHeight, IsNeg, not_lt, Option.some.injEq]
  constructor
  · rintro ⟨h1, r, hr, h2, rfl⟩
    exact ⟨h1, r, hr, h2, rfl⟩
  · rintro ⟨h1, r, hr, h2, rfl⟩
    exact ⟨h1, r, hr, h2, rfl⟩

/-- C22. For every left-facing (facing-away) `SpherSegm` that the constructor
returns, of height `h`, and every volume `v` at which its level solver returns
a level `l`: `v` is in `[0, enclosedVolume]`, the right-facing solver of the
same segment returns a level `r` at `enclosedVolume - v`, and `l = h - r`. -/
theorem SpherSegm_LevelOfVolLeft_mirror (F : MathFns K) (x0 y0 z0 alpha d h rho M : K)
    (S : SpherSegm K)
    (hS : SpherSegm.ctor F false x0 y0 z0 alpha d h rho M = some S) (v l : K)
    (hl : S.LevelOfVol F v = some l) :
    (0 ≤ v ∧ v ≤ S.base.GetEnclVol) ∧
    ∃ r, S.LevelOfVolRight F (S.base.GetEnclVol - v) = some r ∧ l = h - r := by
  obtain ⟨-, -, -, -, efr, eh, -⟩ := SpherSegm_ctor_geom F false x0 y0 z0 alpha d h rho M S hS
  unfold SpherSegm.LevelOfVol at hl
  rw [efr] at hl
  simp only [Bool.false_eq_true, if_false] at hl
  obtain ⟨hv, r, hr, -, rfl⟩ := (LevelOfVolLeft_eq_some_iff F S v l).1 hl
  exact ⟨hv, r, hr, by rw [eh]⟩

/-- Witness of C22: the left-facing hemisphere of base diameter 2 and height 1
on the OX axis, at volume 0, where the solver returns. -/
theorem SpherSegm_LevelOfVolLeft_mirror_witness :
    let F : MathFns ℝ :=
      ⟨Real.pi, (1 / 2) ^ 52, Real.cos, Real.sin, Real.sqrt, fun x => x ^ ((3 : ℝ)⁻¹)⟩
    ∃ S l, SpherSegm.ctor F false 0 0 0 0 2 1 1000 0 = some S ∧
      S.LevelOfVol F 0 = some l ∧
      (0 ≤ (0 : ℝ) ∧ 0 ≤ S.base.GetEnclVol) ∧
      ∃ r, S.LevelOfVolRight F (S.base.GetEnclVol - 0) = some r ∧ l = 1 - r := by
  intro F
  obtain ⟨hpi, hc, hs, -, -, -, hEps⟩ := real_MathFns_laws
  obtain ⟨S, hS⟩ := SpherSegm_ctor_OX_isSome F hpi (by positivity) hc hs false 0 2 1 1000 0
    (by norm_num) (by norm_num) (by norm_num) (by norm_num) le_rfl
  obtain ⟨-, -, hR, eR3, efr, eh, hs0, hs1, hV, eV⟩ :=
    SpherSegm_ctor_geom F false 0 0 0 0 2 1 1000 0 S hS
  obtain ⟨y, hy, -, hB, -, -⟩ :=
    SpherSegm_LevelOfVolRight_root F hpi hEps S hR eR3 (1 / S.m_R) S.base.m_enclVol
      hs0 hs1 eV
  have eR : S.m_R = 1 := by
    rw [(SpherSegm_ctor_some F false 0 0 0 0 2 1 1000 0 S hS).2.2.1.2.1]
    norm_num
  rw [eR, mul_one] at hy
  rw [eR, div_one] at hB
  obtain ⟨hy0, hy1⟩ := hB (by norm_num)
  have hl : S.LevelOfVol F 0 = some (1 - y) := by
    unfold SpherSegm.LevelOfVol
    rw [efr]
    simp only [Bool.false_eq_true, if_false]
    rw [LevelOfVolLeft_eq_some_iff]
    refine ⟨⟨le_rfl, hV.le⟩, y, by rw [sub_zero]; exact hy, ?_, by rw [eh]⟩
    rw [eh]
    constructor <;> linarith
  exact ⟨S, 1 - y, hS, hl, SpherSegm_LevelOfVolLeft_mirror F 0 0 0 0 2 1 1000 0 S hS 0 _ hl⟩

/-- C23. For every `TrCone` its constructor returns, with left radius
`r = d0 / 2`, right radius `R = d1 / 2` and height `h`: `GetSideSurfArea()` is
`pi * s * (R + r)` with `s = sqrt((R - r)^2 + h^2)` and `GetEnclVol()` is
`(pi/3) * h * (R^2 + R*r + r^2)`; for the full cone `r = 0`, `R = 1`, `h = 3`
the enclosed volume is `pi` exactly. -/
theorem TrCone_area_volume (F : MathFns K) (x0 y0 z0 alpha d0 d1 h rho M : K)
    (T : TrCone K) (hT : TrCone.ctor F x0 y0 z0 alpha d0 d1 h rho M = some T) :
    T.base.GetSideSurfArea =
      F.Pi * F.SqRt ((d1 / 2 - d0 / 2) ^ 2 + h ^ 2) * (d1 / 2 + d0 / 2) ∧
    T.base.GetEnclVol =
      F.Pi / 3 * h * ((d1 / 2) ^ 2 + d1 / 2 * (d0 / 2) + (d0 / 2) ^ 2) ∧
    (d0 = 0 → d1 = 2 → h = 3 → T.base.GetEnclVol = F.Pi) := by
  obtain ⟨-, ⟨er, eR, eh, -, -, -, -⟩, -, ⟨-, eA, eV, -, -⟩, -⟩ :=
    TrCone_ctor_some F x0 y0 z0 alpha d0 d1 h rho M T hT
  rw [er, eR, eh] at eA eV
  refine ⟨eA, eV, ?_⟩
  rintro rfl rfl rfl
  show T.base.m_enclVol = F.Pi
  rw [eV]
  ring

/-- Witness of C23: the full cone `r = 0`, `R = 1`, `h = 3` on the OX axis. -/
theorem TrCone_area_volume_witness :
    let F : MathFns ℝ :=
      ⟨Real.pi, (1 / 2) ^ 52, Real.cos, Real.sin, Real.sqrt, fun x => x ^ ((3 : ℝ)⁻¹)⟩
    ∃ T, TrCone.ctor_OX F 0 0 2 3 1000 0 = some T ∧
      T.base.GetSideSurfArea =
        F.Pi * F.SqRt (((2 : ℝ) / 2 - 0 / 2) ^ 2 + 3 ^ 2) * (2 / 2 + 0 / 2) ∧
      T.base.GetEnclVol = F.Pi := by
  intro F
  obtain ⟨hpi, hc, hs, hsq, -, -, -⟩ := real_MathFns_laws
  obtain ⟨T, hT⟩ := TrCone_ctor_OX_isSome F hpi hc hs hsq 0 0 2 3 1000 0 (by norm_num)
    le_rfl (by norm_num) (by norm_num) (by norm_num) le_rfl
  have h := TrCone_area_volume F 0 0 0 0 0 2 3 1000 0 T hT
  exact ⟨T, hT, h.1, h.2.2 rfl rfl rfl⟩
/-- C24. For every `SpherSegm` the constructor returns, with base radius
`r = d / 2` and height `h`: the sphere radius is `R = (r^2/h + h)/2`,
`GetSideSurfArea()` is `2*pi*R*h` and `GetEnclVol()` is `pi*h^2*(R - h/3)`. The
constructor fails when `h > r * (1 + 10*eps)`, and with `pi > 0` and
`eps >= 0` it returns for every `r > 0`, `0 < h <= r` on the OX axis. -/
theorem SpherSegm_geometry (F : MathFns K) (fr : Bool) (x0 y0 z0 alpha d h rho M : K) :
    (∀ S, SpherSegm.ctor F fr x0 y0 z0 alpha d h rho M = some S →
      S.m_R = ((d / 2) ^ 2 / h + h) / 2 ∧
      S.base.GetSideSurfArea = 2 * F.Pi * (((d / 2) ^ 2 / h + h) / 2) * h ∧
      S.base.GetEnclVol = F.Pi * h ^ 2 * (((d / 2) ^ 2 / h + h) / 2 - h / 3)) ∧
    (d / 2 * (1 + 10 * F.Eps) < h →
      SpherSegm.ctor F fr x0 y0 z0 alpha d h rho M = none) ∧
    (0 < F.Pi → 0 ≤ F.Eps → F.Cos 0 = 1 → F.Sin 0 = 0 → 0 < d → 0 < h → h ≤ d / 2 →
      0 ≤ rho → 0 ≤ M → ∃ S, SpherSegm.ctor F fr x0 0 0 0 d h rho M = some S) := by
  refine ⟨?_, ?_, ?_⟩
  · intro S hS
    obtain ⟨-, -, ⟨-, eR, -, -⟩, -, ⟨-, eA, eV, -, -⟩⟩ :=
      SpherSegm_ctor_some F fr x0 y0 z0 alpha d h rho M S hS
    rw [eR] at eA eV
    exact ⟨eR, eA, eV⟩
  · intro hgt
    cases hS : SpherSegm.ctor F fr x0 y0 z0 alpha d h rho M with
    | none => rfl
    | some S =>
      have := (SpherSegm_ctor_some F fr x0 y0 z0 alpha d h rho M S hS).2.1.1
      exact absurd this (not_le.2 hgt)
  · intro hpi hEps hc hs hd hh hle hrho hM
    exact SpherSegm_ctor_OX_isSome F hpi hEps hc hs fr x0 d h rho M hd hh hle hrho hM

/-- C25. `RotationBody::Init` fails when the given axis end has `y0 ≠ 0` and
`z0 ≠ 0`, and fails when `y0 = z0 = 0` with `alpha ≠ 0`. When exactly one of
`y0`, `z0` is zero, or both are zero and `alpha = 0` (with `cos 0 = 1` and
`sin 0 = 0`), the orientation assertions hold: `Init` returns exactly when its
other assertions (positive `cos(alpha)`, height, area and volume, non-negative
density) and those of `MoIsCoM` and `ConstrElement::Init` hold. -/
theorem Init_orientation_checks (F : MathFns K)
    (area vol M alpha x0 y0 z0 : K) (is_left : Bool) (h je0 je1 ke rho : K)
    (jp05 jp04 jp03 jp15 jp14 jp13 jp12 jp11 kp4 kp3 kp2 : K) :
    ((y0 ≠ 0 ∧ z0 ≠ 0) →
      RotationBody.Init F area vol M alpha x0 y0 z0 is_left h je0 je1 ke rho
        jp05 jp04 jp03 jp15 jp14 jp13 jp12 jp11 kp4 kp3 kp2 = none) ∧
    ((y0 = 0 ∧ z0 = 0 ∧ alpha ≠ 0) →
      RotationBody.Init F area vol M alpha x0 y0 z0 is_left h je0 je1 ke rho
        jp05 jp04 jp03 jp15 jp14 jp13 jp12 jp11 kp4 kp3 kp2 = none) ∧
    (((y0 = 0 ∧ z0 ≠ 0) ∨ (y0 ≠ 0 ∧ z0 = 0) ∨
        (y0 = 0 ∧ z0 = 0 ∧ alpha = 0 ∧ F.Cos 0 = 1 ∧ F.Sin 0 = 0)) →
      ∀ B, RotationBody.Init F area vol M alpha x0 y0 z0 is_left h je0 je1 ke rho
          jp05 jp04 jp03 jp15 jp14 jp13 jp12 jp11 kp4 kp3 kp2 = some B ↔
        (0 < F.Cos alpha ∧ 0 < h) ∧ 0 < area ∧ 0 < vol ∧ 0 ≤ rho ∧
        ∃ com mois base,
          (RotationBody.Init.fields F area vol alpha x0 y0 z0 is_left h rho
            jp05 jp04 jp03 jp15 jp14 jp13 jp12 jp11 kp4 kp3 kp2).MoIsCoM
              je0 je1 ke area (if 0 < M then M / area else 1) = some (com, mois) ∧
          (¬ z0 = 0 ∨ com.z = 0) ∧ (¬ y0 = 0 ∨ com.y = 0) ∧
          ConstrElement.Init com
            (if 0 < M then M else area * (if 0 < M then M / area else 1))
            mois (decide (0 < M)) = some base ∧
          B = (RotationBody.Init.fields F area vol alpha x0 y0 z0 is_left h rho
                jp05 jp04 jp03 jp15 jp14 jp13 jp12 jp11 kp4 kp3 kp2).setBase base) := by
  refine ⟨?_, ?_, ?_⟩
  · rintro ⟨hy, hz⟩
    cases hB : RotationBody.Init F area vol M alpha x0 y0 z0 is_left h je0 je1 ke rho
        jp05 jp04 jp03 jp15 jp14 jp13 jp12 jp11 kp4 kp3 kp2 with
    | none => rfl
    | some B =>
      obtain ⟨h1, -⟩ := (Init_eq_some_iff _ _ _ _ _ _ _ _ _ _ _ _ _ _ _ _ _ _ _ _ _ _ _ _ _ _).1 hB
      rcases h1 with h1 | h1
      · exact absurd h1 hz
      · exact absurd h1 hy
  · rintro ⟨hy, hz, ha⟩
    cases hB : RotationBody.Init F area vol M alpha x0 y0 z0 is_left h je0 je1 ke rho
        jp05 jp04 jp03 jp15 jp14 jp13 jp12 jp11 kp4 kp3 kp2 with
    | none => rfl
    | some B =>
      obtain ⟨-, h2, -⟩ := (Init_eq_some_iff _ _ _ _ _ _ _ _ _ _ _ _ _ _ _ _ _ _ _ _ _ _ _ _ _ _).1 hB
      rcases h2 with h2 | h2
      · exact absurd ⟨hz, hy⟩ h2
      · exact absurd h2 ha
  · intro hcase B
    rw [Init_eq_some_iff]
    have hO : (z0 = 0 ∨ y0 = 0) ∧ (¬ (z0 = 0 ∧ y0 = 0) ∨ alpha = 0) ∧
        (¬ (z0 = 0 ∧ y0 = 0) ∨ (F.Cos alpha = 1 ∧ F.Sin alpha = 0)) := by
      rcases hcase with ⟨hy, hz⟩ | ⟨hy, hz⟩ | ⟨hy, hz, ha, hc, hs⟩
      · exact ⟨Or.inr hy, Or.inl fun h => hz h.1, Or.inl fun h => hz h.1⟩
      · exact ⟨Or.inl hz, Or.inl fun h => hy h.2, Or.inl fun h => hy h.2⟩
      · exact ⟨Or.inl hz, Or.inr ha, Or.inr (by rw [ha]; exact ⟨hc, hs⟩)⟩
    constructor
    · rintro ⟨-, -, h3, h4, h5, -, h7, hrest⟩
      exact ⟨h3, h4, h5, h7, hrest⟩
    · rintro ⟨h3, h4, h5, h7, hrest⟩
      exact ⟨hO.1, hO.2.1, h3, h4, h5, hO.2.2, h7, hrest⟩

/-- A body returned by `RotationBody::Init` with an explicit empty mass `M > 0`:
it is final, of mass `M`, and its moment of inertia about OX is the areal
density `M / area` times the combination `Jx` of the "empty" parameters. -/
theorem Init_MoIx_of_some (F : MathFns K)
    (area vol M alpha x0 y0 z0 : K) (is_left : Bool) (h je0 je1 ke rho : K)
    (jp05 jp04 jp03 jp15 jp14 jp13 jp12 jp11 kp4 kp3 kp2 : K) (B : RotationBody K)
    (hB : RotationBody.Init F area vol M alpha x0 y0 z0 is_left h je0 je1 ke rho
      jp05 jp04 jp03 jp15 jp14 jp13 jp12 jp11 kp4 kp3 kp2 = some B) (hM : 0 < M) :
    B.m_isFinal = true ∧ B.m_mass = M ∧
    B.m_MoIs.x = M / area *
      (B.m_Jx0 * je0 + B.m_Jx1 * je1 + B.m_JxK * ke + B.m_JxSV * area) := by
  obtain ⟨-, -, -, -, -, -, -, com, mois, base, hm, -, -, hb, rfl⟩ :=
    (Init_eq_some_iff _ _ _ _ _ _ _ _ _ _ _ _ _ _ _ _ _ _ _ _ _ _ _ _ _ _).1 hB
  obtain ⟨-, rfl⟩ := (ConstrElement_Init_eq_some_iff _ _ _ _ _).1 hb
  obtain ⟨-, -, hr⟩ := (MoIsCoM_eq_some_iff _ _ _ _ _ _ _).1 hm
  obtain ⟨-, rfl⟩ := Prod.mk.inj hr
  simp [RotationBody.setBase, hM]

/-- The call of `RotationBody::Init` made by the constructor of a `TrCone`, with
the side surface area, the enclosed volume and the "empty" parameters `JE0`,
`JE1`, `KE` of the source. -/
theorem TrCone_ctor_Init_empty (F : MathFns K) (x0 y0 z0 alpha d0 d1 h rho M : K)
    (T : TrCone K) (hT : TrCone.ctor F x0 y0 z0 alpha d0 d1 h rho M = some T) :
    ∃ jp05 jp04 jp03 jp15 jp14 jp13 jp12 jp11 kp4 kp3 kp2,
      RotationBody.Init F
        (F.Pi * F.SqRt ((d1 / 2 - d0 / 2) ^ 2 + h ^ 2) * (d1 / 2 + d0 / 2))
        (F.Pi / 3 * h * ((d1 / 2) ^ 2 + d1 / 2 * (d0 / 2) + (d0 / 2) ^ 2))
        M alpha x0 y0 z0 true h
        (F.Pi * h ^ 2 * F.SqRt ((d1 / 2 - d0 / 2) ^ 2 + h ^ 2) * (d0 / 2 / 2 + d1 / 2 / 6))
        (F.Pi / 4 * F.SqRt ((d1 / 2 - d0 / 2) ^ 2 + h ^ 2) * (d1 / 2 + d0 / 2) *
          ((d1 / 2) ^ 2 + (d0 / 2) ^ 2))
        (-F.Pi / 3 * F.SqRt ((d1 / 2 - d0 / 2) ^ 2 + h ^ 2) * h * (2 * (d0 / 2) + d1 / 2))
        rho jp05 jp04 jp03 jp15 jp14 jp13 jp12 jp11 kp4 kp3 kp2 = some T.base := by
  unfold TrCone.ctor at hT
  simp only [assertion_eq_some_iff, Option.bind_eq_some, Option.some.injEq] at hT
  obtain ⟨-, base, hInit, rfl⟩ := hT
  exact ⟨_, _, _, _, _, _, _, _, _, _, _, hInit⟩

/-- The stored moment of inertia about OX of a full cone (`r = 0`) on the OX
axis constructed with the explicit mass `M > 0`: it is `M * R^2 / 2`. -/
theorem TrCone_full_cone_MoIx (F : MathFns K) (x0 d1 h rho M : K) (T : TrCone K)
    (hT : TrCone.ctor F x0 0 0 0 0 d1 h rho M = some T) (hM : 0 < M) :
    T.base.m_isFinal = true ∧ T.base.m_mass = M ∧
    T.base.m_MoIs.x = 1 / 2 * M * (d1 / 2) ^ 2 := by
  obtain ⟨jp05, jp04, jp03, jp15, jp14, jp13, jp12, jp11, kp4, kp3, kp2, hInit⟩ :=
    TrCone_ctor_Init_empty F x0 0 0 0 0 d1 h rho M T hT
  obtain ⟨-, ⟨er, eR, eh, -, -, -, -⟩, ⟨-, harea, -⟩, ⟨-, eA, -, -, -⟩, -⟩ :=
    TrCone_ctor_some F x0 0 0 0 0 d1 h rho M T hT
  clear hT
  obtain ⟨hf, hm, hx⟩ := Init_MoIx_of_some F _ _ _ _ _ _ _ _ _ _ _ _ _ _ _ _ _ _ _ _ _ _ _ _
    T.base hInit hM
  obtain ⟨-, -, -, -, eyz, eJx0, eJx1, eJxK, eJxSV, -⟩ :=
    Init_fields_of_some F _ _ _ _ _ _ _ _ _ _ _ _ _ _ _ _ _ _ _ _ _ _ _ _ T.base hInit
  obtain ⟨-, eright⟩ :=
    Init_ends_of_some F _ _ _ _ _ _ _ _ _ _ _ _ _ _ _ _ _ _ _ _ _ _ _ _ T.base hInit
  obtain ⟨-, -, -, -, -, hcs, -⟩ :=
    (Init_eq_some_iff _ _ _ _ _ _ _ _ _ _ _ _ _ _ _ _ _ _ _ _ _ _ _ _ _ _).1 hInit
  clear hInit
  obtain ⟨hc, hs⟩ : F.Cos 0 = 1 ∧ F.Sin 0 = 0 := by
    rcases hcs with h1 | h1
    · exact absurd ⟨rfl, rfl⟩ h1
    · exact h1
  have hyz : T.base.m_yzR = 0 := by
    rw [eyz, if_pos rfl, eright]
    simp [hs]
  rw [eJxK, eJxSV, eJx0, eJx1, hyz, hs, hc] at hx
  refine ⟨hf, hm, ?_⟩
  rw [hx]
  rw [eA, er, eR, eh] at harea
  generalize F.SqRt ((d1 / 2 - 0 / 2) ^ 2 + h ^ 2) = s at harea ⊢
  have hne : F.Pi * s * (d1 / 2 + 0 / 2) ≠ 0 := harea.ne'
  have hp0 : F.Pi ≠ 0 := by
    intro h0; apply hne; rw [h0]; simp
  have hs0 : s ≠ 0 := by
    intro h0; apply hne; rw [h0]; simp
  have hd0 : d1 ≠ 0 := by
    intro h0; apply hne; rw [h0]; simp
  field_simp
  ring
/-- C26, as the code has it. For a full cone (`r = 0`, `R = d1 / 2 > 0`, height
`h`) on the OX axis constructed with the explicit mass `M > 0`, `GetMoIs()`
returns, and the stored moment of inertia about OX is `(1/2) * M * R^2`: the
"empty" parameters are those of the side surface, a thin conical shell of
areal density `M / area`. -/
theorem TrCone_full_cone_shell_MoI (F : MathFns K) (x0 d1 h rho M : K) (T : TrCone K)
    (hT : TrCone.ctor_OX F x0 0 d1 h rho M = some T) (hM : 0 < M) :
    ∃ mois, T.base.toConstrElement.GetMoIs = some mois ∧
      mois.x = 1 / 2 * M * (d1 / 2) ^ 2 := by
  obtain ⟨hf, -, hx⟩ := TrCone_full_cone_MoIx F x0 d1 h rho M T hT hM
  refine ⟨T.base.m_MoIs, ?_, hx⟩
  unfold ConstrElement.GetMoIs
  rw [hf, if_pos rfl]

/-- Counterexample to C26 as stated: the full cone `r = 0`, `R = 1`, `h = 3` on
the OX axis with the explicit mass 10 has the stored moment of inertia 5 about
OX, not `(3/10) * 10 * 1^2 = 3`. -/
theorem TrCone_full_cone_MoI_counterexample :
    let F : MathFns ℝ :=
      ⟨Real.pi, (1 / 2) ^ 52, Real.cos, Real.sin, Real.sqrt, fun x => x ^ ((3 : ℝ)⁻¹)⟩
    ∃ T mois, TrCone.ctor_OX F 0 0 2 3 1000 10 = some T ∧
      T.base.toConstrElement.GetMoIs = some mois ∧ mois.x = 5 ∧
      mois.x ≠ 3 / 10 * 10 * (2 / 2) ^ 2 := by
  intro F
  obtain ⟨hpi, hc, hs, hsq, -, -, -⟩ := real_MathFns_laws
  obtain ⟨T, hT⟩ := TrCone_ctor_OX_isSome F hpi hc hs hsq 0 0 2 3 1000 10 (by norm_num)
    le_rfl (by norm_num) (by norm_num) (by norm_num) (by norm_num)
  obtain ⟨hf, -, hx⟩ := TrCone_full_cone_MoIx F 0 2 3 1000 10 T hT (by norm_num)
  have h5 : T.base.m_MoIs.x = 5 := by rw [hx]; norm_num
  refine ⟨T, T.base.m_MoIs, hT, ?_, h5, ?_⟩
  · unfold ConstrElement.GetMoIs
    rw [hf, if_pos rfl]
  · rw [h5]; norm_num

/-- Witness of C26: the full cone `r = 0`, `R = 1`, `h = 3` on the OX axis with
the explicit mass 10. -/
theorem TrCone_full_cone_shell_MoI_witness :
    let F : MathFns ℝ :=
      ⟨Real.pi, (1 / 2) ^ 52, Real.cos, Real.sin, Real.sqrt, fun x => x ^ ((3 : ℝ)⁻¹)⟩
    ∃ T, TrCone.ctor_OX F 0 0 2 3 1000 10 = some T ∧ (0 : ℝ) < 10 ∧
      ∃ mois, T.base.toConstrElement.GetMoIs = some mois ∧
        mois.x = 1 / 2 * 10 * (2 / 2) ^ 2 := by
  intro F
  obtain ⟨hpi, hc, hs, hsq, -, -, -⟩ := real_MathFns_laws
  obtain ⟨T, hT⟩ := TrCone_ctor_OX_isSome F hpi hc hs hsq 0 0 2 3 1000 10 (by norm_num)
    le_rfl (by norm_num) (by norm_num) (by norm_num) (by norm_num)
  exact ⟨T, hT, by norm_num, TrCone_full_cone_shell_MoI F 0 2 3 1000 10 T hT (by norm_num)⟩

/-- C28. The update of `LevelOfVolRight`,
`dx = x*(x-2)*(x^3-3*x^2+v) / (2*x^4-8*x^3+9*x^2+v*(1-x))`, is the Halley step
`2*f*f' / (2*f'^2 - f*f'')` of `f(x) = x^3 - 3*x^2 + v`: the Halley denominator
is 6 times the denominator of the code, the two quotients are equal, one
iteration of the loop with a non-zero denominator tests and applies the Halley
step, and at a root of `x^2*(3-x) = v` the step is 0, so that the loop returns
the root itself. -/
theorem Halley_update_refines (v x : K) :
    (2 * Halley_df x ^ 2 - Halley_f v x * Halley_d2f x =
      6 * (2 * (x ^ 2) ^ 2 - 8 * (x ^ 2 * x) + 9 * x ^ 2 + v * (1 - x))) ∧
    (x * (x - 2) * (x ^ 2 * x - 3 * x ^ 2 + v) /
        (2 * (x ^ 2) ^ 2 - 8 * (x ^ 2 * x) + 9 * x ^ 2 + v * (1 - x)) =
      Halley_step_spec v x) ∧
    (∀ (Tol : K) (n : Nat),
      2 * (x ^ 2) ^ 2 - 8 * (x ^ 2 * x) + 9 * x ^ 2 + v * (1 - x) ≠ 0 →
      SpherSegm.LevelOfVolRight.loop v Tol (n + 1) x =
        if |Halley_step_spec v x| < Tol then some (x - Halley_step_spec v x)
        else SpherSegm.LevelOfVolRight.loop v Tol n (x - Halley_step_spec v x)) ∧
    (x ^ 2 * (3 - x) = v → Halley_step_spec v x = 0 ∧
      ∀ (Tol : K) (n : Nat), 0 < Tol →
        2 * (x ^ 2) ^ 2 - 8 * (x ^ 2 * x) + 9 * x ^ 2 + v * (1 - x) ≠ 0 →
        SpherSegm.LevelOfVolRight.loop v Tol (n + 1) x = some x) := by
  have hden : 2 * Halley_df x ^ 2 - Halley_f v x * Halley_d2f x =
      6 * (2 * (x ^ 2) ^ 2 - 8 * (x ^ 2 * x) + 9 * x ^ 2 + v * (1 - x)) := by
    unfold Halley_df Halley_f Halley_d2f
    ring
  have hstep : x * (x - 2) * (x ^ 2 * x - 3 * x ^ 2 + v) /
      (2 * (x ^ 2) ^ 2 - 8 * (x ^ 2 * x) + 9 * x ^ 2 + v * (1 - x)) =
      Halley_step_spec v x := by
    unfold Halley_step_spec
    rw [hden]
    have hnum : 2 * Halley_f v x * Halley_df x =
        6 * (x * (x - 2) * (x ^ 2 * x - 3 * x ^ 2 + v)) := by
      unfold Halley_df Halley_f
      ring
    rw [hnum, mul_div_mul_left _ _ (by norm_num : (6 : K) ≠ 0)]
  have hloop : ∀ (Tol : K) (n : Nat),
      2 * (x ^ 2) ^ 2 - 8 * (x ^ 2 * x) + 9 * x ^ 2 + v * (1 - x) ≠ 0 →
      SpherSegm.LevelOfVolRight.loop v Tol (n + 1) x =
        if |Halley_step_spec v x| < Tol then some (x - Halley_step_spec v x)
        else SpherSegm.LevelOfVolRight.loop v Tol n (x - Halley_step_spec v x) := by
    intro Tol n hne
    rw [SpherSegm.LevelOfVolRight.loop]
    simp only [hne, if_false, hstep]
  refine ⟨hden, hstep, hloop, ?_⟩
  intro hroot
  have h0 : Halley_step_spec v x = 0 := by
    have hf : Halley_f v x = 0 := by
      unfold Halley_f
      rw [← hroot]
      ring
    unfold Halley_step_spec
    rw [hf, mul_zero, zero_mul, zero_div]
  refine ⟨h0, ?_⟩
  intro Tol n hTol hne
  rw [hloop Tol n hne, h0, abs_zero, if_pos hTol, sub_zero]

/-- Every normalised volume in `[0, 2]` is `s^2*(3-s)` for a real `s` in
`[0, 1]` (intermediate value theorem). -/
theorem cubic_root_exists (tv : ℝ) (h0 : 0 ≤ tv) (h2 : tv ≤ 2) :
    ∃ s : ℝ, 0 ≤ s ∧ s ≤ 1 ∧ s ^ 2 * (3 - s) = tv := by
  have hcont : ContinuousOn (fun s : ℝ => s ^ 2 * (3 - s)) (Set.Icc 0 1) := by
    apply Continuous.continuousOn
    continuity
  have hmem : tv ∈ Set.Icc ((fun s : ℝ => s ^ 2 * (3 - s)) 0)
      ((fun s : ℝ => s ^ 2 * (3 - s)) 1) := by
    constructor
    · simpa using h0
    · norm_num
      exact h2
  obtain ⟨s, hs, hst⟩ := intermediate_value_Icc zero_le_one hcont hmem
  exact ⟨s, hs.1, hs.2, hst⟩

/-- C29. For every normalised volume `v` in `[0, 2]` (real numbers, exact
arithmetic) and `Tol = 100 * 2^-52`, the Halley loop of `LevelOfVolRight`
started at `x = 1/2` with its cap of 100 iterations returns: it reaches
`|dx| < Tol` before the cap, so `assert(i < N)` holds, and no denominator on
the way is zero. -/
theorem Halley_terminates (v : ℝ) (h0 : 0 ≤ v) (h2 : v ≤ 2) :
    ∃ x, SpherSegm.LevelOfVolRight.loop v (100 * (1 / 2) ^ 52) 100 (1 / 2) = some x := by
  obtain ⟨s, hs0, hs1, rfl⟩ := cubic_root_exists v h0 h2
  obtain ⟨y, hy, -⟩ := halley_from_half s (100 * (1 / 2) ^ 52) hs0 hs1 le_rfl
  exact ⟨y, hy⟩

/-- Witness of C29: the normalised volume 1. -/
theorem Halley_terminates_witness :
    (0 : ℝ) ≤ 1 ∧ (1 : ℝ) ≤ 2 ∧
    ∃ x, SpherSegm.LevelOfVolRight.loop (1 : ℝ) (100 * (1 / 2) ^ 52) 100 (1 / 2) = some x :=
  ⟨by norm_num, by norm_num, Halley_terminates 1 (by norm_num) (by norm_num)⟩

/-- The signs of the propellant polynomials of a truncated cone at a level
`0 <= l <= h` (`p` stands for pi, `a` for `(R - r) / h`): with the radius
`q = R - a*l` of the propellant surface, `J0 = p*l^3*(R^2/30 + R*q/10 + q^2/5)`,
`J1 = p*l/20*(R^4 + R^3*q + R^2*q^2 + R*q^3 + q^4)` and
`K = -p*l^2*(R^2/12 + R*q/6 + q^2/4)`. -/
theorem TrCone_prop_signs (p r R h l : K) (hp : 0 < p) (hr : 0 ≤ r) (hR : 0 ≤ R)
    (hh : 0 < h) (hl0 : 0 ≤ l) (hl1 : l ≤ h) :
    0 ≤ ((p / 5 * ((R - r) / h) ^ 2 * l + -p / 2 * ((R - r) / h) * R) * l + p / 3 * R ^ 2) *
        (l ^ 2 * l) ∧
    0 ≤ (((((p / 20 * (((R - r) / h) ^ 2) ^ 2 * l +
        -p / 4 * (((R - r) / h) ^ 2 * ((R - r) / h)) * R) * l +
        p / 2 * ((R - r) / h) ^ 2 * R ^ 2) * l) +
        -p / 2 * ((R - r) / h) * (R ^ 2 * R)) * l + p / 4 * (R ^ 2) ^ 2) * l ∧
    ((-p / 4 * ((R - r) / h) ^ 2 * l + p * 2 / 3 * ((R - r) / h) * R) * l +
        -p / 2 * R ^ 2) * l ^ 2 ≤ 0 := by
  obtain ⟨a, ha⟩ : ∃ a, a = (R - r) / h := ⟨_, rfl⟩
  rw [← ha]
  have hah : a * h = R - r := by rw [ha]; exact div_mul_cancel₀ _ hh.ne'
  obtain ⟨q, hq⟩ : ∃ q, q = R - a * l := ⟨_, rfl⟩
  have hq0 : 0 ≤ q := by
    have h1 : q * h = R * (h - l) + r * l := by
      rw [hq]
      linear_combination (-l) * hah
    have h2 : 0 ≤ q * h := by
      rw [h1]
      exact add_nonneg (mul_nonneg hR (sub_nonneg.2 hl1)) (mul_nonneg hr hl0)
    exact nonneg_of_mul_nonneg_left h2 hh
  have e0 : ((p / 5 * a ^ 2 * l + -p / 2 * a * R) * l + p / 3 * R ^ 2) * (l ^ 2 * l) =
      p * l ^ 3 * (R ^ 2 / 30 + R * q / 10 + q ^ 2 / 5) := by
    rw [hq]; ring
  have e1 : (((((p / 20 * (a ^ 2) ^ 2 * l + -p / 4 * (a ^ 2 * a) * R) * l +
      p / 2 * a ^ 2 * R ^ 2) * l) + -p / 2 * a * (R ^ 2 * R)) * l + p / 4 * (R ^ 2) ^ 2) * l =
      p * l / 20 * (R ^ 4 + R ^ 3 * q + R ^ 2 * q ^ 2 + R * q ^ 3 + q ^ 4) := by
    rw [hq]; ring
  have e2 : ((-p / 4 * a ^ 2 * l + p * 2 / 3 * a * R) * l + -p / 2 * R ^ 2) * l ^ 2 =
      -(p * l ^ 2 * (R ^ 2 / 12 + R * q / 6 + q ^ 2 / 4)) := by
    rw [hq]; ring
  rw [e0, e1, e2]
  refine ⟨?_, ?_, ?_⟩
  · exact mul_nonneg (mul_nonneg hp.le (pow_nonneg hl0 3)) (by positivity)
  · exact mul_nonneg (div_nonneg (mul_nonneg hp.le hl0) (by norm_num)) (by positivity)
  · exact neg_nonpos.2 (mul_nonneg (mul_nonneg hp.le (pow_nonneg hl0 2)) (by positivity))

/-- C30. For every `TrCone` its constructor returns and every fill level `l`
with `0 <= l <= h`, the propellant polynomials that `GetPropCE` evaluates
satisfy `JP0 >= 0`, `JP1 >= 0` and `KP <= 0`: its assertion
`!IsNeg(JP0) && !IsNeg(JP1) && !IsPos(KP)` holds. -/
theorem TrCone_prop_polynomials_signs (F : MathFns K)
    (x0 y0 z0 alpha d0 d1 h rho M : K) (T : TrCone K)
    (hT : TrCone.ctor F x0 y0 z0 alpha d0 d1 h rho M = some T)
    (l : K) (hl0 : 0 ≤ l) (hl1 : l ≤ h) :
    ¬ IsNeg (((T.base.m_JP05 * l + T.base.m_JP04) * l + T.base.m_JP03) * (l ^ 2 * l)) ∧
    ¬ IsNeg ((((((T.base.m_JP15 * l + T.base.m_JP14) * l + T.base.m_JP13) * l) +
      T.base.m_JP12) * l + T.base.m_JP11) * l) ∧
    ¬ IsPos (((T.base.m_KP4 * l + T.base.m_KP3) * l + T.base.m_KP2) * l ^ 2) := by
  obtain ⟨⟨hh, hd0, hd1, -, hal, -, -⟩, ⟨er, eR, eh, -, -, -, -⟩, -, -,
    ⟨e05, e04, e03⟩, ⟨e15, e14, e13, e12, e11⟩, ⟨e4, e3, e2⟩⟩ :=
    TrCone_ctor_some F x0 y0 z0 alpha d0 d1 h rho M T hT
  clear hT
  have hpi : 0 < F.Pi := by
    have := lt_of_le_of_lt (abs_nonneg alpha) hal
    linarith
  have hr : 0 ≤ T.m_r := by rw [er]; exact div_nonneg hd0 (by norm_num)
  have hR : 0 ≤ T.m_R := by rw [eR]; exact div_nonneg hd1 (by norm_num)
  have hh' : 0 < T.m_h := by rw [eh]; exact hh
  have hl1' : l ≤ T.m_h := by rw [eh]; exact hl1
  obtain ⟨s0, s1, s2⟩ := TrCone_prop_signs F.Pi T.m_r T.m_R T.m_h l hpi hr hR hh' hl0 hl1'
  rw [e05, e04, e03, e15, e14, e13, e12, e11, e4, e3, e2]
  exact ⟨not_lt.2 s0, not_lt.2 s1, not_lt.2 s2⟩

/-- Witness of C30: the full cone `r = 0`, `R = 1`, `h = 3` on the OX axis at the
level 1. -/
theorem TrCone_prop_polynomials_signs_witness :
    let F : MathFns ℝ :=
      ⟨Real.pi, (1 / 2) ^ 52, Real.cos, Real.sin, Real.sqrt, fun x => x ^ ((3 : ℝ)⁻¹)⟩
    ∃ T, TrCone.ctor_OX F 0 0 2 3 1000 0 = some T ∧
      ¬ IsNeg (((T.base.m_JP05 * 1 + T.base.m_JP04) * 1 + T.base.m_JP03) *
        ((1 : ℝ) ^ 2 * 1)) ∧
      ¬ IsNeg ((((((T.base.m_JP15 * 1 + T.base.m_JP14) * 1 + T.base.m_JP13) * 1) +
        T.base.m_JP12) * 1 + T.base.m_JP11) * 1) ∧
      ¬ IsPos (((T.base.m_KP4 * 1 + T.base.m_KP3) * 1 + T.base.m_KP2) * (1 : ℝ) ^ 2) := by
  intro F
  obtain ⟨hpi, hc, hs, hsq, -, -, -⟩ := real_MathFns_laws
  obtain ⟨T, hT⟩ := TrCone_ctor_OX_isSome F hpi hc hs hsq 0 0 2 3 1000 0 (by norm_num)
    le_rfl (by norm_num) (by norm_num) (by norm_num) le_rfl
  exact ⟨T, hT, TrCone_prop_polynomials_signs F 0 0 0 0 0 2 3 1000 0 T hT 1 (by norm_num)
    (by norm_num)⟩

/-- `RotationBody::Init` succeeds on every admissible placement: the axis in
exactly one co-ordinate plane, or on OX with `alpha = 0`; `cos(alpha) > 0`;
"empty" parameters that are admissible and satisfy the Cauchy-Schwarz inequality
`ke^2 <= je0 * area`. The body stores the CoM and the moments of inertia that
`MoIsCoM` computes from the "empty" parameters, and these moments are
non-negative. -/
theorem Init_isSome (F : MathFns K)
    (area vol M alpha x0 y0 z0 : K) (is_left : Bool) (h je0 je1 ke rho : K)
    (jp05 jp04 jp03 jp15 jp14 jp13 jp12 jp11 kp4 kp3 kp2 : K)
    (hpy : F.Cos alpha ^ 2 + F.Sin alpha ^ 2 = 1) (hcos : 0 < F.Cos alpha)
    (hplane : (y0 = 0 ∧ z0 ≠ 0) ∨ (y0 ≠ 0 ∧ z0 = 0) ∨
      (y0 = 0 ∧ z0 = 0 ∧ alpha = 0 ∧ F.Cos 0 = 1 ∧ F.Sin 0 = 0))
    (harea : 0 < area) (hvol : 0 < vol) (hh : 0 < h) (hje0 : 0 < je0) (hje1 : 0 < je1)
    (hke : ke < 0) (hrho : 0 ≤ rho) (hCS : ke ^ 2 ≤ je0 * area) :
    ∃ B,
      RotationBody.Init F area vol M alpha x0 y0 z0 is_left h je0 je1 ke rho
        jp05 jp04 jp03 jp15 jp14 jp13 jp12 jp11 kp4 kp3 kp2 = some B ∧
      B.MoIsCoM je0 je1 ke area (if 0 < M then M / area else 1) =
        some (B.m_CoM, B.m_MoIs) ∧
      0 ≤ B.m_MoIs.x ∧ 0 ≤ B.m_MoIs.y ∧ 0 ≤ B.m_MoIs.z := by
  have hd : 0 < (if 0 < M then M / area else 1) := by
    split_ifs with hM'
    · exact div_pos hM' harea
    · exact one_pos
  have hmass : 0 < (if 0 < M then M
      else area * (if 0 < M then M / area else 1)) := by
    split_ifs with hM'
    · exact hM'
    · simpa using harea
  have hO : (z0 = 0 ∨ y0 = 0) ∧ (¬ (z0 = 0 ∧ y0 = 0) ∨ alpha = 0) ∧
      (¬ (z0 = 0 ∧ y0 = 0) ∨ (F.Cos alpha = 1 ∧ F.Sin alpha = 0)) := by
    rcases hplane with ⟨hy, hz⟩ | ⟨hy, hz⟩ | ⟨hy, hz, ha, hc, hs⟩
    · exact ⟨Or.inr hy, Or.inl fun h => hz h.1, Or.inl fun h => hz h.1⟩
    · exact ⟨Or.inl hz, Or.inl fun h => hy h.2, Or.inl fun h => hy h.2⟩
    · exact ⟨Or.inl hz, Or.inr ha, Or.inr (by rw [ha]; exact ⟨hc, hs⟩)⟩
  generalize hS : RotationBody.Init.fields F area vol alpha x0 y0 z0 is_left h rho
    jp05 jp04 jp03 jp15 jp14 jp13 jp12 jp11 kp4 kp3 kp2 = S
  have eXY : S.m_inXY = decide (z0 = 0) := by rw [← hS]; rfl
  have eXZ : S.m_inXZ = decide (y0 = 0) := by rw [← hS]; rfl
  have esin : S.m_sinA = F.Sin alpha := by rw [← hS]; rfl
  have e1 : S.m_Jx0 = F.Sin alpha ^ 2 := by rw [← hS]; rfl
  have e2 : S.m_Jx1 = 1 + F.Cos alpha ^ 2 := by rw [← hS]; rfl
  have e3 : S.m_JxK = 2 * F.Sin alpha * S.m_yzR := by rw [← hS]; rfl
  have e4 : S.m_JxSV = S.m_yzR ^ 2 := by rw [← hS]; rfl
  have e5 : S.m_Jin0 = F.Cos alpha ^ 2 := by rw [← hS]; rfl
  have e6 : S.m_Jin1 = 1 + F.Sin alpha ^ 2 := by rw [← hS]; rfl
  have e7 : S.m_JinK = 2 * F.Cos alpha * S.m_right.x := by rw [← hS]; rfl
  have e8 : S.m_JinSV = S.m_right.x ^ 2 := by rw [← hS]; rfl
  have e9 : S.m_JortK = 2 * (F.Cos alpha * S.m_right.x + F.Sin alpha * S.m_yzR) := by
    rw [← hS]; rfl
  have e10 : S.m_JortSV = S.m_right.x ^ 2 + S.m_yzR ^ 2 := by rw [← hS]; rfl
  have eyz : (z0 = 0 ∧ y0 = 0) → S.m_yzR = 0 ∧ F.Sin alpha = 0 := by
    rintro ⟨hz, hy⟩
    have hs : F.Sin alpha = 0 := by
      rcases hO.2.2 with h6 | h6
      · exact absurd ⟨hz, hy⟩ h6
      · exact h6.2
    refine ⟨?_, hs⟩
    rw [← hS]
    cases is_left <;> simp [RotationBody.Init.fields, IsZero, hz, hy, hs]
  obtain ⟨hx, hin, hort⟩ := MoI_forms_nonneg (F.Sin alpha) (F.Cos alpha) S.m_right.x S.m_yzR
    je0 je1 ke area hje1.le harea hCS
  have hort' := hort hpy
  have hnn : 0 ≤ (if 0 < M then M / area else 1) *
        (S.m_Jx0 * je0 + S.m_Jx1 * je1 + S.m_JxK * ke + S.m_JxSV * area) ∧
      0 ≤ (if 0 < M then M / area else 1) *
        (if S.m_inXY then S.m_Jin0 * je0 + S.m_Jin1 * je1 + S.m_JinK * ke + S.m_JinSV * area
          else je0 + je1 + S.m_JortK * ke + S.m_JortSV * area) ∧
      0 ≤ (if 0 < M then M / area else 1) *
        (if S.m_inXZ then S.m_Jin0 * je0 + S.m_Jin1 * je1 + S.m_JinK * ke + S.m_JinSV * area
          else je0 + je1 + S.m_JortK * ke + S.m_JortSV * area) := by
    rw [e1, e2, e3, e4, e5, e6, e7, e8, e9, e10]
    refine ⟨mul_nonneg hd.le hx, mul_nonneg hd.le ?_, mul_nonneg hd.le ?_⟩
    · split_ifs
      · exact hin
      · exact hort'
    · split_ifs
      · exact hin
      · exact hort'
  obtain ⟨com, hcom⟩ : ∃ com : Vec3 K, com =
      ⟨S.m_right.x + S.m_cosA * (ke / area),
       if S.m_inXY then S.m_yzR + S.m_sinA * (ke / area) else 0,
       if S.m_inXZ then S.m_yzR + S.m_sinA * (ke / area) else 0⟩ := ⟨_, rfl⟩
  obtain ⟨mois, hmois⟩ : ∃ mois : Vec3 K, mois =
      ⟨(if 0 < M then M / area else 1) *
        (S.m_Jx0 * je0 + S.m_Jx1 * je1 + S.m_JxK * ke + S.m_JxSV * area),
       (if 0 < M then M / area else 1) *
        (if S.m_inXY then S.m_Jin0 * je0 + S.m_Jin1 * je1 + S.m_JinK * ke + S.m_JinSV * area
          else je0 + je1 + S.m_JortK * ke + S.m_JortSV * area),
       (if 0 < M then M / area else 1) *
        (if S.m_inXZ then S.m_Jin0 * je0 + S.m_Jin1 * je1 + S.m_JinK * ke + S.m_JinSV * area
          else je0 + je1 + S.m_JortK * ke + S.m_JortSV * area)⟩ := ⟨_, rfl⟩
  have hnn' : 0 ≤ mois.x ∧ 0 ≤ mois.y ∧ 0 ≤ mois.z := by rw [hmois]; exact hnn
  have hMo : S.MoIsCoM je0 je1 ke area (if 0 < M then M / area else 1) = some (com, mois) :=
    (MoIsCoM_eq_some_iff S je0 je1 ke area (if 0 < M then M / area else 1) _).2
      ⟨⟨hje0, hje1, harea, hke⟩, hnn, by rw [hcom, hmois]⟩
  have hcz : ¬ z0 = 0 ∨ com.z = 0 := by
    by_cases hz : z0 = 0
    · right
      rw [hcom]
      by_cases hy : y0 = 0
      · obtain ⟨h1, h2⟩ := eyz ⟨hz, hy⟩
        simp only [eXZ, hy, decide_True, if_true, h1, esin, h2, zero_mul, add_zero]
      · simp only [eXZ, hy, decide_False, if_false, Bool.false_eq_true]
    · exact Or.inl hz
  have hcy : ¬ y0 = 0 ∨ com.y = 0 := by
    by_cases hy : y0 = 0
    · right
      rw [hcom]
      by_cases hz : z0 = 0
      · obtain ⟨h1, h2⟩ := eyz ⟨hz, hy⟩
        simp only [eXY, hz, decide_True, if_true, h1, esin, h2, zero_mul, add_zero]
      · simp only [eXY, hz, decide_False, if_false, Bool.false_eq_true]
    · exact Or.inl hy
  refine ⟨S.setBase ⟨com, (if 0 < M then M
      else area * (if 0 < M then M / area else 1)), mois, decide (0 < M)⟩, ?_, hMo, hnn'⟩
  rw [Init_eq_some_iff, hS]
  exact ⟨hO.1, hO.2.1, ⟨hcos, hh⟩, harea, hvol, hO.2.2, hrho, com, mois, _, hMo, hcz, hcy,
    (ConstrElement_Init_eq_some_iff _ _ _ _ _).2 ⟨⟨hmass, hnn'⟩, rfl⟩, rfl⟩

/-- The side surface area, the enclosed volume and the "empty" parameters of a
truncated cone (`p` stands for pi, `s` for the slant length): their signs, and
the Cauchy-Schwarz inequality `KE^2 <= JE0 * area`. -/
theorem TrCone_empty_signs (p s r R h : K) (hp : 0 < p) (hs : 0 < s) (hr : 0 ≤ r)
    (hR : 0 ≤ R) (hsum : 0 < R + r) (hh : 0 < h) :
    0 < p * s * (R + r) ∧ 0 < p / 3 * h * (R ^ 2 + R * r + r ^ 2) ∧
    0 < p * h ^ 2 * s * (r / 2 + R / 6) ∧ 0 < p / 4 * s * (R + r) * (R ^ 2 + r ^ 2) ∧
    -p / 3 * s * h * (2 * r + R) < 0 ∧
    (-p / 3 * s * h * (2 * r + R)) ^ 2 ≤ p * h ^ 2 * s * (r / 2 + R / 6) * (p * s * (R + r)) := by
  have hps : 0 < p * s := mul_pos hp hs
  have hsq2 : 0 < R ^ 2 + r ^ 2 := by
    nlinarith [sq_nonneg (R - r), mul_pos hsum hsum]
  have hsq3 : 0 < R ^ 2 + R * r + r ^ 2 := by
    nlinarith [mul_nonneg hR hr]
  have h6 : 0 < r / 2 + R / 6 := by linarith
  have h2 : 0 < 2 * r + R := by linarith
  refine ⟨mul_pos hps hsum, mul_pos (mul_pos (div_pos hp (by norm_num)) hh) hsq3,
    mul_pos (mul_pos (mul_pos hp (pow_pos hh 2)) hs) h6,
    mul_pos (mul_pos (mul_pos (div_pos hp (by norm_num)) hs) hsum) hsq2, ?_, ?_⟩
  · have h1 : 0 < p / 3 * s * h * (2 * r + R) :=
      mul_pos (mul_pos (mul_pos (div_pos hp (by norm_num)) hs) hh) h2
    have e : -p / 3 * s * h * (2 * r + R) = -(p / 3 * s * h * (2 * r + R)) := by ring
    rw [e]
    exact neg_neg_of_pos h1
  · have h2 : 0 ≤ (p * s * h) ^ 2 := sq_nonneg _
    have h3 : 0 ≤ r ^ 2 + 4 * r * R + R ^ 2 := by positivity
    have e : p * h ^ 2 * s * (r / 2 + R / 6) * (p * s * (R + r)) -
        (-p / 3 * s * h * (2 * r + R)) ^ 2 =
        (p * s * h) ^ 2 * ((r ^ 2 + 4 * r * R + R ^ 2) / 18) := by
      ring
    have h4 := mul_nonneg h2 (div_nonneg h3 (by norm_num : (0 : K) ≤ 18))
    rw [← e] at h4
    linarith

/-- The constructor of a `TrCone` succeeds on every input that satisfies its
preconditions, on every admissible placement (axis in exactly one co-ordinate
plane, or on OX with `alpha = 0`), when `cos(alpha) > 0`,
`cos^2 + sin^2 = 1` and the square root of a positive number is positive. The
cone stores the CoM and the moments of inertia that `MoIsCoM` computes from the
"empty" parameters, and these moments are non-negative. -/
theorem TrCone_ctor_isSome (F : MathFns K) (x0 y0 z0 alpha d0 d1 h rho M : K)
    (hh : 0 < h) (hd0 : 0 ≤ d0) (hd1 : 0 ≤ d1) (hd : ¬ (d0 = 0 ∧ d1 = 0))
    (hal : |alpha| < F.Pi / 2) (hrho : 0 ≤ rho) (hM : 0 ≤ M)
    (hplane : (y0 = 0 ∧ z0 ≠ 0) ∨ (y0 ≠ 0 ∧ z0 = 0) ∨
      (y0 = 0 ∧ z0 = 0 ∧ alpha = 0 ∧ F.Cos 0 = 1 ∧ F.Sin 0 = 0))
    (hpy : F.Cos alpha ^ 2 + F.Sin alpha ^ 2 = 1) (hcos : 0 < F.Cos alpha)
    (hsq : ∀ x, 0 < x → 0 < F.SqRt x) :
    ∃ T, TrCone.ctor F x0 y0 z0 alpha d0 d1 h rho M = some T ∧
      T.base.MoIsCoM
        (F.Pi * h ^ 2 * F.SqRt ((d1 / 2 - d0 / 2) ^ 2 + h ^ 2) * (d0 / 2 / 2 + d1 / 2 / 6))
        (F.Pi / 4 * F.SqRt ((d1 / 2 - d0 / 2) ^ 2 + h ^ 2) * (d1 / 2 + d0 / 2) *
          ((d1 / 2) ^ 2 + (d0 / 2) ^ 2))
        (-F.Pi / 3 * F.SqRt ((d1 / 2 - d0 / 2) ^ 2 + h ^ 2) * h * (2 * (d0 / 2) + d1 / 2))
        (F.Pi * F.SqRt ((d1 / 2 - d0 / 2) ^ 2 + h ^ 2) * (d1 / 2 + d0 / 2))
        (if 0 < M then
          M / (F.Pi * F.SqRt ((d1 / 2 - d0 / 2) ^ 2 + h ^ 2) * (d1 / 2 + d0 / 2)) else 1) =
        some (T.base.m_CoM, T.base.m_MoIs) ∧
      0 ≤ T.base.m_MoIs.x ∧ 0 ≤ T.base.m_MoIs.y ∧ 0 ≤ T.base.m_MoIs.z := by
  have hpi : 0 < F.Pi := by
    have := lt_of_le_of_lt (abs_nonneg alpha) hal
    linarith
  have hsum : 0 < d1 / 2 + d0 / 2 := by
    rcases hd0.lt_or_eq with h0 | h0
    · have := half_pos h0
      have := div_nonneg hd1 (by norm_num : (0 : K) ≤ 2)
      linarith
    · rcases hd1.lt_or_eq with h1 | h1
      · have := half_pos h1
        have := div_nonneg hd0 (by norm_num : (0 : K) ≤ 2)
        linarith
      · exact absurd ⟨h0.symm, h1.symm⟩ hd
  have hr : 0 ≤ d0 / 2 := div_nonneg hd0 (by norm_num)
  have hR : 0 ≤ d1 / 2 := div_nonneg hd1 (by norm_num)
  have hs0 : 0 < F.SqRt ((d1 / 2 - d0 / 2) ^ 2 + h ^ 2) :=
    hsq _ (add_pos_of_nonneg_of_pos (sq_nonneg _) (pow_pos hh 2))
  obtain ⟨s1, s2, s3, s4, s5, s6⟩ := TrCone_empty_signs F.Pi
    (F.SqRt ((d1 / 2 - d0 / 2) ^ 2 + h ^ 2)) (d0 / 2) (d1 / 2) h hpi hs0 hr hR hsum hh
  have hpre : IsPos h ∧ ¬ IsNeg d0 ∧ ¬ IsNeg d1 ∧ ¬ (IsZero d0 ∧ IsZero d1) ∧
      |alpha| < F.Pi / 2 ∧ ¬ IsNeg rho ∧ ¬ IsNeg M :=
    ⟨hh, not_lt.2 hd0, not_lt.2 hd1, hd, hal, not_lt.2 hrho, not_lt.2 hM⟩
  obtain ⟨B, hB, hMo, hnn⟩ := Init_isSome F
    (F.Pi * F.SqRt ((d1 / 2 - d0 / 2) ^ 2 + h ^ 2) * (d1 / 2 + d0 / 2))
    (F.Pi / 3 * h * ((d1 / 2) ^ 2 + d1 / 2 * (d0 / 2) + (d0 / 2) ^ 2))
    M alpha x0 y0 z0 true h
    (F.Pi * h ^ 2 * F.SqRt ((d1 / 2 - d0 / 2) ^ 2 + h ^ 2) * (d0 / 2 / 2 + d1 / 2 / 6))
    (F.Pi / 4 * F.SqRt ((d1 / 2 - d0 / 2) ^ 2 + h ^ 2) * (d1 / 2 + d0 / 2) *
      ((d1 / 2) ^ 2 + (d0 / 2) ^ 2))
    (-F.Pi / 3 * F.SqRt ((d1 / 2 - d0 / 2) ^ 2 + h ^ 2) * h * (2 * (d0 / 2) + d1 / 2))
    rho
    (F.Pi / 5 * ((d1 / 2 - d0 / 2) / h) ^ 2) (-F.Pi / 2 * ((d1 / 2 - d0 / 2) / h) * (d1 / 2))
    (F.Pi / 3 * (d1 / 2) ^ 2) (F.Pi / 20 * (((d1 / 2 - d0 / 2) / h) ^ 2) ^ 2)
    (-F.Pi / 4 * (((d1 / 2 - d0 / 2) / h) ^ 2 * ((d1 / 2 - d0 / 2) / h)) * (d1 / 2))
    (F.Pi / 2 * ((d1 / 2 - d0 / 2) / h) ^ 2 * (d1 / 2) ^ 2)
    (-F.Pi / 2 * ((d1 / 2 - d0 / 2) / h) * ((d1 / 2) ^ 2 * (d1 / 2)))
    (F.Pi / 4 * ((d1 / 2) ^ 2) ^ 2)
    (-F.Pi / 4 * ((d1 / 2 - d0 / 2) / h) ^ 2) (F.Pi * 2 / 3 * ((d1 / 2 - d0 / 2) / h) * (d1 / 2))
    (-F.Pi / 2 * (d1 / 2) ^ 2)
    hpy hcos hplane s1 s2 hh s3 s4 s5 hrho s6
  refine ⟨{ base := B, m_r := d0 / 2, m_R := d1 / 2, m_h := h, m_deltaR := d1 / 2 - d0 / 2
            m_clVol := 3 / F.Pi * h ^ 2 * (d1 / 2 - d0 / 2), m_Rh := d1 / 2 * h
            m_Rh3 := (d1 / 2 * h) ^ 3 }, ?_, hMo, hnn⟩
  unfold TrCone.ctor
  rw [assertion_of _ hpre]
  dsimp only
  rw [hB]
  rfl

/-- C31. For every `TrCone` input that satisfies the constructor's preconditions
(`h > 0`, `d0, d1 >= 0` not both 0, `|alpha| < pi/2`, `rho >= 0`, `M >= 0`) on an
admissible placement, with `cos(alpha) > 0`, `cos^2 + sin^2 = 1` and a positive
square root: the "empty" parameters satisfy `JE0 > 0`, `JE1 > 0`, `area > 0`,
`KE < 0`; the constructor returns; and the three moments of inertia that
`MoIsCoM` computes during the construction, which the cone stores, are
non-negative. Neither assertion of `MoIsCoM` fails. -/
theorem TrCone_empty_MoIsCoM_ok (F : MathFns K) (x0 y0 z0 alpha d0 d1 h rho M : K)
    (hh : 0 < h) (hd0 : 0 ≤ d0) (hd1 : 0 ≤ d1) (hd : ¬ (d0 = 0 ∧ d1 = 0))
    (hal : |alpha| < F.Pi / 2) (hrho : 0 ≤ rho) (hM : 0 ≤ M)
    (hplane : (y0 = 0 ∧ z0 ≠ 0) ∨ (y0 ≠ 0 ∧ z0 = 0) ∨
      (y0 = 0 ∧ z0 = 0 ∧ alpha = 0 ∧ F.Cos 0 = 1 ∧ F.Sin 0 = 0))
    (hpy : F.Cos alpha ^ 2 + F.Sin alpha ^ 2 = 1) (hcos : 0 < F.Cos alpha)
    (hsq : ∀ x, 0 < x → 0 < F.SqRt x) :
    (IsPos (F.Pi * h ^ 2 * F.SqRt ((d1 / 2 - d0 / 2) ^ 2 + h ^ 2) * (d0 / 2 / 2 + d1 / 2 / 6)) ∧
      IsPos (F.Pi / 4 * F.SqRt ((d1 / 2 - d0 / 2) ^ 2 + h ^ 2) * (d1 / 2 + d0 / 2) *
        ((d1 / 2) ^ 2 + (d0 / 2) ^ 2)) ∧
      IsPos (F.Pi * F.SqRt ((d1 / 2 - d0 / 2) ^ 2 + h ^ 2) * (d1 / 2 + d0 / 2)) ∧
      IsNeg (-F.Pi / 3 * F.SqRt ((d1 / 2 - d0 / 2) ^ 2 + h ^ 2) * h * (2 * (d0 / 2) + d1 / 2))) ∧
    ∃ T, TrCone.ctor F x0 y0 z0 alpha d0 d1 h rho M = some T ∧
      T.base.MoIsCoM
        (F.Pi * h ^ 2 * F.SqRt ((d1 / 2 - d0 / 2) ^ 2 + h ^ 2) * (d0 / 2 / 2 + d1 / 2 / 6))
        (F.Pi / 4 * F.SqRt ((d1 / 2 - d0 / 2) ^ 2 + h ^ 2) * (d1 / 2 + d0 / 2) *
          ((d1 / 2) ^ 2 + (d0 / 2) ^ 2))
        (-F.Pi / 3 * F.SqRt ((d1 / 2 - d0 / 2) ^ 2 + h ^ 2) * h * (2 * (d0 / 2) + d1 / 2))
        (F.Pi * F.SqRt ((d1 / 2 - d0 / 2) ^ 2 + h ^ 2) * (d1 / 2 + d0 / 2))
        (if 0 < M then
          M / (F.Pi * F.SqRt ((d1 / 2 - d0 / 2) ^ 2 + h ^ 2) * (d1 / 2 + d0 / 2)) else 1) =
        some (T.base.m_CoM, T.base.m_MoIs) ∧
      ¬ (IsNeg T.base.m_MoIs.x ∨ IsNeg T.base.m_MoIs.y ∨ IsNeg T.base.m_MoIs.z) := by
  obtain ⟨T, hT, hMo, hx, hy, hz⟩ := TrCone_ctor_isSome F x0 y0 z0 alpha d0 d1 h rho M
    hh hd0 hd1 hd hal hrho hM hplane hpy hcos hsq
  obtain ⟨hsig, -⟩ := (MoIsCoM_eq_some_iff _ _ _ _ _ _ _).1 hMo
  refine ⟨⟨hsig.1, hsig.2.1, hsig.2.2.1, hsig.2.2.2⟩, T, hT, hMo, ?_⟩
  rintro (h1 | h1 | h1)
  · exact absurd hx (not_le.2 h1)
  · exact absurd hy (not_le.2 h1)
  · exact absurd hz (not_le.2 h1)

/-- C32. A body returned by `RotationBody::Init`, whichever end of the axis was
given (`is_left` true or false): `right - left` is `h * cos(alpha)` in X and
`h * sin(alpha)` in the in-plane transverse co-ordinate (Y when the axis is in
the XY plane, `z0 = 0`, else Z), the out-of-plane co-ordinate of both ends is
0, and, with `cos^2 + sin^2 = 1`, the squared distance between the ends is
`h^2`. -/
theorem Init_axis_ends (F : MathFns K)
    (area vol M alpha x0 y0 z0 : K) (is_left : Bool) (h je0 je1 ke rho : K)
    (jp05 jp04 jp03 jp15 jp14 jp13 jp12 jp11 kp4 kp3 kp2 : K) (B : RotationBody K)
    (hB : RotationBody.Init F area vol M alpha x0 y0 z0 is_left h je0 je1 ke rho
      jp05 jp04 jp03 jp15 jp14 jp13 jp12 jp11 kp4 kp3 kp2 = some B)
    (hpy : F.Cos alpha ^ 2 + F.Sin alpha ^ 2 = 1) :
    B.m_right.x - B.m_left.x = h * F.Cos alpha ∧
    (if z0 = 0 then B.m_right.y - B.m_left.y else B.m_right.z - B.m_left.z) =
      h * F.Sin alpha ∧
    (if z0 = 0 then B.m_right.z else B.m_right.y) = 0 ∧
    (if z0 = 0 then B.m_left.z else B.m_left.y) = 0 ∧
    (B.m_right.x - B.m_left.x) ^ 2 + (B.m_right.y - B.m_left.y) ^ 2 +
      (B.m_right.z - B.m_left.z) ^ 2 = h ^ 2 := by
  obtain ⟨eL, eR⟩ := Init_ends_of_some F area vol M alpha x0 y0 z0 is_left h je0 je1 ke rho
    jp05 jp04 jp03 jp15 jp14 jp13 jp12 jp11 kp4 kp3 kp2 B hB
  obtain ⟨h1, -, -, -, -, h6, -⟩ :=
    (Init_eq_some_iff _ _ _ _ _ _ _ _ _ _ _ _ _ _ _ _ _ _ _ _ _ _ _ _ _ _).1 hB
  clear hB
  have hsq : (h * F.Cos alpha) ^ 2 + (h * F.Sin alpha) ^ 2 = h ^ 2 := by
    have e : (h * F.Cos alpha) ^ 2 + (h * F.Sin alpha) ^ 2 =
        h ^ 2 * (F.Cos alpha ^ 2 + F.Sin alpha ^ 2) := by ring
    rw [e, hpy, mul_one]
  rw [eL, eR]
  by_cases hz : z0 = 0
  · by_cases hy : y0 = 0
    · have hs : F.Sin alpha = 0 := by
        rcases h6 with h6 | h6
        · exact absurd ⟨hz, hy⟩ h6
        · exact h6.2
      have hc : F.Cos alpha = 1 := by
        rcases h6 with h6 | h6
        · exact absurd ⟨hz, hy⟩ h6
        · exact h6.1
      cases is_left <;> simp [hz, hy, hs, hc]
    · cases is_left
      · simp only [hz, hy, if_true, if_false, Bool.false_eq_true]
        refine ⟨by ring, by ring, trivial, trivial, ?_⟩
        rw [← hsq]; ring
      · simp only [hz, hy, if_true, if_false]
        refine ⟨by ring, by ring, trivial, trivial, ?_⟩
        rw [← hsq]; ring
  · have hy : y0 = 0 := by
      rcases h1 with h1 | h1
      · exact absurd h1 hz
      · exact h1
    cases is_left
    · simp only [hz, hy, if_true, if_false, Bool.false_eq_true]
      refine ⟨by ring, by ring, trivial, trivial, ?_⟩
      rw [← hsq]; ring
    · simp only [hz, hy, if_true, if_false]
      refine ⟨by ring, by ring, trivial, trivial, ?_⟩
      rw [← hsq]; ring

/-- The real cosine is positive on `(-pi/2, pi/2)`; in particular at `1/2`,
which lies in that interval. -/
theorem real_Cos_pos :
    let F : MathFns ℝ :=
      ⟨Real.pi, (1 / 2) ^ 52, Real.cos, Real.sin, Real.sqrt, fun x => x ^ ((3 : ℝ)⁻¹)⟩
    (∀ a, |a| < F.Pi / 2 → 0 < F.Cos a) ∧ |(1 / 2 : ℝ)| < F.Pi / 2 := by
  intro F
  constructor
  · intro a ha
    rw [abs_lt] at ha
    exact Real.cos_pos_of_mem_Ioo ⟨by linarith [ha.1], ha.2⟩
  · rw [abs_of_pos (by norm_num : (0 : ℝ) < 1 / 2)]
    have := Real.pi_gt_three
    show (1 / 2 : ℝ) < Real.pi / 2
    linarith

/-- Witness of C31: the frustum `d0 = 1`, `d1 = 2`, `h = 3` with its left end at
`(0, 1, 0)`, tilted by `alpha = 1/2` in the XY plane, of mass 10. -/
theorem TrCone_empty_MoIsCoM_ok_witness :
    let F : MathFns ℝ :=
      ⟨Real.pi, (1 / 2) ^ 52, Real.cos, Real.sin, Real.sqrt, fun x => x ^ ((3 : ℝ)⁻¹)⟩
    ∃ T, TrCone.ctor F 0 1 0 (1 / 2) 1 2 3 1000 10 = some T ∧
      ¬ (IsNeg T.base.m_MoIs.x ∨ IsNeg T.base.m_MoIs.y ∨ IsNeg T.base.m_MoIs.z) := by
  intro F
  obtain ⟨-, -, -, hsq, -, hpy, -⟩ := real_MathFns_laws
  obtain ⟨hcos, hal⟩ := real_Cos_pos
  obtain ⟨-, T, hT, -, hnn⟩ := TrCone_empty_MoIsCoM_ok F 0 1 0 (1 / 2) 1 2 3 1000 10
    (by norm_num) (by norm_num) (by norm_num) (by norm_num) hal (by norm_num) (by norm_num)
    (Or.inr (Or.inl ⟨by norm_num, rfl⟩)) (hpy _) (hcos _ hal) hsq
  exact ⟨T, hT, hnn⟩

/-- Witness of C32: the same tilted frustum; its axis ends are `3 * cos(1/2)`
apart in X and `3 * sin(1/2)` apart in Y, both in the plane `z = 0`. -/
theorem Init_axis_ends_witness :
    let F : MathFns ℝ :=
      ⟨Real.pi, (1 / 2) ^ 52, Real.cos, Real.sin, Real.sqrt, fun x => x ^ ((3 : ℝ)⁻¹)⟩
    ∃ T, TrCone.ctor F 0 1 0 (1 / 2) 1 2 3 1000 10 = some T ∧
      T.base.m_right.x - T.base.m_left.x = 3 * F.Cos (1 / 2) ∧
      (if (0 : ℝ) = 0 then T.base.m_right.y - T.base.m_left.y
        else T.base.m_right.z - T.base.m_left.z) = 3 * F.Sin (1 / 2) ∧
      (if (0 : ℝ) = 0 then T.base.m_right.z else T.base.m_right.y) = 0 ∧
      (if (0 : ℝ) = 0 then T.base.m_left.z else T.base.m_left.y) = 0 ∧
      (T.base.m_right.x - T.base.m_left.x) ^ 2 + (T.base.m_right.y - T.base.m_left.y) ^ 2 +
        (T.base.m_right.z - T.base.m_left.z) ^ 2 = 3 ^ 2 := by
  intro F
  obtain ⟨-, -, -, hsq, -, hpy, -⟩ := real_MathFns_laws
  obtain ⟨hcos, hal⟩ := real_Cos_pos
  obtain ⟨T, hT, -⟩ := TrCone_ctor_isSome F 0 1 0 (1 / 2) 1 2 3 1000 10
    (by norm_num) (by norm_num) (by norm_num) (by norm_num) hal (by norm_num) (by norm_num)
    (Or.inr (Or.inl ⟨by norm_num, rfl⟩)) (hpy _) (hcos _ hal) hsq
  obtain ⟨area, vol, je0, je1, ke, jp05, jp04, jp03, jp15, jp14, jp13, jp12, jp11, kp4, kp3,
    kp2, hInit⟩ := TrCone_ctor_Init F 0 1 0 (1 / 2) 1 2 3 1000 10 T hT
  exact ⟨T, hT, Init_axis_ends F area vol 10 (1 / 2) 0 1 0 true 3 je0 je1 ke 1000
    jp05 jp04 jp03 jp15 jp14 jp13 jp12 jp11 kp4 kp3 kp2 T.base hInit (hpy _)⟩

/-- C33. For all finalized `A`, `B`, `C` with strictly positive masses,
`(A + B) + C` and `A + (B + C)` both succeed and return the same element: the
same mass, the same three moments of inertia, the same three CoM co-ordinates
(and both final). -/
theorem operator_plus_assoc (A B C : ConstrElement K)
    (hA : A.m_isFinal = true) (hB : B.m_isFinal = true) (hC : C.m_isFinal = true)
    (hmA : 0 < A.m_mass) (hmB : 0 < B.m_mass) (hmC : 0 < C.m_mass) :
    ∃ AB BC R, operator_plus A B = some AB ∧ operator_plus AB C = some R ∧
      operator_plus B C = some BC ∧ operator_plus A BC = some R ∧
      R.m_mass = A.m_mass + B.m_mass + C.m_mass := by
  have hAB : 0 < A.m_mass + B.m_mass := add_pos hmA hmB
  have hBC : 0 < B.m_mass + C.m_mass := add_pos hmB hmC
  have hABC : 0 < A.m_mass + B.m_mass + C.m_mass := add_pos hAB hmC
  have hABC' : 0 < A.m_mass + (B.m_mass + C.m_mass) := add_pos hmA hBC
  have e1 := operator_plus_eq_some A B hA hB (fun h => hmA.ne' h.1) hAB
  have e2 := operator_plus_eq_some B C hB hC (fun h => hmB.ne' h.1) hBC
  refine ⟨_, _, _, e1, operator_plus_eq_some _ C rfl hC (fun h => hmC.ne' h.2) hABC, e2, ?_,
    rfl⟩
  rw [operator_plus_eq_some A _ hA rfl (fun h => hmA.ne' h.1) hABC']
  have n1 := hAB.ne'
  have n2 := hBC.ne'
  have n3 := hABC.ne'
  have n4 := hABC'.ne'
  congr 1
  ext
  · show A.m_mass / (A.m_mass + (B.m_mass + C.m_mass)) * A.m_CoM.x +
        (B.m_mass + C.m_mass) / (A.m_mass + (B.m_mass + C.m_mass)) *
          (B.m_mass / (B.m_mass + C.m_mass) * B.m_CoM.x +
            C.m_mass / (B.m_mass + C.m_mass) * C.m_CoM.x) =
      (A.m_mass + B.m_mass) / (A.m_mass + B.m_mass + C.m_mass) *
          (A.m_mass / (A.m_mass + B.m_mass) * A.m_CoM.x +
            B.m_mass / (A.m_mass + B.m_mass) * B.m_CoM.x) +
        C.m_mass / (A.m_mass + B.m_mass + C.m_mass) * C.m_CoM.x
    field_simp
    ring
  · show A.m_mass / (A.m_mass + (B.m_mass + C.m_mass)) * A.m_CoM.y +
        (B.m_mass + C.m_mass) / (A.m_mass + (B.m_mass + C.m_mass)) *
          (B.m_mass / (B.m_mass + C.m_mass) * B.m_CoM.y +
            C.m_mass / (B.m_mass + C.m_mass) * C.m_CoM.y) =
      (A.m_mass + B.m_mass) / (A.m_mass + B.m_mass + C.m_mass) *
          (A.m_mass / (A.m_mass + B.m_mass) * A.m_CoM.y +
            B.m_mass / (A.m_mass + B.m_mass) * B.m_CoM.y) +
        C.m_mass / (A.m_mass + B.m_mass + C.m_mass) * C.m_CoM.y
    field_simp
    ring
  · show A.m_mass / (A.m_mass + (B.m_mass + C.m_mass)) * A.m_CoM.z +
        (B.m_mass + C.m_mass) / (A.m_mass + (B.m_mass + C.m_mass)) *
          (B.m_mass / (B.m_mass + C.m_mass) * B.m_CoM.z +
            C.m_mass / (B.m_mass + C.m_mass) * C.m_CoM.z) =
      (A.m_mass + B.m_mass) / (A.m_mass + B.m_mass + C.m_mass) *
          (A.m_mass / (A.m_mass + B.m_mass) * A.m_CoM.z +
            B.m_mass / (A.m_mass + B.m_mass) * B.m_CoM.z) +
        C.m_mass / (A.m_mass + B.m_mass + C.m_mass) * C.m_CoM.z
    field_simp
    ring
  · show A.m_mass + (B.m_mass + C.m_mass) = A.m_mass + B.m_mass + C.m_mass
    ring
  · show A.m_MoIs.x + (B.m_MoIs.x + C.m_MoIs.x) = A.m_MoIs.x + B.m_MoIs.x + C.m_MoIs.x
    ring
  · show A.m_MoIs.y + (B.m_MoIs.y + C.m_MoIs.y) = A.m_MoIs.y + B.m_MoIs.y + C.m_MoIs.y
    ring
  · show A.m_MoIs.z + (B.m_MoIs.z + C.m_MoIs.z) = A.m_MoIs.z + B.m_MoIs.z + C.m_MoIs.z
    ring
  · rfl

/-- Witness of C33 at three point masses. -/
theorem operator_plus_assoc_witness :
    ∃ AB BC R, operator_plus pmOnAxis pmOffAxis = some AB ∧
      operator_plus AB pmThree = some R ∧
      operator_plus pmOffAxis pmThree = some BC ∧ operator_plus pmOnAxis BC = some R ∧
      R.m_mass = pmOnAxis.m_mass + pmOffAxis.m_mass + pmThree.m_mass :=
  operator_plus_assoc pmOnAxis pmOffAxis pmThree rfl rfl rfl
    (by norm_num [pmOnAxis]) (by norm_num [pmOffAxis]) (by norm_num [pmThree])

/-- C35. On a rotation body that `RotationBody::Init` returns for the propellant
density 0: the density and the capacity are 0, and `GetPropCE` returns no
element, whatever the level function and the propellant mass. A mass other than
0 fails the first assertion (`0 <= m <= capacity * TolFact`, the capacity being
0); the mass 0 reaches the division by the zero density. -/
theorem GetPropCE_zero_density (F : MathFns K)
    (area vol M alpha x0 y0 z0 : K) (is_left : Bool) (h je0 je1 ke : K)
    (jp05 jp04 jp03 jp15 jp14 jp13 jp12 jp11 kp4 kp3 kp2 : K) (B : RotationBody K)
    (hB : RotationBody.Init F area vol M alpha x0 y0 z0 is_left h je0 je1 ke 0
      jp05 jp04 jp03 jp15 jp14 jp13 jp12 jp11 kp4 kp3 kp2 = some B) :
    B.GetPropDens = 0 ∧ B.GetPropMassCap = 0 ∧
    ∀ (LoV : K → Option K) (m : K),
      B.GetPropCE F LoV m = none ∧
      (m ≠ 0 → ¬ (¬ IsNeg m ∧ m ≤ B.GetPropMassCap * RotationBody.TolFact F)) := by
  obtain ⟨-, ⟨-, -, -, erho, ecap⟩, -⟩ :=
    Init_props_of_some F area vol M alpha x0 y0 z0 is_left h je0 je1 ke 0
      jp05 jp04 jp03 jp15 jp14 jp13 jp12 jp11 kp4 kp3 kp2 B hB
  have hcap : B.m_propMassCap = 0 := by rw [ecap, zero_mul]
  refine ⟨erho, hcap, ?_⟩
  intro LoV m
  constructor
  · cases hR : B.GetPropCE F LoV m with
    | none => rfl
    | some r =>
      obtain ⟨R, l⟩ := r
      obtain ⟨-, hne, -⟩ := (GetPropCE_eq_some_iff F B LoV m R l).1 hR
      exact absurd erho hne
  · rintro hm ⟨h1, h2⟩
    have h2' : m ≤ B.m_propMassCap * RotationBody.TolFact F := h2
    rw [hcap, zero_mul] at h2'
    exact hm (le_antisymm h2' (not_lt.1 h1))

/-- Witness of C35: the full cone `r = 0`, `R = 1`, `h = 3` on the OX axis with
the propellant density 0. -/
theorem GetPropCE_zero_density_witness :
    let F : MathFns ℝ :=
      ⟨Real.pi, (1 / 2) ^ 52, Real.cos, Real.sin, Real.sqrt, fun x => x ^ ((3 : ℝ)⁻¹)⟩
    ∃ T, TrCone.ctor_OX F 0 0 2 3 0 0 = some T ∧
      T.base.GetPropDens = 0 ∧ T.base.GetPropMassCap = 0 ∧
      ∀ (LoV : ℝ → Option ℝ) (m : ℝ),
        T.base.GetPropCE F LoV m = none ∧
        (m ≠ 0 → ¬ (¬ IsNeg m ∧ m ≤ T.base.GetPropMassCap * RotationBody.TolFact F)) := by
  intro F
  obtain ⟨hpi, hc, hs, hsq, -, -, -⟩ := real_MathFns_laws
  obtain ⟨T, hT⟩ := TrCone_ctor_OX_isSome F hpi hc hs hsq 0 0 2 3 0 0 (by norm_num)
    le_rfl (by norm_num) (by norm_num) le_rfl le_rfl
  obtain ⟨area, vol, je0, je1, ke, jp05, jp04, jp03, jp15, jp14, jp13, jp12, jp11, kp4, kp3,
    kp2, hInit⟩ := TrCone_ctor_Init F 0 0 0 0 0 2 3 0 0 T hT
  exact ⟨T, hT, GetPropCE_zero_density F area vol 0 0 0 0 0 true 3 je0 je1 ke
    jp05 jp04 jp03 jp15 jp14 jp13 jp12 jp11 kp4 kp3 kp2 T.base hInit⟩

/-- The propellant coefficients that the constructor of a `SpherSegm` stores, in
terms of the sphere radius `R = m_R`, the height and the facing flag. -/
theorem SpherSegm_ctor_coeffs (F : MathFns K) (fr : Bool) (x0 y0 z0 alpha d h rho M : K)
    (S : SpherSegm K)
    (hS : SpherSegm.ctor F fr x0 y0 z0 alpha d h rho M = some S) :
    (S.base.m_JP05 = -F.Pi / 5 ∧
      S.base.m_JP04 = F.Pi / 2 * (if fr then S.m_R else -(S.m_R - h)) ∧
      S.base.m_JP03 = (if fr then 0 else F.Pi / 3 * (S.m_R + (S.m_R - h)) * h)) ∧
    (S.base.m_JP15 = F.Pi / 20 ∧
      S.base.m_JP14 = F.Pi / 4 * (if fr then -S.m_R else S.m_R - h) ∧
      S.base.m_JP13 =
        F.Pi * (if fr then S.m_R ^ 2 / 3 else S.m_R ^ 2 / 3 - S.m_R * h + h ^ 2 / 2) ∧
      S.base.m_JP12 =
        (if fr then 0 else -F.Pi / 2 * (S.m_R - h) * (S.m_R + (S.m_R - h)) * h) ∧
      S.base.m_JP11 = (if fr then 0 else F.Pi / 4 * (S.m_R + (S.m_R - h)) ^ 2 * h ^ 2)) ∧
    (S.base.m_KP4 = F.Pi / 4 ∧
      S.base.m_KP3 = F.Pi * 2 / 3 * (if fr then -S.m_R else S.m_R - h) ∧
      S.base.m_KP2 = (if fr then 0 else -F.Pi / 2 * (S.m_R + (S.m_R - h)) * h)) := by
  have hInit := SpherSegm_ctor_Init F fr x0 y0 z0 alpha d h rho M S hS
  obtain ⟨-, -, hJP0, hJP1, hKP⟩ :=
    Init_props_of_some F _ _ _ _ _ _ _ _ _ _ _ _ _ _ _ _ _ _ _ _ _ _ _ _ S.base hInit
  exact ⟨hJP0, hJP1, hKP⟩

/-- C38. For a right-facing and a left-facing `SpherSegm` constructed from the
same base diameter and height, the propellant polynomials of `GetPropCE` built
from their stored coefficients agree at the full level `l = h`:
`K_right(h) + K_left(h) = -h * enclosedVolume` and `J1_right(h) = J1_left(h)`. -/
theorem SpherSegm_coeffs_consistent (F : MathFns K)
    (x0 y0 z0 alpha x0' y0' z0' alpha' d h rho M rho' M' : K) (Sr Sl : SpherSegm K)
    (hr : SpherSegm.ctor F true x0 y0 z0 alpha d h rho M = some Sr)
    (hl : SpherSegm.ctor F false x0' y0' z0' alpha' d h rho' M' = some Sl) :
    ((Sr.base.m_KP4 * h + Sr.base.m_KP3) * h + Sr.base.m_KP2) * h ^ 2 +
      ((Sl.base.m_KP4 * h + Sl.base.m_KP3) * h + Sl.base.m_KP2) * h ^ 2 =
      -h * Sr.base.GetEnclVol ∧
    Sr.base.GetEnclVol = Sl.base.GetEnclVol ∧
    (((((Sr.base.m_JP15 * h + Sr.base.m_JP14) * h + Sr.base.m_JP13) * h) +
      Sr.base.m_JP12) * h + Sr.base.m_JP11) * h =
    (((((Sl.base.m_JP15 * h + Sl.base.m_JP14) * h + Sl.base.m_JP13) * h) +
      Sl.base.m_JP12) * h + Sl.base.m_JP11) * h := by
  obtain ⟨-, ⟨a15, a14, a13, a12, a11⟩, ⟨a4, a3, a2⟩⟩ :=
    SpherSegm_ctor_coeffs F true x0 y0 z0 alpha d h rho M Sr hr
  obtain ⟨-, ⟨b15, b14, b13, b12, b11⟩, ⟨b4, b3, b2⟩⟩ :=
    SpherSegm_ctor_coeffs F false x0' y0' z0' alpha' d h rho' M' Sl hl
  obtain ⟨-, -, ⟨-, eRr, -, -⟩, -, ⟨-, -, eVr, -, -⟩⟩ :=
    SpherSegm_ctor_some F true x0 y0 z0 alpha d h rho M Sr hr
  obtain ⟨-, -, ⟨-, eRl, -, -⟩, -, ⟨-, -, eVl, -, -⟩⟩ :=
    SpherSegm_ctor_some F false x0' y0' z0' alpha' d h rho' M' Sl hl
  clear hr hl
  have eR : Sl.m_R = Sr.m_R := by rw [eRl, eRr]
  simp only [if_true, if_false, Bool.false_eq_true] at a14 a13 a12 a11 a3 a2 b14 b13 b12 b11 b3 b2
  have eV : Sr.base.GetEnclVol = F.Pi * h ^ 2 * (Sr.m_R - h / 3) := eVr
  have eV' : Sl.base.GetEnclVol = F.Pi * h ^ 2 * (Sr.m_R - h / 3) := by
    rw [← eR]; exact eVl
  rw [a15, a14, a13, a12, a11, a4, a3, a2, b15, b14, b13, b12, b11, b4, b3, b2, eV, eV', eR]
  refine ⟨by ring, rfl, by ring⟩

/-- Witness of C38: the hemispheres of base diameter 2 and height 1 on the OX
axis, facing right and facing left. -/
theorem SpherSegm_coeffs_consistent_witness :
    let F : MathFns ℝ :=
      ⟨Real.pi, (1 / 2) ^ 52, Real.cos, Real.sin, Real.sqrt, fun x => x ^ ((3 : ℝ)⁻¹)⟩
    ∃ Sr Sl, SpherSegm.ctor F true 0 0 0 0 2 1 1000 0 = some Sr ∧
      SpherSegm.ctor F false 0 0 0 0 2 1 1000 0 = some Sl ∧
      ((Sr.base.m_KP4 * 1 + Sr.base.m_KP3) * 1 + Sr.base.m_KP2) * (1 : ℝ) ^ 2 +
        ((Sl.base.m_KP4 * 1 + Sl.base.m_KP3) * 1 + Sl.base.m_KP2) * (1 : ℝ) ^ 2 =
        -1 * Sr.base.GetEnclVol ∧
      Sr.base.GetEnclVol = Sl.base.GetEnclVol ∧
      (((((Sr.base.m_JP15 * 1 + Sr.base.m_JP14) * 1 + Sr.base.m_JP13) * 1) +
        Sr.base.m_JP12) * 1 + Sr.base.m_JP11) * 1 =
      (((((Sl.base.m_JP15 * 1 + Sl.base.m_JP14) * 1 + Sl.base.m_JP13) * 1) +
        Sl.base.m_JP12) * 1 + Sl.base.m_JP11) * 1 := by
  intro F
  obtain ⟨hpi, hc, hs, -, -, -, -⟩ := real_MathFns_laws
  obtain ⟨Sr, hr⟩ := SpherSegm_ctor_OX_isSome F hpi (by positivity) hc hs true 0 2 1 1000 0
    (by norm_num) (by norm_num) (by norm_num) (by norm_num) le_rfl
  obtain ⟨Sl, hl⟩ := SpherSegm_ctor_OX_isSome F hpi (by positivity) hc hs false 0 2 1 1000 0
    (by norm_num) (by norm_num) (by norm_num) (by norm_num) le_rfl
  exact ⟨Sr, Sl, hr, hl,
    SpherSegm_coeffs_consistent F 0 0 0 0 0 0 0 0 2 1 1000 0 1000 0 Sr Sl hr hl⟩

/-- The total mass rate of the RD-107A engine does not depend on `g0`. -/
theorem Soyuz21b_EngineMR_eq (g0 : ℚ) (hg : g0 ≠ 0) :
    Soyuz21b_Booster.EngineMR g0 = 80200 / 263.3 + 2 * (2700 / 251.9) := by
  unfold Soyuz21b_Booster.EngineMR Soyuz21b_Booster.MainMR Soyuz21b_Booster.VernMR2
    Soyuz21b_Booster.VernMR1 Soyuz21b_Booster.ThrustMainSL Soyuz21b_Booster.ThrustVernSL2
    Soyuz21b_Booster.ThrustVernSL1 Soyuz21b_Booster.IspMainSL Soyuz21b_Booster.IspVernSL1
  field_simp
  ring

/-- C40. With the Soyuz-2.1b booster constants and any non-zero standard gravity
`g0`, `FullThrustPropMass` does not depend on `g0`: it is the rational number
`114855230383561 / 3316263500` (about 34633.9 kg), and it is strictly
positive, as `static_assert(IsPos(FullThrustPropMass))` requires. -/
theorem Soyuz21b_FullThrustPropMass_pos (g0 : ℚ) (hg : g0 ≠ 0) :
    Soyuz21b_Booster.FullThrustPropMass g0 = 114855230383561 / 3316263500 ∧
    IsPos (Soyuz21b_Booster.FullThrustPropMass g0) := by
  have h : Soyuz21b_Booster.FullThrustPropMass g0 = 114855230383561 / 3316263500 := by
    unfold Soyuz21b_Booster.FullThrustPropMass Soyuz21b_Booster.FuelMassI
      Soyuz21b_Booster.OxidMassI Soyuz21b_Booster.FuelMass0 Soyuz21b_Booster.OxidMass0
      Soyuz21b_Booster.ShutDownSpentPropMass Soyuz21b_Booster.FuelMR
      Soyuz21b_Booster.OxidMR
    rw [Soyuz21b_EngineMR_eq g0 hg]
    norm_num [Soyuz21b_Booster.FuelPart, Soyuz21b_Booster.OxidPart,
      Soyuz21b_Booster.OxidFuelRatio, Soyuz21b_Booster.FuelMass, Soyuz21b_Booster.OxidMass,
      Soyuz21b_Booster.FuelRem, Soyuz21b_Booster.OxidRem, Soyuz21b_Booster.IgnAdvance,
      Soyuz21b_Booster.IgnThrottlLevel, Soyuz21b_Booster.IntTime,
      Soyuz21b_Booster.IntThrottlLevel, Soyuz21b_Booster.ShutDownThrottlLevel,
      Soyuz21b_Booster.ThrottlAdvance]
  refine ⟨h, ?_⟩
  show 0 < Soyuz21b_Booster.FullThrustPropMass g0
  rw [h]
  norm_num

/-- Witness of C40: the standard gravity `g0 = 9.80665`. -/
theorem Soyuz21b_FullThrustPropMass_pos_witness :
    (9.80665 : ℚ) ≠ 0 ∧
    Soyuz21b_Booster.FullThrustPropMass 9.80665 = 114855230383561 / 3316263500 ∧
    IsPos (Soyuz21b_Booster.FullThrustPropMass 9.80665) :=
  ⟨by norm_num, Soyuz21b_FullThrustPropMass_pos 9.80665 (by norm_num)⟩

/-- The two ways of fixing the mass of a rotation body: if `RotationBody::Init`
returns `B0` for the unknown mass 0, then for every `M > 0` it returns a body
`BM` for the explicit mass `M`, `ProRateMass` of the `ConstrElement` part of
`B0` with the scale `M / area` returns the `ConstrElement` part of `BM`, and
the two bodies differ in nothing else. -/
theorem Init_ProRateMass (F : MathFns K)
    (area vol M alpha x0 y0 z0 : K) (is_left : Bool) (h je0 je1 ke rho : K)
    (jp05 jp04 jp03 jp15 jp14 jp13 jp12 jp11 kp4 kp3 kp2 : K) (B0 : RotationBody K)
    (hB0 : RotationBody.Init F area vol 0 alpha x0 y0 z0 is_left h je0 je1 ke rho
      jp05 jp04 jp03 jp15 jp14 jp13 jp12 jp11 kp4 kp3 kp2 = some B0) (hM : 0 < M) :
    ∃ BM, RotationBody.Init F area vol M alpha x0 y0 z0 is_left h je0 je1 ke rho
        jp05 jp04 jp03 jp15 jp14 jp13 jp12 jp11 kp4 kp3 kp2 = some BM ∧
      ConstrElement.ProRateMass B0.toConstrElement (M / area) = some BM.toConstrElement ∧
      BM = B0.setBase BM.toConstrElement ∧
      BM.m_isFinal = true ∧ BM.m_mass = M := by
  obtain ⟨h1, h2, h3, h4, h5, h6, h7, com, mois, base, hm, hcz, hcy, hb, rfl⟩ :=
    (Init_eq_some_iff _ _ _ _ _ _ _ _ _ _ _ _ _ _ _ _ _ _ _ _ _ _ _ _ _ _).1 hB0
  clear hB0
  generalize hS : RotationBody.Init.fields F area vol alpha x0 y0 z0 is_left h rho
    jp05 jp04 jp03 jp15 jp14 jp13 jp12 jp11 kp4 kp3 kp2 = S at hm ⊢
  simp only [lt_irrefl, if_false] at hm hb
  obtain ⟨hsig, ⟨n1, n2, n3⟩, hr⟩ := (MoIsCoM_eq_some_iff _ _ _ _ _ _ _).1 hm
  obtain ⟨hcom, hmois⟩ := Prod.mk.inj hr
  obtain ⟨-, rfl⟩ := (ConstrElement_Init_eq_some_iff _ _ _ _ _).1 hb
  clear hm hb hr
  rw [one_mul] at n1 n2 n3
  have hd : 0 < M / area := div_pos hM h4
  obtain ⟨moisM, hmoisM⟩ : ∃ moisM : Vec3 K, moisM =
      ⟨M / area * (S.m_Jx0 * je0 + S.m_Jx1 * je1 + S.m_JxK * ke + S.m_JxSV * area),
       M / area *
        (if S.m_inXY then S.m_Jin0 * je0 + S.m_Jin1 * je1 + S.m_JinK * ke + S.m_JinSV * area
          else je0 + je1 + S.m_JortK * ke + S.m_JortSV * area),
       M / area *
        (if S.m_inXZ then S.m_Jin0 * je0 + S.m_Jin1 * je1 + S.m_JinK * ke + S.m_JinSV * area
          else je0 + je1 + S.m_JortK * ke + S.m_JortSV * area)⟩ := ⟨_, rfl⟩
  have hnnM : 0 ≤ moisM.x ∧ 0 ≤ moisM.y ∧ 0 ≤ moisM.z := by
    rw [hmoisM]
    exact ⟨mul_nonneg hd.le n1, mul_nonneg hd.le n2, mul_nonneg hd.le n3⟩
  have hmM : S.MoIsCoM je0 je1 ke area (M / area) = some (com, moisM) := by
    rw [MoIsCoM_eq_some_iff]
    refine ⟨hsig, ?_, by rw [hcom, hmoisM]⟩
    rw [hmoisM] at hnnM
    exact hnnM
  refine ⟨S.setBase ⟨com, M, moisM, true⟩, ?_, ?_, rfl, rfl, rfl⟩
  · rw [Init_eq_some_iff, hS]
    refine ⟨h1, h2, h3, h4, h5, h6, h7, com, moisM, ⟨com, M, moisM, true⟩, ?_, hcz, hcy, ?_, ?_⟩
    · rw [if_pos hM]; exact hmM
    · rw [if_pos hM, ConstrElement_Init_eq_some_iff]
      exact ⟨⟨hM, hnnM⟩, by simp [hM]⟩
    · rfl
  · rw [ProRateMass_some_iff]
    refine ⟨⟨hd, rfl⟩, ?_⟩
    have ha : area ≠ 0 := h4.ne'
    show ({ m_CoM := com, m_mass := M, m_MoIs := moisM, m_isFinal := true } :
        ConstrElement K) =
      { m_CoM := com, m_mass := area * 1 * (M / area),
        m_MoIs := ⟨mois.x * (M / area), mois.y * (M / area), mois.z * (M / area)⟩,
        m_isFinal := true }
    have e1 : area * 1 * (M / area) = M := by field_simp
    rw [e1, hmoisM, hmois]
    simp only [one_mul]
    congr 1
    ext
    · exact mul_comm _ _
    · exact mul_comm _ _
    · exact mul_comm _ _

/-- C34. For every `TrCone` that its constructor returns for the unknown mass
(`UnKnownMass = 0`) and every `M > 0`: `ProRateMass` of that cone with the scale
`M / sideSurfArea` returns exactly the cone that the constructor returns for
the explicit empty mass `M` on the same geometry and placement, which exists,
is final and has the mass `M`; in particular the finality, the mass, the
moments of inertia and the CoM agree. -/
theorem TrCone_ProRateMass_agrees (F : MathFns K) (x0 y0 z0 alpha d0 d1 h rho M : K)
    (T0 : TrCone K) (hT0 : TrCone.ctor F x0 y0 z0 alpha d0 d1 h rho 0 = some T0)
    (hM : 0 < M) :
    ∃ TM, TrCone.ctor F x0 y0 z0 alpha d0 d1 h rho M = some TM ∧
      TrCone.ProRateMass T0 (M / T0.base.GetSideSurfArea) = some TM ∧
      TM.base.m_isFinal = true ∧ TM.base.m_mass = M := by
  obtain ⟨-, -, -, ⟨-, eA, -, -, -⟩, -⟩ :=
    TrCone_ctor_some F x0 y0 z0 alpha d0 d1 h rho 0 T0 hT0
  have eA' : T0.base.GetSideSurfArea =
      F.Pi * F.SqRt ((T0.m_R - T0.m_r) ^ 2 + T0.m_h ^ 2) * (T0.m_R + T0.m_r) := eA
  unfold TrCone.ctor at hT0
  simp only [assertion_eq_some_iff, Option.bind_eq_some, Option.some.injEq] at hT0
  obtain ⟨hpre, B0, hB0, rfl⟩ := hT0
  obtain ⟨BM, hBM, hPR, hset, hfin, hmass⟩ :=
    Init_ProRateMass F _ _ M _ _ _ _ _ _ _ _ _ _ _ _ _ _ _ _ _ _ _ _ _ B0 hB0 hM
  have hpre' : IsPos h ∧ ¬ IsNeg d0 ∧ ¬ IsNeg d1 ∧ ¬ (IsZero d0 ∧ IsZero d1) ∧
      |alpha| < F.Pi / 2 ∧ ¬ IsNeg rho ∧ ¬ IsNeg M :=
    ⟨hpre.1, hpre.2.1, hpre.2.2.1, hpre.2.2.2.1, hpre.2.2.2.2.1, hpre.2.2.2.2.2.1,
      not_lt.2 hM.le⟩
  refine ⟨{ base := BM, m_r := d0 / 2, m_R := d1 / 2, m_h := h, m_deltaR := d1 / 2 - d0 / 2
            m_clVol := 3 / F.Pi * h ^ 2 * (d1 / 2 - d0 / 2), m_Rh := d1 / 2 * h
            m_Rh3 := (d1 / 2 * h) ^ 3 }, ?_, ?_, hfin, hmass⟩
  · unfold TrCone.ctor
    rw [assertion_of _ hpre']
    dsimp only
    rw [hBM]
    rfl
  · unfold TrCone.ProRateMass
    rw [eA']
    dsimp only
    rw [hPR]
    simp only [Option.some_bind]
    rw [← hset]

/-- Witness of C34: the full cone `r = 0`, `R = 1`, `h = 3` on the OX axis,
constructed with the unknown mass and pro-rated to the mass 10. -/
theorem TrCone_ProRateMass_agrees_witness :
    let F : MathFns ℝ :=
      ⟨Real.pi, (1 / 2) ^ 52, Real.cos, Real.sin, Real.sqrt, fun x => x ^ ((3 : ℝ)⁻¹)⟩
    ∃ T0, TrCone.ctor F 0 0 0 0 0 2 3 1000 0 = some T0 ∧
      ∃ TM, TrCone.ctor F 0 0 0 0 0 2 3 1000 10 = some TM ∧
        TrCone.ProRateMass T0 (10 / T0.base.GetSideSurfArea) = some TM ∧
        TM.base.m_isFinal = true ∧ TM.base.m_mass = 10 := by
  intro F
  obtain ⟨hpi, hc, hs, hsq, -, -, -⟩ := real_MathFns_laws
  obtain ⟨T0, hT0⟩ := TrCone_ctor_OX_isSome F hpi hc hs hsq 0 0 2 3 1000 0 (by norm_num)
    le_rfl (by norm_num) (by norm_num) (by norm_num) le_rfl
  exact ⟨T0, hT0, TrCone_ProRateMass_agrees F 0 0 0 0 0 2 3 1000 10 T0 hT0 (by norm_num)⟩

/-- `GetPropCE` in terms of the level and of `MoIsCoM`: for a positive density, a
propellant mass `0 < m <= capacity`, a level `0 <= l <= h` returned by the level
function at the volume `m / rho`, and a successful `MoIsCoM` on the propellant
polynomials at `l`, `GetPropCE(m)` returns the element made of that CoM and
those moments, with the mass `m`, and reports the level `l`. -/
theorem GetPropCE_of_level (F : MathFns K) (hEps : 0 ≤ F.Eps) (B : RotationBody K)
    (LoV : K → Option K) (m l : K) (hrho : 0 < B.m_rho)
    (hcap : B.m_propMassCap = B.m_rho * B.m_enclVol) (hm0 : 0 < m)
    (hm1 : m ≤ B.m_propMassCap) (hl : LoV (m / B.m_rho) = some l) (hl0 : 0 ≤ l)
    (hl1 : l ≤ B.m_h) (com mois : Vec3 K)
    (hMo : B.MoIsCoM (((B.m_JP05 * l + B.m_JP04) * l + B.m_JP03) * (l ^ 2 * l))
      ((((((B.m_JP15 * l + B.m_JP14) * l + B.m_JP13) * l) + B.m_JP12) * l + B.m_JP11) * l)
      (((B.m_KP4 * l + B.m_KP3) * l + B.m_KP2) * l ^ 2)
      (m / B.m_rho) B.m_rho = some (com, mois)) :
    B.GetPropCE F LoV m =
      some ({ m_CoM := com, m_mass := m, m_MoIs := mois, m_isFinal := true }, l) := by
  have hTol := one_le_TolFact F hEps
  obtain ⟨⟨s0, s1, sV, sK⟩, ⟨n1, n2, n3⟩, hr⟩ := (MoIsCoM_eq_some_iff _ _ _ _ _ _ _).1 hMo
  have hmois : mois = (com, mois).2 := rfl
  have hnn : 0 ≤ mois.x ∧ 0 ≤ mois.y ∧ 0 ≤ mois.z := by
    rw [hmois, hr]
    exact ⟨n1, n2, n3⟩
  have hV : m / B.m_rho ≤ B.m_enclVol := by
    rw [div_le_iff₀ hrho, mul_comm, ← hcap]
    exact hm1
  have hV0 : 0 ≤ B.m_enclVol := le_trans sV.le hV
  have hh0 : 0 ≤ B.m_h := le_trans hl0 hl1
  have hc0 : 0 ≤ B.m_propMassCap := le_trans hm0.le hm1
  rw [GetPropCE_eq_some_iff, min_eq_left hV]
  exact ⟨⟨hm0.le, le_trans hm1 (le_mul_of_one_le_right hc0 hTol)⟩, hrho.ne',
    ⟨sV.le, le_trans hV (le_mul_of_one_le_right hV0 hTol)⟩, l, hl,
    ⟨hl0, le_trans hl1 (le_mul_of_one_le_right hh0 hTol)⟩, (min_eq_left hl1).symm,
    ⟨s0.le, s1.le, sK.le⟩, com, mois, hMo, ⟨hm0, hnn⟩, rfl⟩

/-- `MoIsCoM` on a body that `RotationBody::Init` returns with its axis on OX
(`y0 = z0 = 0`): on admissible parameters that satisfy the Cauchy-Schwarz
inequality it returns the CoM `(xR + K/SV, 0, 0)` and the moments
`d * 2*J1` about OX and `d * (J0 + J1 + 2*xR*K + xR^2*SV)` about OY and OZ,
where `xR` is the X co-ordinate of the right axis end. -/
theorem MoIsCoM_OX (F : MathFns K)
    (area vol M alpha x0 : K) (is_left : Bool) (h je0 je1 ke rho : K)
    (jp05 jp04 jp03 jp15 jp14 jp13 jp12 jp11 kp4 kp3 kp2 : K) (B : RotationBody K)
    (hB : RotationBody.Init F area vol M alpha x0 0 0 is_left h je0 je1 ke rho
      jp05 jp04 jp03 jp15 jp14 jp13 jp12 jp11 kp4 kp3 kp2 = some B)
    (J0 J1 Kc V d : K) (h0 : 0 < J0) (h1 : 0 < J1) (hV : 0 < V) (hK : Kc < 0)
    (hCS : Kc ^ 2 ≤ J0 * V) (hd : 0 ≤ d) :
    B.m_right.x = (if is_left then x0 + h else x0) ∧
    B.MoIsCoM J0 J1 Kc V d = some
      (⟨B.m_right.x + Kc / V, 0, 0⟩,
       ⟨d * (2 * J1), d * (J0 + J1 + 2 * B.m_right.x * Kc + B.m_right.x ^ 2 * V),
        d * (J0 + J1 + 2 * B.m_right.x * Kc + B.m_right.x ^ 2 * V)⟩) := by
  obtain ⟨eXY, eXZ, eC, eS, eyz, e1, e2, e3, e4, e5, e6, e7, e8, -, -⟩ :=
    Init_fields_of_some F area vol M alpha x0 0 0 is_left h je0 je1 ke rho
      jp05 jp04 jp03 jp15 jp14 jp13 jp12 jp11 kp4 kp3 kp2 B hB
  obtain ⟨-, eright⟩ := Init_ends_of_some F area vol M alpha x0 0 0 is_left h je0 je1 ke rho
    jp05 jp04 jp03 jp15 jp14 jp13 jp12 jp11 kp4 kp3 kp2 B hB
  obtain ⟨-, -, -, -, -, hcs, -⟩ :=
    (Init_eq_some_iff _ _ _ _ _ _ _ _ _ _ _ _ _ _ _ _ _ _ _ _ _ _ _ _ _ _).1 hB
  clear hB
  obtain ⟨hc, hs⟩ : F.Cos alpha = 1 ∧ F.Sin alpha = 0 := by
    rcases hcs with h6 | h6
    · exact absurd ⟨rfl, rfl⟩ h6
    · exact h6
  have hxR : B.m_right.x = (if is_left then x0 + h else x0) := by
    rw [eright]
    cases is_left <;> simp [hc]
  have hyz : B.m_yzR = 0 := by
    rw [eyz, if_pos rfl, eright]
    cases is_left <;> simp [hs]
  have hXY : B.m_inXY = true := by rw [eXY]; simp
  have hXZ : B.m_inXZ = true := by rw [eXZ]; simp
  simp only [hs, hc, hyz] at e1 e2 e3 e4 e5 e6 e7
  rw [hc] at eC
  rw [hs] at eS
  obtain ⟨hx, hin, -⟩ := MoI_forms_nonneg 0 1 B.m_right.x 0 J0 J1 Kc V h1.le hV hCS
  have ex : B.m_Jx0 * J0 + B.m_Jx1 * J1 + B.m_JxK * Kc + B.m_JxSV * V = 2 * J1 := by
    rw [e1, e2, e3, e4]; ring
  have ein : B.m_Jin0 * J0 + B.m_Jin1 * J1 + B.m_JinK * Kc + B.m_JinSV * V =
      J0 + J1 + 2 * B.m_right.x * Kc + B.m_right.x ^ 2 * V := by
    rw [e5, e6, e7, e8]; ring
  have n1 : 0 ≤ 2 * J1 := mul_nonneg (by norm_num) h1.le
  have n2 : 0 ≤ J0 + J1 + 2 * B.m_right.x * Kc + B.m_right.x ^ 2 * V := by
    have e : (1 : K) ^ 2 * J0 + (1 + 0 ^ 2) * J1 + 2 * 1 * B.m_right.x * Kc +
        B.m_right.x ^ 2 * V = J0 + J1 + 2 * B.m_right.x * Kc + B.m_right.x ^ 2 * V := by ring
    rw [← e]; exact hin
  refine ⟨hxR, ?_⟩
  rw [MoIsCoM_eq_some_iff, hXY, hXZ, ex, eC, eS, hyz]
  simp only [if_true, ein, one_mul, zero_mul, add_zero]
  exact ⟨⟨h0, h1, hV, hK⟩, ⟨mul_nonneg hd n1, mul_nonneg hd n2, mul_nonneg hd n2⟩, trivial⟩

/-- The propellant polynomials of a cylinder (`r = R`) of radius `R` at a level
`l > 0` (`p` stands for pi): their closed forms and signs, the Cauchy-Schwarz
inequality with the propellant volume `p * R^2 * l`, and the axial offset
`K / V = -l/2` of the centroid. -/
theorem cylinder_prop_forms (p R h l : K) (hp : 0 < p) (hR : 0 < R) (hl : 0 < l) :
    ((p / 5 * ((R - R) / h) ^ 2 * l + -p / 2 * ((R - R) / h) * R) * l + p / 3 * R ^ 2) *
        (l ^ 2 * l) = p / 3 * R ^ 2 * l ^ 3 ∧
    (((((p / 20 * (((R - R) / h) ^ 2) ^ 2 * l +
        -p / 4 * (((R - R) / h) ^ 2 * ((R - R) / h)) * R) * l +
        p / 2 * ((R - R) / h) ^ 2 * R ^ 2) * l) +
        -p / 2 * ((R - R) / h) * (R ^ 2 * R)) * l + p / 4 * (R ^ 2) ^ 2) * l =
      p / 4 * R ^ 4 * l ∧
    ((-p / 4 * ((R - R) / h) ^ 2 * l + p * 2 / 3 * ((R - R) / h) * R) * l +
        -p / 2 * R ^ 2) * l ^ 2 = -(p / 2 * R ^ 2 * l ^ 2) ∧
    0 < p / 3 * R ^ 2 * l ^ 3 ∧ 0 < p / 4 * R ^ 4 * l ∧ -(p / 2 * R ^ 2 * l ^ 2) < 0 ∧
    0 < p * R ^ 2 * l ∧
    (-(p / 2 * R ^ 2 * l ^ 2)) ^ 2 ≤ p / 3 * R ^ 2 * l ^ 3 * (p * R ^ 2 * l) ∧
    -(p / 2 * R ^ 2 * l ^ 2) / (p * R ^ 2 * l) = -(l / 2) := by
  have e0 : (R - R) / h = 0 := by rw [sub_self, zero_div]
  rw [e0]
  refine ⟨by ring, by ring, by ring, ?_, ?_, ?_, ?_, ?_, ?_⟩
  · exact mul_pos (mul_pos (div_pos hp (by norm_num)) (pow_pos hR 2)) (pow_pos hl 3)
  · exact mul_pos (mul_pos (div_pos hp (by norm_num)) (pow_pos hR 4)) hl
  · exact neg_neg_of_pos
      (mul_pos (mul_pos (div_pos hp (by norm_num)) (pow_pos hR 2)) (pow_pos hl 2))
  · exact mul_pos (mul_pos hp (pow_pos hR 2)) hl
  · have e : p / 3 * R ^ 2 * l ^ 3 * (p * R ^ 2 * l) - (-(p / 2 * R ^ 2 * l ^ 2)) ^ 2 =
        (p * R ^ 2 * l ^ 2) ^ 2 * (1 / 12) := by ring
    have h4 := mul_nonneg (sq_nonneg (p * R ^ 2 * l ^ 2)) (by norm_num : (0 : K) ≤ 1 / 12)
    rw [← e] at h4
    exact sub_nonneg.1 h4
  · have := hp.ne'
    have := hR.ne'
    have := hl.ne'
    field_simp
    ring

/-- The volume of the propellant in a cylinder of radius `R` and height `h` at
the level `l = h * m / (rho * V)`, `V = p * R^2 * h`, is `m / rho`; and the level
that `LevelOfVol` computes from a volume `p * R^2 * l` is `l`. -/
theorem cylinder_level_forms (p R h rho m : K) (hp : 0 < p) (hR : 0 < R) (hh : 0 < h)
    (hrho : 0 < rho) :
    m / rho = p * R ^ 2 * (h * m / (rho * (p * R ^ 2 * h))) ∧
    (∀ l : K, p * R ^ 2 * l / (p * R ^ 2 * h) * h = l) ∧
    p / 3 * h * (R ^ 2 + R * R + R ^ 2) = p * R ^ 2 * h := by
  have := hp.ne'
  have := hR.ne'
  have := hh.ne'
  have := hrho.ne'
  refine ⟨?_, ?_, by ring⟩
  · field_simp
    ring
  · intro l
    field_simp
    ring

/-- C36. For a cylinder (`TrCone` with equal base diameters `d`) on the OX axis
with left end `x0`, a positive propellant density and every propellant mass
`0 < m <= capacity` (`Eps >= 0`): `GetPropCE(m)` returns, reports the level
`l = h * m / capacity`, and the element returned has the mass `m` and the CoM
`(x0 + h - l/2, 0, 0)`. -/
theorem TrCone_cylinder_GetPropCE (F : MathFns K) (hEps : 0 ≤ F.Eps)
    (x0 d h rho M : K) (T : TrCone K)
    (hT : TrCone.ctor_cylinder F x0 d h rho M = some T) (hrho : 0 < rho)
    (m : K) (hm0 : 0 < m) (hm1 : m ≤ T.base.GetPropMassCap) :
    ∃ R, T.GetPropCE F m = some (R, h * m / T.base.GetPropMassCap) ∧
      R.m_CoM = ⟨x0 + h - h * m / T.base.GetPropMassCap / 2, 0, 0⟩ ∧ R.m_mass = m := by
  have hT' : TrCone.ctor F x0 0 0 0 d d h rho M = some T := hT
  obtain ⟨⟨hh, hd0, -, hd, -⟩, ⟨er, eR, eh, eD, -, -, -⟩, ⟨-, -, hV⟩,
    ⟨ebh, -, eV, erho, ecap⟩, ⟨e05, e04, e03⟩, ⟨e15, e14, e13, e12, e11⟩, ⟨e4, e3, e2⟩⟩ :=
    TrCone_ctor_some F x0 0 0 0 d d h rho M T hT'
  obtain ⟨area, vol, je0, je1, ke, jp05, jp04, jp03, jp15, jp14, jp13, jp12, jp11, kp4, kp3,
    kp2, hInit⟩ := TrCone_ctor_Init F x0 0 0 0 d d h rho M T hT'
  obtain ⟨hpi, -, -, -, -⟩ := TrCone_ctor_geom F x0 0 0 0 d d h rho M T hT'
  clear hT hT'
  have hR : 0 < d / 2 := by
    rcases hd0.lt_or_eq with h0 | h0
    · exact half_pos h0
    · exact absurd ⟨h0.symm, h0.symm⟩ hd
  have hm1' : m ≤ T.base.m_propMassCap := hm1
  have hcap : 0 < T.base.m_propMassCap := lt_of_lt_of_le hm0 hm1'
  have hrho' : 0 < T.base.m_rho := by rw [erho]; exact hrho
  obtain ⟨l, hldef⟩ : ∃ l, l = h * m / T.base.m_propMassCap := ⟨_, rfl⟩
  have hl0 : 0 < l := by rw [hldef]; exact div_pos (mul_pos hh hm0) hcap
  have hl1 : l ≤ h := by
    rw [hldef, div_le_iff₀ hcap]
    exact mul_le_mul_of_nonneg_left hm1' hh.le
  obtain ⟨f1, f2, f3⟩ := cylinder_level_forms F.Pi (d / 2) h rho m hpi hR hh hrho
  have eV' : T.base.m_enclVol = F.Pi * (d / 2) ^ 2 * h := by
    rw [eV, er, eR, eh]; exact f3
  have hvol : m / T.base.m_rho = F.Pi * (d / 2) ^ 2 * l := by
    rw [hldef, ecap, eV', erho]; exact f1
  have hv1 : m / T.base.m_rho ≤ T.base.m_enclVol := by
    rw [hvol, eV']
    exact mul_le_mul_of_nonneg_left hl1 (mul_pos hpi (pow_pos hR 2)).le
  have hlev : T.LevelOfVol F (m / T.base.m_rho) = some l := by
    rw [TrCone_LevelOfVol_eq F T _ (div_pos hm0 hrho').le hv1,
      if_pos (by rw [eD, er, eR, sub_self]), hvol, eV', eh, f2 l]
  obtain ⟨c0, c1, cK, p0, p1, pK, pV, hCS, hoff⟩ :=
    cylinder_prop_forms F.Pi (d / 2) h l hpi hR hl0
  obtain ⟨hxR, hMo⟩ := MoIsCoM_OX F area vol M 0 x0 true h je0 je1 ke rho
    jp05 jp04 jp03 jp15 jp14 jp13 jp12 jp11 kp4 kp3 kp2 T.base hInit
    (F.Pi / 3 * (d / 2) ^ 2 * l ^ 3) (F.Pi / 4 * (d / 2) ^ 4 * l)
    (-(F.Pi / 2 * (d / 2) ^ 2 * l ^ 2)) (F.Pi * (d / 2) ^ 2 * l) rho p0 p1 pV pK hCS hrho.le
  have hG := GetPropCE_of_level F hEps T.base (T.LevelOfVol F) m l hrho'
    (by rw [ecap, erho]) hm0 hm1' hlev
    hl0.le (by rw [ebh]; exact hl1) _ _
    (by
      rw [e05, e04, e03, e15, e14, e13, e12, e11, e4, e3, e2, er, eR, eh, c0, c1, cK, hvol,
        erho]
      exact hMo)
  obtain ⟨R, hR', hcom, hmass⟩ : ∃ R, T.base.GetPropCE F (T.LevelOfVol F) m = some (R, l) ∧
      R.m_CoM = ⟨T.base.m_right.x +
        -(F.Pi / 2 * (d / 2) ^ 2 * l ^ 2) / (F.Pi * (d / 2) ^ 2 * l), 0, 0⟩ ∧
      R.m_mass = m := ⟨_, hG, rfl, rfl⟩
  clear hG hMo hInit
  rw [hoff, hxR, if_pos rfl, hldef] at hcom
  rw [hldef] at hR'
  refine ⟨R, hR', ?_, hmass⟩
  rw [hcom]
  congr 1
  show x0 + h + -(h * m / T.base.m_propMassCap / 2) =
    x0 + h - h * m / T.base.m_propMassCap / 2
  ring

/-- Witness of C36: the cylinder of radius 1 and height 2 on the OX axis with the
density 1000, filled to its capacity. -/
theorem TrCone_cylinder_GetPropCE_witness :
    let F : MathFns ℝ :=
      ⟨Real.pi, (1 / 2) ^ 52, Real.cos, Real.sin, Real.sqrt, fun x => x ^ ((3 : ℝ)⁻¹)⟩
    ∃ T, TrCone.ctor_cylinder F 0 2 2 1000 0 = some T ∧ 0 < T.base.GetPropMassCap ∧
      ∃ R, T.GetPropCE F T.base.GetPropMassCap =
          some (R, 2 * T.base.GetPropMassCap / T.base.GetPropMassCap) ∧
        R.m_CoM = ⟨0 + 2 - 2 * T.base.GetPropMassCap / T.base.GetPropMassCap / 2, 0, 0⟩ ∧
        R.m_mass = T.base.GetPropMassCap := by
  intro F
  obtain ⟨hpi, hc, hs, hsq, -, -, -⟩ := real_MathFns_laws
  obtain ⟨T, hT⟩ := TrCone_ctor_OX_isSome F hpi hc hs hsq 0 2 2 2 1000 0 (by norm_num)
    (by norm_num) (by norm_num) (by norm_num) (by norm_num) le_rfl
  obtain ⟨-, -, ⟨-, -, hV⟩, ⟨-, -, -, -, ecap⟩, -⟩ :=
    TrCone_ctor_some F 0 0 0 0 2 2 2 1000 0 T hT
  have hcap : 0 < T.base.GetPropMassCap := by
    show 0 < T.base.m_propMassCap
    rw [ecap]
    exact mul_pos (by norm_num) hV
  exact ⟨T, hT, hcap, TrCone_cylinder_GetPropCE F (by positivity) 0 2 2 1000 0 T hT
    (by norm_num) T.base.GetPropMassCap hcap le_rfl⟩

/-- C39 fails on the code. For every left-facing `SpherSegm` that the
constructor returns with `2 * h < R` (a shallow segment, `R` the sphere radius)
and `Eps >= 2^-52`: at the volume 0 the right-facing solver for
`enclosedVolume - 0` returns a level strictly above `h` (the Halley iterates
come down from `1/2` to the root `h / R < 1/2` and stop above it), so
`res = h - level` is negative, the final assertion of `LevelOfVolLeft` fails and
the level solver returns nothing. -/
theorem SpherSegm_LevelOfVolLeft_zero_fails (F : MathFns K)
    (x0 y0 z0 alpha d h rho M : K) (S : SpherSegm K)
    (hS : SpherSegm.ctor F false x0 y0 z0 alpha d h rho M = some S)
    (hEps : (1 / 2) ^ 52 ≤ F.Eps) (hshallow : 2 * h < S.m_R) :
    (∃ r, S.LevelOfVolRight F (S.base.GetEnclVol - 0) = some r ∧ h < r) ∧
    S.LevelOfVol F 0 = none := by
  obtain ⟨hpi, hh, hR, eR3, efr, eh, hs0, hs1, hV, eV⟩ :=
    SpherSegm_ctor_geom F false x0 y0 z0 alpha d h rho M S hS
  clear hS
  have hs : h / S.m_R < 1 / 2 := by
    rw [div_lt_iff₀ hR]
    linarith
  obtain ⟨y, hy, hA, -, -, hne⟩ :=
    SpherSegm_LevelOfVolRight_root F hpi hEps S hR eR3 (h / S.m_R) S.base.m_enclVol
      hs0 hs1 eV
  have hys : h / S.m_R < y := lt_of_le_of_ne (hA hs.le).1 (Ne.symm (hne hs.ne))
  have hlev : h < y * S.m_R := by
    rw [div_lt_iff₀ hR] at hys
    exact hys
  have hright : S.LevelOfVolRight F (S.base.GetEnclVol - 0) = some (y * S.m_R) := by
    rw [sub_zero]; exact hy
  refine ⟨⟨_, hright, hlev⟩, ?_⟩
  have hLoV : S.LevelOfVol F 0 = S.LevelOfVolLeft F 0 := by
    unfold SpherSegm.LevelOfVol
    rw [efr]
    simp only [Bool.false_eq_true, if_false]
  rw [hLoV]
  cases hl : S.LevelOfVolLeft F 0 with
  | none => rfl
  | some l =>
    obtain ⟨-, r, hr, ⟨hres, -⟩, -⟩ := (LevelOfVolLeft_eq_some_iff F S 0 l).1 hl
    rw [sub_zero, hy] at hr
    have hr' : y * S.m_R = r := Option.some.inj hr
    rw [eh, ← hr'] at hres
    exact absurd hres (not_le.2 (sub_neg.2 hlev))

/-- Witness of the failure of C39: the left-facing segment of base diameter 2
and height 9/20 on the OX axis (sphere radius 481/360). -/
theorem SpherSegm_LevelOfVolLeft_zero_fails_witness :
    let F : MathFns ℝ :=
      ⟨Real.pi, (1 / 2) ^ 52, Real.cos, Real.sin, Real.sqrt, fun x => x ^ ((3 : ℝ)⁻¹)⟩
    ∃ S, SpherSegm.ctor F false 0 0 0 0 2 (9 / 20) 1000 0 = some S ∧
      (∃ r, S.LevelOfVolRight F (S.base.GetEnclVol - 0) = some r ∧ 9 / 20 < r) ∧
      S.LevelOfVol F 0 = none := by
  intro F
  obtain ⟨hpi, hc, hs, -, -, -, hEps⟩ := real_MathFns_laws
  obtain ⟨S, hS⟩ := SpherSegm_ctor_OX_isSome F hpi (by positivity) hc hs false 0 2 (9 / 20)
    1000 0 (by norm_num) (by norm_num) (by norm_num) (by norm_num) le_rfl
  have eR : S.m_R = 481 / 360 := by
    rw [(SpherSegm_ctor_some F false 0 0 0 0 2 (9 / 20) 1000 0 S hS).2.2.1.2.1]
    norm_num
  exact ⟨S, hS, SpherSegm_LevelOfVolLeft_zero_fails F 0 0 0 0 2 (9 / 20) 1000 0 S hS hEps
    (by rw [eR]; norm_num)⟩

end Bodies

/-! ### The volume-to-level path of `TrCone` in binary64 arithmetic -/

section Binary64Facts

open Binary64

variable {K : Type} [LinearOrderedField K]

/-- The cube is strictly increasing: a smaller cube has the smaller base. -/
theorem cbrt_lt_of_cube_lt (c b : K) (h : c ^ 3 < b ^ 3) : c < b :=
  (Odd.strictMono_pow (by decide : Odd 3)).lt_iff_lt.1 h

variable [FloorRing K]

/-- `roundHalfEven q` is the integer `m` when `q` is less than a half away from
it. -/
theorem roundHalfEven_eq (q : K) (m : ℤ) (h1 : (m : K) - 1 / 2 < q) (h2 : q < m + 1 / 2) :
    roundHalfEven q = m := by
  unfold roundHalfEven
  rcases le_or_lt (m : K) q with h | h
  · have hf : ⌊q⌋ = m := Int.floor_eq_iff.2 ⟨h, by linarith⟩
    simp only [hf]
    rw [if_pos (by linarith)]
  · have hf : ⌊q⌋ = m - 1 :=
      Int.floor_eq_iff.2 ⟨by push_cast; linarith, by push_cast; linarith⟩
    simp only [hf]
    rw [if_neg (by push_cast; linarith), if_pos (by push_cast; linarith)]
    ring

/-- `roundHalfEven q` is the even integer `m` when `q` is at most a half away
from it: a tie goes to the even neighbour. -/
theorem roundHalfEven_eq_of_even (q : K) (m : ℤ) (hm : m % 2 = 0)
    (h1 : (m : K) - 1 / 2 ≤ q) (h2 : q ≤ m + 1 / 2) : roundHalfEven q = m := by
  rcases eq_or_lt_of_le h1 with e1 | l1
  · have hf : ⌊q⌋ = m - 1 :=
      Int.floor_eq_iff.2 ⟨by push_cast; linarith, by push_cast; linarith⟩
    have hr : q - ((m - 1 : ℤ) : K) = 1 / 2 := by push_cast; linarith
    unfold roundHalfEven
    simp only [hf, hr, lt_irrefl, if_false]
    rw [if_neg (by omega)]
    ring
  · rcases eq_or_lt_of_le h2 with e2 | l2
    · have hf : ⌊q⌋ = m := Int.floor_eq_iff.2 ⟨by linarith, by linarith⟩
      have hr : q - (m : K) = 1 / 2 := by linarith
      unfold roundHalfEven
      simp only [hf, hr, lt_irrefl, if_false]
      rw [if_pos hm]
    · exact roundHalfEven_eq q m l1 l2

/-- `roundHalfEven q` is at most a half away from `q`. -/
theorem roundHalfEven_err (q : K) : |(roundHalfEven q : K) - q| ≤ 1 / 2 := by
  unfold roundHalfEven
  have h1 := Int.floor_le q
  have h2 := Int.lt_floor_add_one q
  simp only
  split_ifs with a b c
  · rw [abs_le]; constructor <;> linarith
  · rw [abs_le]; constructor <;> push_cast <;> linarith
  · rw [abs_le]; constructor <;> linarith
  · rw [abs_le]; constructor <;> push_cast <;> linarith

/-- The binary exponent of `x`: `Int.log 2 |x| = e + 52` when
`2 ^ (e + 52) <= |x| < 2 ^ (e + 53)`. -/
theorem Int_log_two_eq (x : K) (e : ℤ) (hlo : (2 : K) ^ (e + 52) ≤ |x|)
    (hhi : |x| < 2 ^ (e + 53)) : Int.log 2 |x| = e + 52 := by
  have hpos : 0 < |x| := lt_of_lt_of_le (by positivity) hlo
  apply le_antisymm
  · have := (Int.lt_zpow_iff_log_lt (R := K) (b := 2) (by norm_num) hpos (x := e + 53)).1
      (by exact_mod_cast hhi)
    omega
  · exact (Int.zpow_le_iff_le_log (R := K) (b := 2) (by norm_num) hpos).1
      (by exact_mod_cast hlo)

/-- Zero is stored as zero. -/
theorem RN_eq_zero (x : K) (h : x = 0) : RN x = 0 := by
  unfold RN; rw [if_pos h]

/-- The rounding of `x`, of unit in the last place `u = 2 ^ e`: the multiple
`m * u` less than half a unit away from `x`. -/
theorem RN_eq (x : K) (m e : ℤ) (u : K) (hu : u = 2 ^ e)
    (hlo : 2 ^ 52 * u ≤ |x|) (hhi : |x| < 2 ^ 53 * u)
    (h1 : (m - 1 / 2) * u < x) (h2 : x < (m + 1 / 2) * u) : RN x = m * u := by
  have hu0 : 0 < u := by rw [hu]; positivity
  have hx : x ≠ 0 := by
    intro h; rw [h, abs_zero] at hlo
    have : 0 < 2 ^ 52 * u := by positivity
    linarith
  have hl : Int.log 2 |x| = e + 52 := by
    apply Int_log_two_eq
    · rw [zpow_add₀ (by norm_num), ← hu, mul_comm]; exact_mod_cast hlo
    · rw [zpow_add₀ (by norm_num), ← hu, mul_comm]; exact_mod_cast hhi
  unfold RN
  rw [if_neg hx]
  simp only [hl, add_sub_cancel_right, ← hu]
  rw [roundHalfEven_eq (x / u) m]
  · rw [lt_div_iff₀ hu0]; exact h1
  · rw [div_lt_iff₀ hu0]; exact h2

/-- The rounding of `x` in a tie: the even multiple `m * u` at most half a unit
away from `x`. -/
theorem RN_eq_of_even (x : K) (m e : ℤ) (u : K) (hu : u = 2 ^ e) (hm : m % 2 = 0)
    (hlo : 2 ^ 52 * u ≤ |x|) (hhi : |x| < 2 ^ 53 * u)
    (h1 : (m - 1 / 2) * u ≤ x) (h2 : x ≤ (m + 1 / 2) * u) : RN x = m * u := by
  have hu0 : 0 < u := by rw [hu]; positivity
  have hx : x ≠ 0 := by
    intro h; rw [h, abs_zero] at hlo
    have : 0 < 2 ^ 52 * u := by positivity
    linarith
  have hl : Int.log 2 |x| = e + 52 := by
    apply Int_log_two_eq
    · rw [zpow_add₀ (by norm_num), ← hu, mul_comm]; exact_mod_cast hlo
    · rw [zpow_add₀ (by norm_num), ← hu, mul_comm]; exact_mod_cast hhi
  unfold RN
  rw [if_neg hx]
  simp only [hl, add_sub_cancel_right, ← hu]
  rw [roundHalfEven_eq_of_even (x / u) m hm]
  · rw [le_div_iff₀ hu0]; exact h1
  · rw [div_le_iff₀ hu0]; exact h2

/-- Evaluation of `RN` at a positive `x`: the result `y = m * 2 ^ e`, given that
`2 ^ 52 <= x / 2 ^ e < 2 ^ 53` and that `x` is less than half a unit `u = 2 ^ e`
away from `y`. -/
theorem RN_val (x y u : K) (m e : ℤ) (hu : u = 2 ^ e) (hy : y = m * u)
    (hlo : 2 ^ 52 * u ≤ x) (hhi : x < 2 ^ 53 * u)
    (h1 : y - u / 2 < x) (h2 : x < y + u / 2) : RN x = y := by
  have hu0 : 0 < u := by rw [hu]; positivity
  have hx : 0 < x := lt_of_lt_of_le (by positivity) hlo
  rw [hy] at h1 h2 ⊢
  apply RN_eq x m e u hu
  · rw [abs_of_pos hx]; exact hlo
  · rw [abs_of_pos hx]; exact hhi
  · linarith
  · linarith

/-- Evaluation of `RN` at a positive `x` in a tie: the result `y = m * 2 ^ e`
with `m` even, `x` being at most half a unit away from `y`. -/
theorem RN_val_even (x y u : K) (m e : ℤ) (hu : u = 2 ^ e) (hy : y = m * u)
    (hm : m % 2 = 0) (hlo : 2 ^ 52 * u ≤ x) (hhi : x < 2 ^ 53 * u)
    (h1 : y - u / 2 ≤ x) (h2 : x ≤ y + u / 2) : RN x = y := by
  have hu0 : 0 < u := by rw [hu]; positivity
  have hx : 0 < x := lt_of_lt_of_le (by positivity) hlo
  rw [hy] at h1 h2 ⊢
  apply RN_eq_of_even x m e u hu hm
  · rw [abs_of_pos hx]; exact hlo
  · rw [abs_of_pos hx]; exact hhi
  · linarith
  · linarith

/-- Evaluation of `RN` at a negative `x`. -/
theorem RN_val_neg (x y u : K) (m e : ℤ) (hu : u = 2 ^ e) (hy : y = m * u)
    (hlo : x ≤ -(2 ^ 52 * u)) (hhi : -(2 ^ 53 * u) < x)
    (h1 : y - u / 2 < x) (h2 : x < y + u / 2) : RN x = y := by
  have hu0 : 0 < u := by rw [hu]; positivity
  have hx : x < 0 := lt_of_le_of_lt hlo (by linarith [show 0 < 2 ^ 52 * u by positivity])
  rw [hy] at h1 h2 ⊢
  apply RN_eq x m e u hu
  · rw [abs_of_neg hx]; linarith
  · rw [abs_of_neg hx]; linarith
  · linarith
  · linarith

/-- The relative error of a rounding is at most `2^-53`. -/
theorem RN_err (x : K) : |RN x - x| ≤ |x| / 2 ^ 53 := by
  unfold RN
  split_ifs with h
  · simp [h]
  · have hpos : 0 < |x| := abs_pos.2 h
    simp only
    set e : ℤ := Int.log 2 |x| - 52 with he
    have hu0 : (0 : K) < 2 ^ e := by positivity
    have h1 := roundHalfEven_err (x / 2 ^ e)
    have h2 : (2 : K) ^ (e + 52) ≤ |x| := by
      have := Int.zpow_log_le_self (R := K) (b := 2) (by norm_num) hpos
      rw [he, sub_add_cancel]; exact_mod_cast this
    rw [zpow_add₀ (by norm_num)] at h2
    have h3 : (roundHalfEven (x / 2 ^ e) : K) * 2 ^ e - x =
        ((roundHalfEven (x / 2 ^ e) : K) - x / 2 ^ e) * 2 ^ e := by
      field_simp
    rw [h3, abs_mul, abs_of_pos hu0]
    have h4 : |(roundHalfEven (x / 2 ^ e) : K) - x / 2 ^ e| * 2 ^ e ≤ 1 / 2 * 2 ^ e :=
      mul_le_mul_of_nonneg_right h1 hu0.le
    have h5 : (2 : K) ^ e * 2 ^ (52 : ℤ) = 2 ^ e * 2 ^ 52 := by norm_num
    rw [h5] at h2
    rw [le_div_iff₀ (by positivity)]
    nlinarith

/-- A non-negative number loses at most the fraction `2^-53` in rounding. -/
theorem RN_ge (x : K) (hx : 0 ≤ x) : x * (1 - 1 / 2 ^ 53) ≤ RN x := by
  have h := RN_err x
  rw [abs_of_nonneg hx, abs_le] at h
  linarith [h.1]

/-- A non-negative number gains at most the fraction `2^-53` in rounding. -/
theorem RN_le (x : K) (hx : 0 ≤ x) : RN x ≤ x * (1 + 1 / 2 ^ 53) := by
  have h := RN_err x
  rw [abs_of_nonneg hx, abs_le] at h
  linarith [h.2]

/-- The Cardano quotient `(m_Rh - c) / m_deltaR` with a cube root `c <= -t`:
rounded twice, it is at least `(m_Rh + t) / m_deltaR * (1 - 2^-53)^2`. -/
theorem RN_cardano_lower (Rh dR c t : K) (hRh : 0 ≤ Rh) (hdR : 0 < dR) (ht : 0 ≤ t)
    (hc : c ≤ -t) : (Rh + t) / dR * (1 - 1 / 2 ^ 53) ^ 2 ≤ RN (RN (Rh - c) / dR) := by
  have hd : (0 : K) < 1 - 1 / 2 ^ 53 := by norm_num
  have h0 : 0 ≤ Rh - c := by linarith
  have h1 : (Rh - c) * (1 - 1 / 2 ^ 53) ≤ RN (Rh - c) := RN_ge _ h0
  have h2 : (Rh + t) * (1 - 1 / 2 ^ 53) ≤ RN (Rh - c) :=
    le_trans (mul_le_mul_of_nonneg_right (by linarith) hd.le) h1
  have h3 : 0 ≤ RN (Rh - c) := le_trans (mul_nonneg (by linarith) hd.le) h2
  have h4 : RN (Rh - c) / dR * (1 - 1 / 2 ^ 53) ≤ RN (RN (Rh - c) / dR) :=
    RN_ge _ (div_nonneg h3 hdR.le)
  have h5 : (Rh + t) * (1 - 1 / 2 ^ 53) / dR ≤ RN (Rh - c) / dR :=
    div_le_div_of_nonneg_right h2 hdR.le
  have h6 := mul_le_mul_of_nonneg_right h5 hd.le
  calc (Rh + t) / dR * (1 - 1 / 2 ^ 53) ^ 2
      = (Rh + t) * (1 - 1 / 2 ^ 53) / dR * (1 - 1 / 2 ^ 53) := by ring
    _ ≤ RN (Rh - c) / dR * (1 - 1 / 2 ^ 53) := h6
    _ ≤ _ := h4

/-- The Cardano quotient `(m_Rh - c) / m_deltaR` with a cube root
`t <= c <= m_Rh`: rounded twice, it is at most
`(m_Rh - t) / m_deltaR * (1 + 2^-53)^2`. -/
theorem RN_cardano_upper (Rh dR c t : K) (hdR : 0 < dR) (hc : t ≤ c) (hcR : c ≤ Rh) :
    RN (RN (Rh - c) / dR) ≤ (Rh - t) / dR * (1 + 1 / 2 ^ 53) ^ 2 := by
  have hd : (0 : K) < 1 + 1 / 2 ^ 53 := by norm_num
  have h0 : 0 ≤ Rh - c := by linarith
  have h1 : RN (Rh - c) ≤ (Rh - c) * (1 + 1 / 2 ^ 53) := RN_le _ h0
  have h2 : RN (Rh - c) ≤ (Rh - t) * (1 + 1 / 2 ^ 53) :=
    le_trans h1 (mul_le_mul_of_nonneg_right (by linarith) hd.le)
  have h3 : 0 ≤ RN (Rh - c) := le_trans (mul_nonneg h0 (by norm_num)) (RN_ge _ h0)
  have h4 : RN (RN (Rh - c) / dR) ≤ RN (Rh - c) / dR * (1 + 1 / 2 ^ 53) :=
    RN_le _ (div_nonneg h3 hdR.le)
  have h5 : RN (Rh - c) / dR ≤ (Rh - t) * (1 + 1 / 2 ^ 53) / dR :=
    div_le_div_of_nonneg_right h2 hdR.le
  have h6 := mul_le_mul_of_nonneg_right h5 hd.le
  calc RN (RN (Rh - c) / dR) ≤ RN (Rh - c) / dR * (1 + 1 / 2 ^ 53) := h4
    _ ≤ (Rh - t) * (1 + 1 / 2 ^ 53) / dR * (1 + 1 / 2 ^ 53) := h6
    _ = _ := by ring

/-- With `Eps<double> = 2^-52` the constant `TolFact` is `1 + 100 * 2^-52`
exactly. -/
theorem Binary64_TolFact_eq (F : MathFns K) (hEps : F.Eps = 1 / 2 ^ 52) :
    Binary64.TolFact F = 1125899906842649 / 2 ^ 50 := by
  have e1 : RN (100 * (1 / 2 ^ 52) : K) = (25 / 2 ^ 50) :=
    RN_val _ _ (1 / 2 ^ 98) (7036874417766400) (-98) (by norm_num) (by norm_num)
      (by norm_num) (by norm_num) (by norm_num) (by norm_num)
  have e2 : RN (1 + (25 / 2 ^ 50) : K) = (1125899906842649 / 2 ^ 50) :=
    RN_val _ _ (1 / 2 ^ 52) (4503599627370596) (-52) (by norm_num) (by norm_num)
      (by norm_num) (by norm_num) (by norm_num) (by norm_num)
  simp only [Binary64.TolFact, Binary64.Tol, hEps, e1, e2]

/-- `GetPropCE` does not reach the store of the level when the level that
`LevelOfVol` returns exceeds `m_h * TolFact`: the assertion
`l <= m_h * TolFact` fails (or one before it has). -/
theorem Binary64_GetPropCE_level_none (F : MathFns K) (T : Binary64.TrCone K) (m l : K)
    (hl : T.LevelOfVol F (min (RN (m / T.m_rho)) T.m_enclVol) = some l)
    (hgt : RN (T.m_h * Binary64.TolFact F) < l) : T.GetPropCE_level F m = none := by
  unfold Binary64.TrCone.GetPropCE_level assertion
  simp only [hl, Option.some_bind, not_le.2 hgt, and_false, if_false, ite_self]

/-- The cube root on the reals, odd: `x ^ (1/3)` for `x >= 0` and
`-((-x) ^ (1/3))` for `x < 0`; its cube is `x`. -/
theorem real_cbrt_cube (x : ℝ) :
    (if 0 ≤ x then x ^ ((3 : ℝ)⁻¹) else -((-x) ^ ((3 : ℝ)⁻¹))) ^ 3 = x := by
  split_ifs with h
  · have e := Real.rpow_inv_natCast_pow h (by norm_num : (3 : ℕ) ≠ 0)
    simpa using e
  · have h0 : 0 ≤ -x := by linarith [not_le.1 h]
    have e := Real.rpow_inv_natCast_pow h0 (by norm_num : (3 : ℕ) ≠ 0)
    have e2 : ((-x) ^ ((3 : ℝ)⁻¹)) ^ 3 = -x := by simpa using e
    have e3 : (-((-x) ^ ((3 : ℝ)⁻¹))) ^ 3 = -(((-x) ^ ((3 : ℝ)⁻¹)) ^ 3) := by ring
    rw [e3, e2, neg_neg]

/-- The constants of binary64 and an exact cube root on the reals: the value
`884279719003555 / 2^48` taken for `Pi<double>` is the rounding of `π`, and the
cube of the cube root is its argument. -/
theorem real_Binary64_laws :
    let F : MathFns ℝ :=
      ⟨884279719003555 / 2 ^ 48, 1 / 2 ^ 52, Real.cos, Real.sin, Real.sqrt,
        fun x => if 0 ≤ x then x ^ ((3 : ℝ)⁻¹) else -((-x) ^ ((3 : ℝ)⁻¹))⟩
    F.Pi = Binary64.RN Real.pi ∧ ∀ x, |F.CbRt x ^ 3 - x| ≤ |x| / 2 ^ 40 := by
  intro F
  constructor
  · symm
    have h1 := Real.pi_gt_d20
    have h2 := Real.pi_lt_d20
    exact RN_val _ _ (1 / 2 ^ 51) 7074237752028440 (-51) (by norm_num) (by norm_num)
      (le_trans (by norm_num) h1.le) (lt_trans h2 (by norm_num))
      (lt_trans (by norm_num) h1) (lt_trans h2 (by norm_num))
  · intro x
    have e : F.CbRt x ^ 3 = x := real_cbrt_cube x
    rw [e, sub_self, abs_zero]
    positivity

/-- The fields of `TrCone(d0 = 0, d1 = 7 / 2, h = 9 / 2, rho = 1000)` in
binary64: the roundings of the constructor, one by one. -/
theorem Binary64_ctor_fields_A (F : MathFns K)
    (hPi : F.Pi = 884279719003555 / 2 ^ 48) :
    Binary64.TrCone.ctor_fields F 0 (7 / 2) (9 / 2) 1000 =
      { m_h := 9 / 2, m_deltaR := 7 / 4, m_clVol := 2381300805131285 / 2 ^ 46
        m_Rh := 63 / 8, m_Rh3 := 250047 / 512
        m_enclVol := 4062159959172581 / 2 ^ 48, m_rho := 1000
        m_propMassCap := 7933906170258947 / 2 ^ 39 } := by
  have e1 : RN (0 / 2 : K) = 0 := RN_eq_zero _ (by norm_num)
  have e2 : RN ((7 / 2) / 2 : K) =
      (7 / 4) :=
    RN_val _ _ (1 / 2 ^ 52) (7881299347898368) (-52) (by norm_num) (by norm_num)
      (by norm_num) (by norm_num) (by norm_num) (by norm_num)
  have e3 : RN ((7 / 4) - 0 : K) =
      (7 / 4) :=
    RN_val _ _ (1 / 2 ^ 52) (7881299347898368) (-52) (by norm_num) (by norm_num)
      (by norm_num) (by norm_num) (by norm_num) (by norm_num)
  have e4 : RN ((9 / 2) * (9 / 2) : K) =
      (81 / 4) :=
    RN_val _ _ (1 / 2 ^ 48) (5699868278390784) (-48) (by norm_num) (by norm_num)
      (by norm_num) (by norm_num) (by norm_num) (by norm_num)
  have e5 : RN (3 / (884279719003555 / 2 ^ 48) : K) =
      (2150310427208497 / 2 ^ 51) :=
    RN_val _ _ (1 / 2 ^ 53) (8601241708833988) (-53) (by norm_num) (by norm_num)
      (by norm_num) (by norm_num) (by norm_num) (by norm_num)
  have e6 : RN ((2150310427208497 / 2 ^ 51) * (81 / 4) : K) =
      (1360743317217877 / 2 ^ 46) :=
    RN_val _ _ (1 / 2 ^ 48) (5442973268871508) (-48) (by norm_num) (by norm_num)
      (by norm_num) (by norm_num) (by norm_num) (by norm_num)
  have e7 : RN ((1360743317217877 / 2 ^ 46) * (7 / 4) : K) =
      (2381300805131285 / 2 ^ 46) :=
    RN_val_even _ _ (1 / 2 ^ 47) (4762601610262570) (-47) (by norm_num) (by norm_num) (by decide)
      (by norm_num) (by norm_num) (by norm_num) (by norm_num)
  have e8 : RN ((7 / 4) * (9 / 2) : K) =
      (63 / 8) :=
    RN_val _ _ (1 / 2 ^ 50) (8866461766385664) (-50) (by norm_num) (by norm_num)
      (by norm_num) (by norm_num) (by norm_num) (by norm_num)
  have e9 : RN ((63 / 8) * (63 / 8) : K) =
      (3969 / 64) :=
    RN_val _ _ (1 / 2 ^ 47) (8727923301285888) (-47) (by norm_num) (by norm_num)
      (by norm_num) (by norm_num) (by norm_num) (by norm_num)
  have e10 : RN ((3969 / 64) * (63 / 8) : K) =
      (250047 / 512) :=
    RN_val _ _ (1 / 2 ^ 44) (8591549499703296) (-44) (by norm_num) (by norm_num)
      (by norm_num) (by norm_num) (by norm_num) (by norm_num)
  have e11 : RN ((7 / 4) * (7 / 4) : K) =
      (49 / 16) :=
    RN_val _ _ (1 / 2 ^ 51) (6896136929411072) (-51) (by norm_num) (by norm_num)
      (by norm_num) (by norm_num) (by norm_num) (by norm_num)
  have e12 : RN (0 * 0 : K) = 0 := RN_eq_zero _ (by norm_num)
  have e13 : RN ((884279719003555 / 2 ^ 48) / 3 : K) =
      (4716158501352293 / 2 ^ 52) :=
    RN_val _ _ (1 / 2 ^ 52) (4716158501352293) (-52) (by norm_num) (by norm_num)
      (by norm_num) (by norm_num) (by norm_num) (by norm_num)
  have e14 : RN ((4716158501352293 / 2 ^ 52) * (9 / 2) : K) =
      (2652839157010665 / 2 ^ 49) :=
    RN_val _ _ (1 / 2 ^ 50) (5305678314021330) (-50) (by norm_num) (by norm_num)
      (by norm_num) (by norm_num) (by norm_num) (by norm_num)
  have e15 : RN ((7 / 4) * 0 : K) = 0 := RN_eq_zero _ (by norm_num)
  have e16 : RN ((49 / 16) + 0 : K) =
      (49 / 16) :=
    RN_val _ _ (1 / 2 ^ 51) (6896136929411072) (-51) (by norm_num) (by norm_num)
      (by norm_num) (by norm_num) (by norm_num) (by norm_num)
  have e17 : RN ((2652839157010665 / 2 ^ 49) * (49 / 16) : K) =
      (4062159959172581 / 2 ^ 48) :=
    RN_val _ _ (1 / 2 ^ 49) (8124319918345162) (-49) (by norm_num) (by norm_num)
      (by norm_num) (by norm_num) (by norm_num) (by norm_num)
  have e18 : RN (1000 * (4062159959172581 / 2 ^ 48) : K) =
      (7933906170258947 / 2 ^ 39) :=
    RN_val _ _ (1 / 2 ^ 39) (7933906170258947) (-39) (by norm_num) (by norm_num)
      (by norm_num) (by norm_num) (by norm_num) (by norm_num)
  simp only [Binary64.TrCone.ctor_fields, hPi, e1, e2, e3, e4, e5, e6, e7, e8, e9, e10, e11,
    e12, e13, e14, e15, e16, e17, e18]

/-- On `TrCone(d0 = 0, d1 = 7 / 2, h = 9 / 2, rho = 1000)` at the enclosed
volume, binary64: the product `m_clVol * a_v` rounds to the number next above
`m_Rh3`, the argument of the cube root is `-2^-44` (it is 0 in exact
arithmetic), its cube root is below `-2^-15`, and the level that `LevelOfVol`
returns is above `h + 2^-16`. -/
theorem Binary64_level_A (F : MathFns K)
    (hPi : F.Pi = 884279719003555 / 2 ^ 48)
    (hcb : ∀ x : K, |F.CbRt x ^ 3 - x| ≤ |x| / 2 ^ 40) :
    ∃ l, (Binary64.TrCone.ctor_fields F 0 (7 / 2) (9 / 2) 1000).LevelOfVol F
        (Binary64.TrCone.ctor_fields F 0 (7 / 2) (9 / 2) 1000).m_enclVol = some l ∧
      9 / 2 + 1 / 2 ^ 16 ≤ l := by
  have f1 : RN ((2381300805131285 / 2 ^ 46) * (4062159959172581 / 2 ^ 48) : K) =
      (8591549499703297 / 2 ^ 44) :=
    RN_val _ _ (1 / 2 ^ 44) (8591549499703297) (-44) (by norm_num) (by norm_num)
      (by norm_num) (by norm_num) (by norm_num) (by norm_num)
  have f2 : RN ((250047 / 512) - (8591549499703297 / 2 ^ 44) : K) =
      (-(1 / 2 ^ 44)) :=
    RN_val_neg _ _ (1 / 2 ^ 96) (-4503599627370496) (-96) (by norm_num) (by norm_num)
      (by norm_num) (by norm_num) (by norm_num) (by norm_num)
  have hc : F.CbRt (-(1 / 2 ^ 44)) ≤ -(1 / 2 ^ 15) := by
    have h := hcb (-(1 / 2 ^ 44))
    rw [abs_neg, abs_of_pos (by norm_num : (0 : K) < (1 / 2 ^ 44)), abs_le] at h
    apply le_of_lt
    apply cbrt_lt_of_cube_lt
    have h1 : (-(1 / 2 ^ 15) : K) ^ 3 = -(1 / 2 ^ 45) := by norm_num
    rw [h1]
    have h2 : ((1 / 2 ^ 44) / 2 ^ 40 : K) - (1 / 2 ^ 44) < -(1 / 2 ^ 45) := by norm_num
    linarith [h.2]
  have hb := RN_cardano_lower (63 / 8) (7 / 4) (F.CbRt (-(1 / 2 ^ 44))) (1 / 2 ^ 15)
    (by norm_num) (by norm_num) (by norm_num) hc
  rw [Binary64_ctor_fields_A F hPi]
  refine ⟨_, ?_, le_trans (by norm_num) hb⟩
  unfold Binary64.TrCone.LevelOfVol assertion
  simp only [IsNeg, IsZero, f1, f2]
  rw [if_pos ⟨by norm_num, le_refl _⟩, if_neg (by norm_num)]

/-- C17 fails on the code. On the full cone
`TrCone(d0 = 0, d1 = 3.5, h = 4.5, rho = 1000)`, in binary64 arithmetic
(`Pi<double>` and `Eps<double>` the binary64 constants, the cube root any
function whose cube is within the relative error `2^-40` of its argument),
`GetPropCE(GetPropMassCap())` does not return: the mass and the volume pass
their assertions, the volume is the enclosed volume, `LevelOfVol` returns a
level above `m_h * TolFact`, and the assertion `l <= m_h * TolFact` fails. -/
theorem Binary64_GetPropCE_capacity_fails (F : MathFns K)
    (hPi : F.Pi = 884279719003555 / 2 ^ 48)
    (hEps : F.Eps = 1 / 2 ^ 52)
    (hcb : ∀ x : K, |F.CbRt x ^ 3 - x| ≤ |x| / 2 ^ 40) :
    let T := Binary64.TrCone.ctor_fields F 0 (7 / 2) (9 / 2) 1000
    T.m_propMassCap ≤ Binary64.RN (T.m_propMassCap * Binary64.TolFact F) ∧
    Binary64.RN (T.m_propMassCap / T.m_rho) = T.m_enclVol ∧
    T.m_enclVol ≤ Binary64.RN (T.m_enclVol * Binary64.TolFact F) ∧
    (∃ l, T.LevelOfVol F T.m_enclVol = some l ∧
      Binary64.RN (T.m_h * Binary64.TolFact F) < l) ∧
    T.GetPropCE_level F T.m_propMassCap = none := by
  intro T
  obtain ⟨l, hl, hb⟩ := Binary64_level_A F hPi hcb
  have hT : T = _ := Binary64_ctor_fields_A F hPi
  have g1 : RN ((7933906170258947 / 2 ^ 39) * (1125899906842649 / 2 ^ 50) : K) =
      (7933906170259123 / 2 ^ 39) :=
    RN_val _ _ (1 / 2 ^ 39) (7933906170259123) (-39) (by norm_num) (by norm_num)
      (by norm_num) (by norm_num) (by norm_num) (by norm_num)
  have g2 : RN ((7933906170258947 / 2 ^ 39) / 1000 : K) =
      (4062159959172581 / 2 ^ 48) :=
    RN_val _ _ (1 / 2 ^ 49) (8124319918345162) (-49) (by norm_num) (by norm_num)
      (by norm_num) (by norm_num) (by norm_num) (by norm_num)
  have g3 : RN ((4062159959172581 / 2 ^ 48) * (1125899906842649 / 2 ^ 50) : K) =
      (4062159959172671 / 2 ^ 48) :=
    RN_val _ _ (1 / 2 ^ 49) (8124319918345342) (-49) (by norm_num) (by norm_num)
      (by norm_num) (by norm_num) (by norm_num) (by norm_num)
  have g4 : RN ((9 / 2) * (1125899906842649 / 2 ^ 50) : K) =
      (316659348799495 / 2 ^ 46) :=
    RN_val_even _ _ (1 / 2 ^ 50) (5066549580791920) (-50) (by norm_num) (by norm_num) (by decide)
      (by norm_num) (by norm_num) (by norm_num) (by norm_num)
  rw [← show T = Binary64.TrCone.ctor_fields F 0 (7 / 2) (9 / 2) 1000 from rfl] at hl
  rw [hT] at hl ⊢
  rw [Binary64_TolFact_eq F hEps]
  simp only [g1, g2, g3, g4] at hl ⊢
  have hgt : (316659348799495 / 2 ^ 46) < l := lt_of_lt_of_le (by norm_num) hb
  refine ⟨by norm_num, trivial, by norm_num, ⟨l, hl, hgt⟩, ?_⟩
  apply Binary64_GetPropCE_level_none F _ _ l
  · simp only [g1, g2, g3, g4, min_self]
    exact hl
  · rw [Binary64_TolFact_eq F hEps]
    simp only [g1, g2, g3, g4]
    exact hgt

/-- The fields of `TrCone(d0 = 0, d1 = 2, h = 3, rho = 1000)` in
binary64: the roundings of the constructor, one by one. -/
theorem Binary64_ctor_fields_B (F : MathFns K)
    (hPi : F.Pi = 884279719003555 / 2 ^ 48) :
    Binary64.TrCone.ctor_fields F 0 2 3 1000 =
      { m_h := 3, m_deltaR := 1, m_clVol := 2419099230609559 / 2 ^ 48
        m_Rh := 3, m_Rh3 := 27
        m_enclVol := 884279719003555 / 2 ^ 48, m_rho := 1000
        m_propMassCap := 6908435304715273 / 2 ^ 41 } := by
  have e1 : RN (0 / 2 : K) = 0 := RN_eq_zero _ (by norm_num)
  have e2 : RN (2 / 2 : K) =
      1 :=
    RN_val _ _ (1 / 2 ^ 52) (4503599627370496) (-52) (by norm_num) (by norm_num)
      (by norm_num) (by norm_num) (by norm_num) (by norm_num)
  have e3 : RN (1 - 0 : K) =
      1 :=
    RN_val _ _ (1 / 2 ^ 52) (4503599627370496) (-52) (by norm_num) (by norm_num)
      (by norm_num) (by norm_num) (by norm_num) (by norm_num)
  have e4 : RN (3 * 3 : K) =
      9 :=
    RN_val _ _ (1 / 2 ^ 49) (5066549580791808) (-49) (by norm_num) (by norm_num)
      (by norm_num) (by norm_num) (by norm_num) (by norm_num)
  have e5 : RN (3 / (884279719003555 / 2 ^ 48) : K) =
      (2150310427208497 / 2 ^ 51) :=
    RN_val _ _ (1 / 2 ^ 53) (8601241708833988) (-53) (by norm_num) (by norm_num)
      (by norm_num) (by norm_num) (by norm_num) (by norm_num)
  have e6 : RN ((2150310427208497 / 2 ^ 51) * 9 : K) =
      (2419099230609559 / 2 ^ 48) :=
    RN_val _ _ (1 / 2 ^ 49) (4838198461219118) (-49) (by norm_num) (by norm_num)
      (by norm_num) (by norm_num) (by norm_num) (by norm_num)
  have e7 : RN ((2419099230609559 / 2 ^ 48) * 1 : K) =
      (2419099230609559 / 2 ^ 48) :=
    RN_val _ _ (1 / 2 ^ 49) (4838198461219118) (-49) (by norm_num) (by norm_num)
      (by norm_num) (by norm_num) (by norm_num) (by norm_num)
  have e8 : RN (1 * 3 : K) =
      3 :=
    RN_val _ _ (1 / 2 ^ 51) (6755399441055744) (-51) (by norm_num) (by norm_num)
      (by norm_num) (by norm_num) (by norm_num) (by norm_num)
  have e9 : RN (9 * 3 : K) =
      27 :=
    RN_val _ _ (1 / 2 ^ 48) (7599824371187712) (-48) (by norm_num) (by norm_num)
      (by norm_num) (by norm_num) (by norm_num) (by norm_num)
  have e10 : RN (1 * 1 : K) =
      1 :=
    RN_val _ _ (1 / 2 ^ 52) (4503599627370496) (-52) (by norm_num) (by norm_num)
      (by norm_num) (by norm_num) (by norm_num) (by norm_num)
  have e11 : RN (0 * 0 : K) = 0 := RN_eq_zero _ (by norm_num)
  have e12 : RN ((884279719003555 / 2 ^ 48) / 3 : K) =
      (4716158501352293 / 2 ^ 52) :=
    RN_val _ _ (1 / 2 ^ 52) (4716158501352293) (-52) (by norm_num) (by norm_num)
      (by norm_num) (by norm_num) (by norm_num) (by norm_num)
  have e13 : RN ((4716158501352293 / 2 ^ 52) * 3 : K) =
      (884279719003555 / 2 ^ 48) :=
    RN_val_even _ _ (1 / 2 ^ 51) (7074237752028440) (-51) (by norm_num) (by norm_num) (by decide)
      (by norm_num) (by norm_num) (by norm_num) (by norm_num)
  have e14 : RN (1 * 0 : K) = 0 := RN_eq_zero _ (by norm_num)
  have e15 : RN (1 + 0 : K) =
      1 :=
    RN_val _ _ (1 / 2 ^ 52) (4503599627370496) (-52) (by norm_num) (by norm_num)
      (by norm_num) (by norm_num) (by norm_num) (by norm_num)
  have e16 : RN ((884279719003555 / 2 ^ 48) * 1 : K) =
      (884279719003555 / 2 ^ 48) :=
    RN_val _ _ (1 / 2 ^ 51) (7074237752028440) (-51) (by norm_num) (by norm_num)
      (by norm_num) (by norm_num) (by norm_num) (by norm_num)
  have e17 : RN (1000 * (884279719003555 / 2 ^ 48) : K) =
      (6908435304715273 / 2 ^ 41) :=
    RN_val _ _ (1 / 2 ^ 41) (6908435304715273) (-41) (by norm_num) (by norm_num)
      (by norm_num) (by norm_num) (by norm_num) (by norm_num)
  simp only [Binary64.TrCone.ctor_fields, hPi, e1, e2, e3, e4, e5, e6, e7, e8, e9, e10, e11,
    e12, e13, e14, e15, e16, e17]

/-- On `TrCone(d0 = 0, d1 = 2, h = 3, rho = 1000)` at the enclosed
volume, binary64: the product `m_clVol * a_v` rounds to the number next below
`m_Rh3`, the argument of the cube root is `2^-48` (it is 0 in exact
arithmetic), its cube root is above `2^-17`, and the level that `LevelOfVol`
returns is below `h - 2^-18`. -/
theorem Binary64_level_B (F : MathFns K)
    (hPi : F.Pi = 884279719003555 / 2 ^ 48)
    (hcb : ∀ x : K, |F.CbRt x ^ 3 - x| ≤ |x| / 2 ^ 40) :
    ∃ l, (Binary64.TrCone.ctor_fields F 0 2 3 1000).LevelOfVol F
        (Binary64.TrCone.ctor_fields F 0 2 3 1000).m_enclVol = some l ∧
      l ≤ 3 - 1 / 2 ^ 18 := by
  have f1 : RN ((2419099230609559 / 2 ^ 48) * (884279719003555 / 2 ^ 48) : K) =
      (7599824371187711 / 2 ^ 48) :=
    RN_val _ _ (1 / 2 ^ 48) (7599824371187711) (-48) (by norm_num) (by norm_num)
      (by norm_num) (by norm_num) (by norm_num) (by norm_num)
  have f2 : RN (27 - (7599824371187711 / 2 ^ 48) : K) =
      (1 / 2 ^ 48) :=
    RN_val _ _ (1 / 2 ^ 100) (4503599627370496) (-100) (by norm_num) (by norm_num)
      (by norm_num) (by norm_num) (by norm_num) (by norm_num)
  have h := hcb (1 / 2 ^ 48)
  rw [abs_of_pos (by norm_num : (0 : K) < (1 / 2 ^ 48)), abs_le] at h
  have hc : (1 / 2 ^ 17) ≤ F.CbRt (1 / 2 ^ 48) := by
    apply le_of_lt
    apply cbrt_lt_of_cube_lt
    have h1 : ((1 / 2 ^ 17) : K) ^ 3 = (1 / 2 ^ 51) := by norm_num
    rw [h1]
    have h2 : ((1 / 2 ^ 51) : K) < (1 / 2 ^ 48) - (1 / 2 ^ 48) / 2 ^ 40 := by norm_num
    linarith [h.1]
  have hc2 : F.CbRt (1 / 2 ^ 48) ≤ 3 := by
    apply le_of_lt
    apply cbrt_lt_of_cube_lt
    have h2 : ((1 / 2 ^ 48) : K) + (1 / 2 ^ 48) / 2 ^ 40 < 3 ^ 3 := by norm_num
    linarith [h.2]
  have hb := RN_cardano_upper 3 1 (F.CbRt (1 / 2 ^ 48)) (1 / 2 ^ 17) (by norm_num) hc hc2
  rw [Binary64_ctor_fields_B F hPi]
  refine ⟨_, ?_, le_trans hb (by norm_num)⟩
  unfold Binary64.TrCone.LevelOfVol assertion
  simp only [IsNeg, IsZero, f1, f2]
  rw [if_pos ⟨by norm_num, le_refl _⟩, if_neg (by norm_num)]

/-- The fields of `TrCone(d0 = 0, d1 = 11 / 2, h = 9 / 4, rho = 800)` in
binary64: the roundings of the constructor, one by one. -/
theorem Binary64_ctor_fields_C (F : MathFns K)
    (hPi : F.Pi = 884279719003555 / 2 ^ 48) :
    Binary64.TrCone.ctor_fields F 0 (11 / 2) (9 / 4) 800 =
      { m_h := 9 / 4, m_deltaR := 11 / 4, m_clVol := 1871022061174581 / 2 ^ 47
        m_Rh := 99 / 16, m_Rh3 := 970299 / 2 ^ 12
        m_enclVol := 5015524031223289 / 2 ^ 48, m_rho := 800
        m_propMassCap := 7836756298786389 / 2 ^ 39 } := by
  have e1 : RN (0 / 2 : K) = 0 := RN_eq_zero _ (by norm_num)
  have e2 : RN ((11 / 2) / 2 : K) =
      (11 / 4) :=
    RN_val _ _ (1 / 2 ^ 51) (6192449487634432) (-51) (by norm_num) (by norm_num)
      (by norm_num) (by norm_num) (by norm_num) (by norm_num)
  have e3 : RN ((11 / 4) - 0 : K) =
      (11 / 4) :=
    RN_val _ _ (1 / 2 ^ 51) (6192449487634432) (-51) (by norm_num) (by norm_num)
      (by norm_num) (by norm_num) (by norm_num) (by norm_num)
  have e4 : RN ((9 / 4) * (9 / 4) : K) =
      (81 / 16) :=
    RN_val _ _ (1 / 2 ^ 50) (5699868278390784) (-50) (by norm_num) (by norm_num)
      (by norm_num) (by norm_num) (by norm_num) (by norm_num)
  have e5 : RN (3 / (884279719003555 / 2 ^ 48) : K) =
      (2150310427208497 / 2 ^ 51) :=
    RN_val _ _ (1 / 2 ^ 53) (8601241708833988) (-53) (by norm_num) (by norm_num)
      (by norm_num) (by norm_num) (by norm_num) (by norm_num)
  have e6 : RN ((2150310427208497 / 2 ^ 51) * (81 / 16) : K) =
      (1360743317217877 / 2 ^ 48) :=
    RN_val _ _ (1 / 2 ^ 50) (5442973268871508) (-50) (by norm_num) (by norm_num)
      (by norm_num) (by norm_num) (by norm_num) (by norm_num)
  have e7 : RN ((1360743317217877 / 2 ^ 48) * (11 / 4) : K) =
      (1871022061174581 / 2 ^ 47) :=
    RN_val_even _ _ (1 / 2 ^ 49) (7484088244698324) (-49) (by norm_num) (by norm_num) (by decide)
      (by norm_num) (by norm_num) (by norm_num) (by norm_num)
  have e8 : RN ((11 / 4) * (9 / 4) : K) =
      (99 / 16) :=
    RN_val _ _ (1 / 2 ^ 50) (6966505673588736) (-50) (by norm_num) (by norm_num)
      (by norm_num) (by norm_num) (by norm_num) (by norm_num)
  have e9 : RN ((99 / 16) * (99 / 16) : K) =
      (9801 / 256) :=
    RN_val _ _ (1 / 2 ^ 47) (5388156731916288) (-47) (by norm_num) (by norm_num)
      (by norm_num) (by norm_num) (by norm_num) (by norm_num)
  have e10 : RN ((9801 / 256) * (99 / 16) : K) =
      (970299 / 2 ^ 12) :=
    RN_val _ _ (1 / 2 ^ 45) (8334804944683008) (-45) (by norm_num) (by norm_num)
      (by norm_num) (by norm_num) (by norm_num) (by norm_num)
  have e11 : RN ((11 / 4) * (11 / 4) : K) =
      (121 / 16) :=
    RN_val _ _ (1 / 2 ^ 50) (8514618045497344) (-50) (by norm_num) (by norm_num)
      (by norm_num) (by norm_num) (by norm_num) (by norm_num)
  have e12 : RN (0 * 0 : K) = 0 := RN_eq_zero _ (by norm_num)
  have e13 : RN ((884279719003555 / 2 ^ 48) / 3 : K) =
      (4716158501352293 / 2 ^ 52) :=
    RN_val _ _ (1 / 2 ^ 52) (4716158501352293) (-52) (by norm_num) (by norm_num)
      (by norm_num) (by norm_num) (by norm_num) (by norm_num)
  have e14 : RN ((4716158501352293 / 2 ^ 52) * (9 / 4) : K) =
      (2652839157010665 / 2 ^ 50) :=
    RN_val _ _ (1 / 2 ^ 51) (5305678314021330) (-51) (by norm_num) (by norm_num)
      (by norm_num) (by norm_num) (by norm_num) (by norm_num)
  have e15 : RN ((11 / 4) * 0 : K) = 0 := RN_eq_zero _ (by norm_num)
  have e16 : RN ((121 / 16) + 0 : K) =
      (121 / 16) :=
    RN_val _ _ (1 / 2 ^ 50) (8514618045497344) (-50) (by norm_num) (by norm_num)
      (by norm_num) (by norm_num) (by norm_num) (by norm_num)
  have e17 : RN ((2652839157010665 / 2 ^ 50) * (121 / 16) : K) =
      (5015524031223289 / 2 ^ 48) :=
    RN_val _ _ (1 / 2 ^ 48) (5015524031223289) (-48) (by norm_num) (by norm_num)
      (by norm_num) (by norm_num) (by norm_num) (by norm_num)
  have e18 : RN (800 * (5015524031223289 / 2 ^ 48) : K) =
      (7836756298786389 / 2 ^ 39) :=
    RN_val _ _ (1 / 2 ^ 39) (7836756298786389) (-39) (by norm_num) (by norm_num)
      (by norm_num) (by norm_num) (by norm_num) (by norm_num)
  simp only [Binary64.TrCone.ctor_fields, hPi, e1, e2, e3, e4, e5, e6, e7, e8, e9, e10, e11,
    e12, e13, e14, e15, e16, e17, e18]

/-- On `TrCone(d0 = 0, d1 = 11 / 2, h = 9 / 4, rho = 800)` at the enclosed
volume, binary64: the product `m_clVol * a_v` rounds to the number next above
`m_Rh3`, the argument of the cube root is `-2^-45` (it is 0 in exact
arithmetic), its cube root is below `-2^-16`, and the level that `LevelOfVol`
returns is above `h + 2^-18`. -/
theorem Binary64_level_C (F : MathFns K)
    (hPi : F.Pi = 884279719003555 / 2 ^ 48)
    (hcb : ∀ x : K, |F.CbRt x ^ 3 - x| ≤ |x| / 2 ^ 40) :
    ∃ l, (Binary64.TrCone.ctor_fields F 0 (11 / 2) (9 / 4) 800).LevelOfVol F
        (Binary64.TrCone.ctor_fields F 0 (11 / 2) (9 / 4) 800).m_enclVol = some l ∧
      9 / 4 + 1 / 2 ^ 18 ≤ l := by
  have f1 : RN ((1871022061174581 / 2 ^ 47) * (5015524031223289 / 2 ^ 48) : K) =
      (8334804944683009 / 2 ^ 45) :=
    RN_val _ _ (1 / 2 ^ 45) (8334804944683009) (-45) (by norm_num) (by norm_num)
      (by norm_num) (by norm_num) (by norm_num) (by norm_num)
  have f2 : RN ((970299 / 2 ^ 12) - (8334804944683009 / 2 ^ 45) : K) =
      (-(1 / 2 ^ 45)) :=
    RN_val_neg _ _ (1 / 2 ^ 97) (-4503599627370496) (-97) (by norm_num) (by norm_num)
      (by norm_num) (by norm_num) (by norm_num) (by norm_num)
  have hc : F.CbRt (-(1 / 2 ^ 45)) ≤ -(1 / 2 ^ 16) := by
    have h := hcb (-(1 / 2 ^ 45))
    rw [abs_neg, abs_of_pos (by norm_num : (0 : K) < (1 / 2 ^ 45)), abs_le] at h
    apply le_of_lt
    apply cbrt_lt_of_cube_lt
    have h1 : (-(1 / 2 ^ 16) : K) ^ 3 = -(1 / 2 ^ 48) := by norm_num
    rw [h1]
    have h2 : ((1 / 2 ^ 45) / 2 ^ 40 : K) - (1 / 2 ^ 45) < -(1 / 2 ^ 48) := by norm_num
    linarith [h.2]
  have hb := RN_cardano_lower (99 / 16) (11 / 4) (F.CbRt (-(1 / 2 ^ 45))) (1 / 2 ^ 16)
    (by norm_num) (by norm_num) (by norm_num) hc
  rw [Binary64_ctor_fields_C F hPi]
  refine ⟨_, ?_, le_trans (by norm_num) hb⟩
  unfold Binary64.TrCone.LevelOfVol assertion
  simp only [IsNeg, IsZero, f1, f2]
  rw [if_pos ⟨by norm_num, le_refl _⟩, if_neg (by norm_num)]

/-- C37 fails on the code. On the full cone
`TrCone(d0 = 0, d1 = 5.5, h = 2.25, rho = 800)`, in binary64 arithmetic
(`Pi<double>` and `Eps<double>` the binary64 constants, the cube root any
function whose cube is within the relative error `2^-40` of its argument),
`GetPropCE(GetPropMassCap())` returns no element, hence none whose moment of
inertia about OX is `(3/10) * capacity * R^2`: the mass and the volume pass
their assertions, the volume is the enclosed volume, `LevelOfVol` returns a
level above `m_h * TolFact`, and the assertion `l <= m_h * TolFact` fails. -/
theorem Binary64_full_cone_GetPropCE_fails (F : MathFns K)
    (hPi : F.Pi = 884279719003555 / 2 ^ 48)
    (hEps : F.Eps = 1 / 2 ^ 52)
    (hcb : ∀ x : K, |F.CbRt x ^ 3 - x| ≤ |x| / 2 ^ 40) :
    let T := Binary64.TrCone.ctor_fields F 0 (11 / 2) (9 / 4) 800
    T.m_propMassCap ≤ Binary64.RN (T.m_propMassCap * Binary64.TolFact F) ∧
    Binary64.RN (T.m_propMassCap / T.m_rho) = T.m_enclVol ∧
    T.m_enclVol ≤ Binary64.RN (T.m_enclVol * Binary64.TolFact F) ∧
    (∃ l, T.LevelOfVol F T.m_enclVol = some l ∧
      Binary64.RN (T.m_h * Binary64.TolFact F) < l) ∧
    T.GetPropCE_level F T.m_propMassCap = none := by
  intro T
  obtain ⟨l, hl, hb⟩ := Binary64_level_C F hPi hcb
  have hT : T = _ := Binary64_ctor_fields_C F hPi
  have g1 : RN ((7836756298786389 / 2 ^ 39) * (1125899906842649 / 2 ^ 50) : K) =
      (7836756298786563 / 2 ^ 39) :=
    RN_val _ _ (1 / 2 ^ 39) (7836756298786563) (-39) (by norm_num) (by norm_num)
      (by norm_num) (by norm_num) (by norm_num) (by norm_num)
  have g2 : RN ((7836756298786389 / 2 ^ 39) / 800 : K) =
      (5015524031223289 / 2 ^ 48) :=
    RN_val _ _ (1 / 2 ^ 48) (5015524031223289) (-48) (by norm_num) (by norm_num)
      (by norm_num) (by norm_num) (by norm_num) (by norm_num)
  have g3 : RN ((5015524031223289 / 2 ^ 48) * (1125899906842649 / 2 ^ 50) : K) =
      (626940503902925 / 2 ^ 45) :=
    RN_val _ _ (1 / 2 ^ 48) (5015524031223400) (-48) (by norm_num) (by norm_num)
      (by norm_num) (by norm_num) (by norm_num) (by norm_num)
  have g4 : RN ((9 / 4) * (1125899906842649 / 2 ^ 50) : K) =
      (316659348799495 / 2 ^ 47) :=
    RN_val_even _ _ (1 / 2 ^ 51) (5066549580791920) (-51) (by norm_num) (by norm_num) (by decide)
      (by norm_num) (by norm_num) (by norm_num) (by norm_num)
  rw [← show T = Binary64.TrCone.ctor_fields F 0 (11 / 2) (9 / 4) 800 from rfl] at hl
  rw [hT] at hl ⊢
  rw [Binary64_TolFact_eq F hEps]
  simp only [g1, g2, g3, g4] at hl ⊢
  have hgt : (316659348799495 / 2 ^ 47) < l := lt_of_lt_of_le (by norm_num) hb
  refine ⟨by norm_num, trivial, by norm_num, ⟨l, hl, hgt⟩, ?_⟩
  apply Binary64_GetPropCE_level_none F _ _ l
  · simp only [g1, g2, g3, g4, min_self]
    exact hl
  · rw [Binary64_TolFact_eq F hEps]
    simp only [g1, g2, g3, g4]
    exact hgt

/-- Witness of C17: the binary64 constants and the exact odd cube root on the
reals. -/
theorem Binary64_GetPropCE_capacity_fails_witness :
    let F : MathFns ℝ :=
      ⟨884279719003555 / 2 ^ 48, 1 / 2 ^ 52, Real.cos, Real.sin, Real.sqrt,
        fun x => if 0 ≤ x then x ^ ((3 : ℝ)⁻¹) else -((-x) ^ ((3 : ℝ)⁻¹))⟩
    let T := Binary64.TrCone.ctor_fields F 0 (7 / 2) (9 / 2) 1000
    (∃ l, T.LevelOfVol F T.m_enclVol = some l ∧
      Binary64.RN (T.m_h * Binary64.TolFact F) < l) ∧
    T.GetPropCE_level F T.m_propMassCap = none := by
  intro F T
  exact (Binary64_GetPropCE_capacity_fails F rfl rfl real_Binary64_laws.2).2.2.2

/-- Witness of C37: the binary64 constants and the exact odd cube root on the
reals. -/
theorem Binary64_full_cone_GetPropCE_fails_witness :
    let F : MathFns ℝ :=
      ⟨884279719003555 / 2 ^ 48, 1 / 2 ^ 52, Real.cos, Real.sin, Real.sqrt,
        fun x => if 0 ≤ x then x ^ ((3 : ℝ)⁻¹) else -((-x) ^ ((3 : ℝ)⁻¹))⟩
    let T := Binary64.TrCone.ctor_fields F 0 (11 / 2) (9 / 4) 800
    (∃ l, T.LevelOfVol F T.m_enclVol = some l ∧
      Binary64.RN (T.m_h * Binary64.TolFact F) < l) ∧
    T.GetPropCE_level F T.m_propMassCap = none := by
  intro F T
  exact (Binary64_full_cone_GetPropCE_fails F rfl rfl real_Binary64_laws.2).2.2.2

/-- C19 fails on the code. On the full cone
`TrCone(d0 = 0, d1 = 2, h = 3, rho = 1000)`, in binary64 arithmetic
(`Pi<double>` the binary64 constant, the cube root any function whose cube is
within the relative error `2^-40` of its argument), `LevelOfVol(enclosedVolume)`
returns a level below `h - 2^-18`, not `h`: the argument of the cube root is
`2^-48` where exact arithmetic gives 0. -/
theorem Binary64_LevelOfVol_full_below_h (F : MathFns K)
    (hPi : F.Pi = 884279719003555 / 2 ^ 48)
    (hcb : ∀ x : K, |F.CbRt x ^ 3 - x| ≤ |x| / 2 ^ 40) :
    let T := Binary64.TrCone.ctor_fields F 0 2 3 1000
    ∃ l, T.LevelOfVol F T.m_enclVol = some l ∧ l ≤ T.m_h - 1 / 2 ^ 18 ∧ l ≠ T.m_h := by
  intro T
  obtain ⟨l, hl, hb⟩ := Binary64_level_B F hPi hcb
  have hb2 : l ≤ T.m_h - 1 / 2 ^ 18 := hb
  refine ⟨l, hl, hb2, ?_⟩
  intro h
  rw [h] at hb2
  linarith [show (0 : K) < 1 / 2 ^ 18 by norm_num]

/-- Witness of C19: the binary64 constants and the exact odd cube root on the
reals. -/
theorem Binary64_LevelOfVol_full_below_h_witness :
    let F : MathFns ℝ :=
      ⟨884279719003555 / 2 ^ 48, 1 / 2 ^ 52, Real.cos, Real.sin, Real.sqrt,
        fun x => if 0 ≤ x then x ^ ((3 : ℝ)⁻¹) else -((-x) ^ ((3 : ℝ)⁻¹))⟩
    let T := Binary64.TrCone.ctor_fields F 0 2 3 1000
    ∃ l, T.LevelOfVol F T.m_enclVol = some l ∧ l ≤ T.m_h - 1 / 2 ^ 18 ∧ l ≠ T.m_h := by
  intro F
  exact Binary64_LevelOfVol_full_below_h F rfl real_Binary64_laws.2

/-- C27 fails on the code. On the cone `TrCone(d0 = 0, d1 = 3.5, h = 4.5,
rho = 1000)` (`r = 0`, `R = 1.75`, so `r != R`) at `v = enclosedVolume`, in
binary64 arithmetic (`Pi<double>` the binary64 constant, the cube root any
function whose cube is within the relative error `2^-40` of its argument), the
level that `LevelOfVol` returns is above `h + 2^-16`: it is not in `[0, h]`. -/
theorem Binary64_LevelOfVol_full_above_h (F : MathFns K)
    (hPi : F.Pi = 884279719003555 / 2 ^ 48)
    (hcb : ∀ x : K, |F.CbRt x ^ 3 - x| ≤ |x| / 2 ^ 40) :
    let T := Binary64.TrCone.ctor_fields F 0 (7 / 2) (9 / 2) 1000
    ∃ l, T.LevelOfVol F T.m_enclVol = some l ∧ T.m_h + 1 / 2 ^ 16 ≤ l ∧ ¬ l ≤ T.m_h := by
  intro T
  obtain ⟨l, hl, hb⟩ := Binary64_level_A F hPi hcb
  have hb2 : T.m_h + 1 / 2 ^ 16 ≤ l := hb
  refine ⟨l, hl, hb2, ?_⟩
  intro h
  linarith [show (0 : K) < 1 / 2 ^ 16 by norm_num]

/-- Witness of C27: the binary64 constants and the exact odd cube root on the
reals. -/
theorem Binary64_LevelOfVol_full_above_h_witness :
    let F : MathFns ℝ :=
      ⟨884279719003555 / 2 ^ 48, 1 / 2 ^ 52, Real.cos, Real.sin, Real.sqrt,
        fun x => if 0 ≤ x then x ^ ((3 : ℝ)⁻¹) else -((-x) ^ ((3 : ℝ)⁻¹))⟩
    let T := Binary64.TrCone.ctor_fields F 0 (7 / 2) (9 / 2) 1000
    ∃ l, T.LevelOfVol F T.m_enclVol = some l ∧ T.m_h + 1 / 2 ^ 16 ≤ l ∧ ¬ l ≤ T.m_h := by
  intro F
  exact Binary64_LevelOfVol_full_above_h F rfl real_Binary64_laws.2

end Binary64Facts

end SpaceBallistics
